import Mathlib

/-! Smart-SNI-Proxy: the query-resolution engine and the front-ends of
`src/main.go`.

A shallow embedding of the domain matcher, the response cache, the resolver
pipeline, the user access table, the DoH handler, the SNI splicer, the
configuration store and the framed front-ends (DoT, DNS over TCP) of
`src/main.go`, and of the matcher of `src/test_matching.go`, with the
properties the specification states.

Modelling conventions.

* A Go `string` is a `List Char` (`GoString`).  Host names and patterns are
  ASCII; `strings.ToLower` / `strings.ToUpper` are embedded as the rune-wise
  maps `Char.toLower` / `Char.toUpper`, which act on the ASCII letters.  The
  server name of a ClientHello is any text: in the SNI splicer
  `strings.ToLower` is a parameter.
* A Go `[]byte` is a `List Byte` with `Byte = Fin 256`.
* `time.Time` is an integer count of nanoseconds; every operation that reads
  the clock takes the instant `now` as an argument.
* Process-wide variables (`config`, `dnsCache`, `metrics`, `dohUpstream`) are
  passed explicitly, a `sync.Map` is an association list.
* A call that can raise a run-time panic returns an `Outcome`.
* The calls into `net`, `github.com/miekg/dns` and `net/http` are the fields of
  a structure `Lib`; the replies of the resolver are stated on the `dns.Msg`
  that is handed to `Pack`.
* The maps `users` and `ipToUser` are an `AccessTable`; a `*User` is stored by
  value, every function storing the user back under the key it loaded it from.
* The verdicts of the token buckets of `golang.org/x/time/rate` are inputs of
  the DoH handler (`Limits`).
* The inbound side of a TCP connection is the list of the segments still to
  arrive (`ByteStream`); the handshake of `crypto/tls` is any program of reads
  (`Handshake`); a copy loop takes fuel, one unit for each `Read`.
* `os.ReadFile` and `json.Unmarshal` are the fields of a structure `Disk`, the
  environment is a function `getenv`; what `SetReadDeadline`,
  `SetWriteDeadline` and `Write` return on a connection is a `ConnEnv`.
-/

namespace SmartSNI

/-! Strings -/

/-- Go `string`. -/
abbrev GoString := List Char

/-- Go `byte`. -/
abbrev Byte := Fin 256

/-- Go `[]byte`. -/
abbrev Bytes := List Byte

/-- `strings.ToLower` on ASCII text: the letters `A` to `Z` are folded, every
other character is left as it is. (`strings.ToLower` also folds the letters
outside ASCII; the names the resolver hands to the matcher come from
`dns.Msg.Unpack`, which writes every byte outside printable ASCII as an escape.
Where the text is arbitrary, in `routeSNI`, the function is a parameter.) -/
def toLower (s : GoString) : GoString := s.map Char.toLower

/-- `strings.ToUpper` on ASCII text: the letters `a` to `z` are folded, every
other character is left as it is. -/
def toUpper (s : GoString) : GoString := s.map Char.toUpper

/-- `strings.HasPrefix(s, pre)`. -/
def hasPrefix (s pre : GoString) : Bool := pre.isPrefixOf s

/-- `strings.HasSuffix(s, suf)`. -/
def hasSuffix (s suf : GoString) : Bool := suf.isSuffixOf s

/-- `strings.TrimSuffix(s, suf)`: `s` without the trailing `suf`, or `s` itself. -/
def trimSuffix (s suf : GoString) : GoString :=
  if hasSuffix s suf then s.take (s.length - suf.length) else s

/-- `func trimDot(s string) string { return strings.TrimSuffix(s, ".") }` -/
def trimDot (s : GoString) : GoString := trimSuffix s ['.']

/-- `func countDots(s string) int { return strings.Count(s, ".") }` -/
def countDots (s : GoString) : Nat := s.count '.'

/-- The normal form both arguments of the matcher are brought to:
`strings.ToLower(trimDot(s))`. -/
def normalise (s : GoString) : GoString := toLower (trimDot s)

/-- The wildcard pattern `"*." + d`. -/
def wildcard (d : GoString) : GoString := '*' :: '.' :: d

/-- The function `matches` of `src/main.go` (lines 644-657; `matches` is reserved in Lean):
suffix test plus dot-count comparison for `*.` patterns, equality otherwise. -/
def matchesPattern (host pattern : GoString) : Bool :=
  let h := toLower (trimDot host)
  let p := toLower (trimDot pattern)
  if p = [] then false
  else if hasPrefix p ['*', '.'] then
    let suf := p.drop 1
    hasSuffix h suf && decide (countDots h ≥ countDots p)
  else decide (h = p)

/-- The function `matches` of `src/test_matching.go` (lines 10-25): suffix test
plus the test that the prefix before the suffix is not empty. -/
def matchesPatternTest (host pattern : GoString) : Bool :=
  let h := toLower (trimDot host)
  let p := toLower (trimDot pattern)
  if p = [] then false
  else if hasPrefix p ['*', '.'] then
    let suf := p.drop 1
    if !hasSuffix h suf then false
    else
      let prefixLen : Int := (h.length : Int) - (suf.length : Int)
      decide (prefixLen > 0)
  else decide (h = p)

/-! Process-wide state -/

/-- The struct `Config` of `src/main.go`; every field defaults to its Go zero value.
`Domains` is the override map in the order a `range` over it visits it. -/
structure Config where
  Host : GoString := []
  Domains : List (GoString × GoString) := []
  SNIPort : Int := 0
  DNSEnabled : Bool := false
  UpstreamDOH : List GoString := []
  AuthTokens : List GoString := []
  EnableAuth : Bool := false
  CacheTTL : Int := 0
  RateLimitPerIP : Int := 0
  RateLimitBurstIP : Int := 0
  LogLevel : GoString := []
  TrustedProxies : List GoString := []
  BlockedDomains : List GoString := []
  MetricsEnabled : Bool := false
  WebPanelEnabled : Bool := false
  WebPanelUsername : GoString := []
  WebPanelPassword : GoString := []
  WebPanelPort : Int := 0
  UserManagement : Bool := false
  deriving DecidableEq, Repr

/-- The struct `Metrics`: six `uint64` counters. -/
structure Metrics where
  dohQueries : Nat := 0
  dotQueries : Nat := 0
  sniConnections : Nat := 0
  cacheHits : Nat := 0
  cacheMisses : Nat := 0
  errors : Nat := 0
  deriving DecidableEq, Repr

/-- `atomic.AddUint64(p, 1)`: addition modulo `2 ^ 64`. -/
def addUint64 (x : Nat) : Nat := (x + 1) % 2 ^ 64

/-- `func (m *Metrics) IncCacheHits()` -/
def Metrics.IncCacheHits (m : Metrics) : Metrics := { m with cacheHits := addUint64 m.cacheHits }

/-- `func (m *Metrics) IncCacheMisses()` -/
def Metrics.IncCacheMisses (m : Metrics) : Metrics :=
  { m with cacheMisses := addUint64 m.cacheMisses }

/-- `func (m *Metrics) IncErrors()` -/
def Metrics.IncErrors (m : Metrics) : Metrics := { m with errors := addUint64 m.errors }

/-- The struct `CacheEntry`: response bytes and the instant of expiry (nanoseconds). -/
structure CacheEntry where
  Response : Bytes
  ExpiresAt : Int
  deriving DecidableEq, Repr

/-- A `sync.Map`, as an association list with at most one entry per key in use. -/
abbrev SyncMap (κ ν : Type) := List (κ × ν)

/-- `m.Load(k)` -/
def SyncMap.Load {κ ν : Type} [DecidableEq κ] (m : SyncMap κ ν) (k : κ) : Option ν :=
  (m.find? (fun e => decide (e.1 = k))).map Prod.snd

/-- `m.Delete(k)` -/
def SyncMap.Delete {κ ν : Type} [DecidableEq κ] (m : SyncMap κ ν) (k : κ) : SyncMap κ ν :=
  m.filter (fun e => !decide (e.1 = k))

/-- `m.Store(k, v)` -/
def SyncMap.Store {κ ν : Type} [DecidableEq κ] (m : SyncMap κ ν) (k : κ) (v : ν) :
    SyncMap κ ν :=
  (k, v) :: SyncMap.Delete m k

/-- The globals the resolver reads and writes: `config`, `dohUpstream`,
`dnsCache`, `metrics`. -/
structure State where
  config : Config := {}
  dohUpstream : List GoString := []
  dnsCache : SyncMap GoString CacheEntry := []
  metrics : Metrics := {}
  deriving DecidableEq, Repr

deriving instance DecidableEq for Except

/-- How a Go call ends: it returns, or it panics (a run-time error unwinds it). -/
inductive Outcome (α : Type) where
  | ret : α → Outcome α
  | panic : Outcome α
  deriving DecidableEq, Repr

/-! The response cache -/

/-- The alphabet of `base64.StdEncoding`. -/
def encodeStd : GoString :=
  "ABCDEFGHIJKLMNOPQRSTUVWXYZabcdefghijklmnopqrstuvwxyz0123456789+/".toList

/-- The table lookup `enc.encode[x]`, for an index masked with `0x3F`. -/
def encodeIdx (x : Nat) : Char := encodeStd.getD x 'A'

/-- `base64.StdEncoding.EncodeToString`: three bytes give four characters, a
remainder of one or two bytes is padded with `=`. -/
def base64StdEncode : Bytes → GoString
  | a :: b :: c :: rest =>
      let val := a.val <<< 16 ||| b.val <<< 8 ||| c.val
      encodeIdx (val >>> 18 &&& 0x3F) :: encodeIdx (val >>> 12 &&& 0x3F) ::
        encodeIdx (val >>> 6 &&& 0x3F) :: encodeIdx (val &&& 0x3F) :: base64StdEncode rest
  | [a, b] =>
      let val := a.val <<< 16 ||| b.val <<< 8
      [encodeIdx (val >>> 18 &&& 0x3F), encodeIdx (val >>> 12 &&& 0x3F),
        encodeIdx (val >>> 6 &&& 0x3F), '=']
  | [a] =>
      let val := a.val <<< 16
      [encodeIdx (val >>> 18 &&& 0x3F), encodeIdx (val >>> 12 &&& 0x3F), '=', '=']
  | [] => []

/-- `func getCacheKey(query []byte) string` -/
def getCacheKey (query : Bytes) : GoString := base64StdEncode query

/-- The slice expression `s[:n]`; `none` is the run-time panic
"slice bounds out of range" raised when `n > len(s)`. -/
def sliceTo (s : GoString) (n : Nat) : Option GoString :=
  if n ≤ s.length then some (s.take n) else none

/-- Conversion to `int64`: the value modulo `2 ^ 64`, in `[-2 ^ 63, 2 ^ 63)`. -/
def wrapInt64 (x : Int) : Int := (x + 2 ^ 63) % 2 ^ 64 - 2 ^ 63

/-- `time.Duration(n) * time.Second`, in nanoseconds (`int64` arithmetic). -/
def secondsToDuration (n : Int) : Int := wrapInt64 (wrapInt64 n * 1000000000)

/-- `func getCachedResponse(query []byte) ([]byte, bool)`, run at instant `now`.
The argument of the `logger.Debug` call on a hit evaluates `key[:20]`. -/
def getCachedResponse (now : Int) (s : State) (query : Bytes) :
    State × Outcome (Bytes × Bool) :=
  let key := getCacheKey query
  match s.dnsCache.Load key with
  | none => ({ s with metrics := s.metrics.IncCacheMisses }, .ret ([], false))
  | some entry =>
    if now > entry.ExpiresAt then
      ({ s with dnsCache := s.dnsCache.Delete key, metrics := s.metrics.IncCacheMisses },
        .ret ([], false))
    else
      let s1 := { s with metrics := s.metrics.IncCacheHits }
      match sliceTo key 20 with
      | none => (s1, .panic)
      | some _ => (s1, .ret (entry.Response, true))

/-- `func setCachedResponse(query, response []byte)`, run at instant `now`.
The argument of the `logger.Debug` call after the store evaluates `key[:20]`. -/
def setCachedResponse (now : Int) (s : State) (query response : Bytes) :
    State × Outcome Unit :=
  if s.config.CacheTTL ≤ 0 then (s, .ret ())
  else
    let key := getCacheKey query
    let entry : CacheEntry :=
      { Response := response, ExpiresAt := now + secondsToDuration s.config.CacheTTL }
    let s1 := { s with dnsCache := s.dnsCache.Store key entry }
    match sliceTo key 20 with
    | none => (s1, .panic)
    | some _ => (s1, .ret ())

/-! DNS messages and the libraries the resolver calls -/

/-- Go `error` values the resolver produces or hands on. -/
inductive GoError where
  /-- `errors.New(s)`, or the error of a library call, by its text. -/
  | text (s : GoString)
  /-- `fmt.Errorf("invalid IP address: %s", ipStr)` -/
  | invalidIP (ipStr : GoString)
  /-- `fmt.Errorf("upstream status %d: %s", code, slurp)` -/
  | upstreamStatus (code : Nat) (slurp : Bytes)
  /-- `fmt.Errorf("all upstream servers failed, last error: %w", lastErr)` -/
  | allUpstreamsFailed (lastErr : GoError)
  /-- The same with a nil `lastErr`. -/
  | allUpstreamsFailedNil
  /-- `fmt.Errorf("invalid IP address for domain %s: %s", pattern, ip)` -/
  | invalidDomainIP (pattern ip : GoString)
  /-- `fmt.Errorf("invalid log level: %s", level)` -/
  | invalidLogLevel (level : GoString)
  /-- `fmt.Errorf("config validation failed: %w", err)` -/
  | configValidationFailed (err : GoError)
  deriving DecidableEq, Repr

/-- `net.IP`, a byte slice of length 4 or 16. -/
abbrev IP := Bytes

/-- `net.IP.To4`: the 4-byte form of an IPv4 or IPv4-mapped address, `none` for nil. -/
def To4 (ip : IP) : Option IP :=
  if ip.length = 4 then some ip
  else if ip.length = 16 ∧ (ip.take 10).all (fun b => decide (b = 0)) = true
      ∧ ip.getD 10 0 = 0xff ∧ ip.getD 11 0 = 0xff then
    some ((ip.drop 12).take 4)
  else none

/-- `net.IP.To16`: the 16-byte form, `none` for nil. -/
def To16 (ip : IP) : Option IP :=
  if ip.length = 4 then some ([0, 0, 0, 0, 0, 0, 0, 0, 0, 0, 0xff, 0xff] ++ ip)
  else if ip.length = 16 then some ip
  else none

/-- `dns.Question` -/
structure Question where
  Name : GoString := []
  Qtype : Nat := 0
  Qclass : Nat := 0
  deriving DecidableEq, Repr

/-- `dns.RR_Header` -/
structure RR_Header where
  Name : GoString := []
  Rrtype : Nat := 0
  Class : Nat := 0
  Ttl : Nat := 0
  Rdlength : Nat := 0
  deriving DecidableEq, Repr

/-- `dns.RR`: the records the resolver builds (`*dns.A`, `*dns.AAAA`), and any
other record by its header and data. -/
inductive RR where
  | A (Hdr : RR_Header) (A : IP)
  | AAAA (Hdr : RR_Header) (AAAA : IP)
  | other (Hdr : RR_Header) (rdata : Bytes)
  deriving DecidableEq, Repr

/-- The method `Header()` of a `dns.RR`. -/
def RR.Header : RR → RR_Header
  | .A Hdr _ => Hdr
  | .AAAA Hdr _ => Hdr
  | .other Hdr _ => Hdr

/-- `dns.Msg`; the defaults are the zero message `new(dns.Msg)`. -/
structure Msg where
  Id : Nat := 0
  Response : Bool := false
  Opcode : Int := 0
  Authoritative : Bool := false
  Truncated : Bool := false
  RecursionDesired : Bool := false
  RecursionAvailable : Bool := false
  Zero : Bool := false
  AuthenticatedData : Bool := false
  CheckingDisabled : Bool := false
  Rcode : Int := 0
  Compress : Bool := false
  Question : List Question := []
  Answer : List RR := []
  Ns : List RR := []
  Extra : List RR := []
  deriving DecidableEq, Repr

def TypeA : Nat := 1
def TypeAAAA : Nat := 28
def TypeANY : Nat := 255
def ClassINET : Nat := 1
def OpcodeQuery : Int := 0
def RcodeSuccess : Int := 0
def RcodeRefused : Int := 5

/-- `defaultTTL uint32 = 3600` -/
def defaultTTL : Nat := 3600

/-- `(*dns.Msg).SetReply(request)` on a zero message. -/
def SetReply (request : Msg) : Msg :=
  { Id := request.Id
    Response := true
    Opcode := request.Opcode
    RecursionDesired := if request.Opcode = OpcodeQuery then request.RecursionDesired else false
    CheckingDisabled := if request.Opcode = OpcodeQuery then request.CheckingDisabled else false
    Rcode := RcodeSuccess
    Question := request.Question.take 1 }

/-- What one POST of `dohClient` gives: no request could be built, the transport
failed, or a response arrived with a status code and a body (the body as
`io.ReadAll` returns it). -/
inductive Exchange where
  | badRequest (err : GoError)
  | transport (err : GoError)
  | response (status : Nat) (body : Except GoError Bytes)

/-- The library and network calls of the resolver, as functions. -/
structure Lib where
  /-- `net.ParseIP`; `none` is nil, a result has 16 bytes. -/
  ParseIP : GoString → Option IP
  /-- `(*dns.Msg).Unpack` into a zero message. -/
  Unpack : Bytes → Except GoError Msg
  /-- `(*dns.Msg).Pack` -/
  Pack : Msg → Except GoError Bytes
  /-- The HTTP POST of a query to an upstream URL. -/
  Post : GoString → Bytes → Exchange

/-- The library contract the resolver relies on: `net.ParseIP` returns the
16-byte form, and a wire message that unpacks to a message with a question has
at least 13 bytes (12 of header and at least 1 of name; `Unpack` accepts a
question that ends right after its name). -/
structure Lib.Sound (lib : Lib) : Prop where
  parseIP_len : ∀ s ip, lib.ParseIP s = some ip → ip.length = 16
  unpack_len : ∀ q m, lib.Unpack q = .ok m → m.Question ≠ [] → 13 ≤ q.length

/-! The resolver -/

/-- `func isDomainBlocked(domain string) bool` -/
def isDomainBlocked (cfg : Config) (domain : GoString) : Bool :=
  cfg.BlockedDomains.any (fun blocked => matchesPattern domain blocked)

/-- `func findValueByPattern(m map[string]string, host string) (string, bool)`,
the map being given in the order the `range` visits it. -/
def findValueByPattern : List (GoString × GoString) → GoString → GoString × Bool
  | [], _ => ([], false)
  | (k, v) :: rest, host =>
    if matchesPattern host k then (v, true) else findValueByPattern rest host

/-- The message `resp` of `buildBlockedResponse` when it is packed. -/
def blockedReply (req : Msg) : Msg :=
  { SetReply req with RecursionAvailable := true, Rcode := RcodeRefused }

/-- `func buildBlockedResponse(req *dns.Msg) ([]byte, error)` -/
def buildBlockedResponse (lib : Lib) (req : Msg) : Except GoError Bytes :=
  lib.Pack (blockedReply req)

/-- The message `resp` of `buildLocalDNSResponse` when it is packed, for the
first question `q` of `req` and the parsed override address `ip`: the `switch`
on `q.Qtype` (lines 788-838). -/
def localReply (req : Msg) (q : Question) (ip : IP) : Msg :=
  let resp : Msg := { SetReply req with RecursionAvailable := true, Compress := true }
  let name := q.Name
  if q.Qtype = TypeA then
    match To4 ip with
    | some ip4 =>
      { resp with Answer := resp.Answer ++
          [RR.A { Name := name, Rrtype := TypeA, Class := ClassINET, Ttl := defaultTTL } ip4] }
    | none => resp
  else if q.Qtype = TypeAAAA then
    match To16 ip with
    | some ip16 =>
      if To4 ip = none then
        { resp with Answer := resp.Answer ++
            [RR.AAAA { Name := name, Rrtype := TypeAAAA, Class := ClassINET, Ttl := defaultTTL }
              ip16] }
      else resp
    | none => resp
  else if q.Qtype = TypeANY then
    match To4 ip with
    | some ip4 =>
      { resp with Answer := resp.Answer ++
          [RR.A { Name := name, Rrtype := TypeA, Class := ClassINET, Ttl := defaultTTL } ip4] }
    | none =>
      match To16 ip with
      | some ip16 =>
        { resp with Answer := resp.Answer ++
            [RR.AAAA { Name := name, Rrtype := TypeAAAA, Class := ClassINET, Ttl := defaultTTL }
              ip16] }
      | none => resp
  else resp

/-- `func buildLocalDNSResponse(req *dns.Msg, ipStr string) ([]byte, error)`;
`req.Question[0]` panics on a request without question. -/
def buildLocalDNSResponse (lib : Lib) (req : Msg) (ipStr : GoString) :
    Outcome (Except GoError Bytes) :=
  match lib.ParseIP ipStr with
  | none => .ret (.error (.invalidIP ipStr))
  | some ip =>
    match req.Question with
    | [] => .panic
    | q :: _ => .ret (lib.Pack (localReply req q ip))

/-- `func queryUpstreamDoH(upstream string, query []byte) ([]byte, error)` -/
def queryUpstreamDoH (lib : Lib) (upstream : GoString) (query : Bytes) : Except GoError Bytes :=
  match lib.Post upstream query with
  | .badRequest err => .error err
  | .transport err => .error err
  | .response status body =>
    if status ≠ 200 then
      .error (.upstreamStatus status (match body with | .ok b => b.take 512 | .error _ => []))
    else body

/-- What a call of `processDNSQuery` leaves: the globals, how the call ended and
with what, and the upstream URLs it posted to, in order. -/
structure Result where
  state : State
  out : Outcome (Except GoError Bytes)
  contacted : List GoString

/-- The failover loop of `processDNSQuery` (lines 883-898) over the upstreams
not yet tried; `lastErr` is nil (`none`) before the first failure. -/
def forwardUpstream (lib : Lib) (tInsert : Int) (s : State) (query : Bytes) :
    List GoString → Option GoError → List GoString → Result
  | [], lastErr, log =>
    { state := { s with metrics := s.metrics.IncErrors }
      out := .ret (.error (match lastErr with
        | some e => .allUpstreamsFailed e
        | none => .allUpstreamsFailedNil))
      contacted := log }
  | upstream :: rest, _, log =>
    match queryUpstreamDoH lib upstream query with
    | .ok resp =>
      match setCachedResponse tInsert s query resp with
      | (s1, .ret _) => { state := s1, out := .ret (.ok resp), contacted := log ++ [upstream] }
      | (s1, .panic) => { state := s1, out := .panic, contacted := log ++ [upstream] }
    | .error err => forwardUpstream lib tInsert s query rest (some err) (log ++ [upstream])

/-- `func processDNSQuery(query []byte) ([]byte, error)`; the clock reads
`tLookup` in `getCachedResponse` and `tInsert` in `setCachedResponse`. -/
def processDNSQuery (lib : Lib) (tLookup tInsert : Int) (s : State) (query : Bytes) : Result :=
  match lib.Unpack query with
  | .error err => { state := s, out := .ret (.error err), contacted := [] }
  | .ok req =>
    match req.Question with
    | [] => { state := s, out := .ret (.error (.text "no DNS question".toList)), contacted := [] }
    | q0 :: _ =>
      let qName := trimDot q0.Name
      if isDomainBlocked s.config qName then
        { state := { s with metrics := s.metrics.IncErrors }
          out := .ret (buildBlockedResponse lib req)
          contacted := [] }
      else
        match getCachedResponse tLookup s query with
        | (s1, .panic) => { state := s1, out := .panic, contacted := [] }
        | (s1, .ret (cached, true)) => { state := s1, out := .ret (.ok cached), contacted := [] }
        | (s1, .ret (_, false)) =>
          match findValueByPattern s1.config.Domains qName with
          | (ip, true) =>
            match buildLocalDNSResponse lib req ip with
            | .panic => { state := s1, out := .panic, contacted := [] }
            | .ret (.error err) => { state := s1, out := .ret (.error err), contacted := [] }
            | .ret (.ok resp) =>
              match setCachedResponse tInsert s1 query resp with
              | (s2, .ret _) => { state := s2, out := .ret (.ok resp), contacted := [] }
              | (s2, .panic) => { state := s2, out := .panic, contacted := [] }
          | (_, false) => forwardUpstream lib tInsert s1 query s1.dohUpstream none []

/-! A concrete library instance, to run the resolver on sample inputs -/

/-- The 12-byte header of the wire form of a message (RFC 1035, section 4.1.1). -/
def packHeader (m : Msg) : Bytes :=
  let bit (b : Bool) (k : Nat) : Nat := if b then 2 ^ k else 0
  let flagsHi := bit m.Response 7 + (m.Opcode.toNat % 16) * 8 + bit m.Authoritative 2
    + bit m.Truncated 1 + bit m.RecursionDesired 0
  let flagsLo := bit m.RecursionAvailable 7 + bit m.Zero 6 + bit m.AuthenticatedData 5
    + bit m.CheckingDisabled 4 + m.Rcode.toNat % 16
  let u16 (n : Nat) : Bytes := [Fin.ofNat (n / 256), Fin.ofNat n]
  u16 m.Id ++ [Fin.ofNat flagsHi, Fin.ofNat flagsLo] ++ u16 m.Question.length
    ++ u16 m.Answer.length ++ u16 m.Ns.length ++ u16 m.Extra.length

/-- The wire form of the query `example.com. IN A`, ID `0x1234`, RD set. -/
def queryExampleA : Bytes :=
  [0x12, 0x34, 0x01, 0x00, 0, 1, 0, 0, 0, 0, 0, 0,
   7, 101, 120, 97, 109, 112, 108, 101, 3, 99, 111, 109, 0, 0, 1, 0, 1]

/-- The message `queryExampleA` unpacks to. -/
def requestExampleA : Msg :=
  { Id := 0x1234, RecursionDesired := true
    Question := [{ Name := "example.com.".toList, Qtype := TypeA, Qclass := ClassINET }] }

/-- The request `example.com. IN ANY`. -/
def requestExampleANY : Msg :=
  { Id := 0x1234, RecursionDesired := true
    Question := [{ Name := "example.com.".toList, Qtype := TypeANY, Qclass := ClassINET }] }

/-- `net.ParseIP("10.0.0.1")` and `net.ParseIP("::ffff:10.0.0.1")` -/
def ipMapped10 : IP := [0, 0, 0, 0, 0, 0, 0, 0, 0, 0, 0xff, 0xff, 10, 0, 0, 1]

/-- `net.ParseIP("2001:db8::1")` -/
def ip2001db8 : IP := [0x20, 0x01, 0x0d, 0xb8, 0, 0, 0, 0, 0, 0, 0, 0, 0, 0, 0, 1]

/-- A library instance: `ParseIP` on three address texts, `Unpack` on
`queryExampleA`, `Pack` giving the header of the message, no upstream reachable. -/
def sampleLib : Lib where
  ParseIP := fun s =>
    if s = "10.0.0.1".toList then some ipMapped10
    else if s = "::ffff:10.0.0.1".toList then some ipMapped10
    else if s = "2001:db8::1".toList then some ip2001db8
    else none
  Unpack := fun q =>
    if q = queryExampleA then .ok requestExampleA
    else .error (.text "dns: unpack".toList)
  Pack := fun m => .ok (packHeader m)
  Post := fun _ _ => .transport (.text "dial tcp: unreachable".toList)

/-- A library instance with two upstreams: `https://u1/dns-query` refuses the
connection, `https://u2/dns-query` answers 200 with a two-byte body. -/
def failoverLib : Lib :=
  { sampleLib with
    Post := fun url _ =>
      if url = "https://u2/dns-query".toList then .response 200 (.ok [0xAB, 0xCD])
      else .transport (.text "connection refused".toList) }

/-! The access table: users and the IP index -/

/-- The struct `User`; an instant is a count of nanoseconds, `time.Time{}` is 0. -/
structure User where
  ID : GoString := []
  Name : GoString := []
  IPs : List GoString := []
  MaxIPs : Int := 0
  CreatedAt : Int := 0
  ExpiresAt : Int := 0
  IsActive : Bool := false
  Description : GoString := []
  UsageCount : Nat := 0
  LastUsed : Int := 0
  deriving DecidableEq, Repr

/-- The globals `users` (user ID to user) and `ipToUser` (IP to user ID). -/
structure AccessTable where
  users : SyncMap GoString User := []
  ipToUser : SyncMap GoString GoString := []
  deriving DecidableEq, Repr

/-- `t.AddDate(0, 0, days)` for a clock without zone transitions: `days` times
24 h, for a day count whose instant `time.Time` can hold (Go wraps beyond). -/
def AddDate (t days : Int) : Int := t + days * 86400000000000

/-- `func isUserAuthorized(ip string) bool`; the clock reads `tCheck` in the
expiry test and `tUse` for `LastUsed`. -/
def isUserAuthorized (cfg : Config) (tCheck tUse : Int) (tbl : AccessTable) (ip : GoString) :
    AccessTable × Bool :=
  if !cfg.UserManagement then (tbl, true)
  else
    match tbl.ipToUser.Load ip with
    | none => (tbl, false)
    | some userID =>
      match tbl.users.Load userID with
      | none => (tbl, false)
      | some user =>
        if !user.IsActive || decide (tCheck > user.ExpiresAt) then (tbl, false)
        else
          let user1 := { user with UsageCount := addUint64 user.UsageCount, LastUsed := tUse }
          ({ tbl with users := tbl.users.Store userID user1 }, true)

/-- `func getUserByID(id string) *User`; `none` is nil. -/
def getUserByID (tbl : AccessTable) (id : GoString) : Option User := tbl.users.Load id

/-- `func createUser(name, description string, maxIPs, validDays int) (*User, error)`;
`gen` is what `generateUserID()` returns, `now` what `time.Now()` returns. -/
def createUser (gen : Except GoError GoString) (now : Int) (tbl : AccessTable)
    (name description : GoString) (maxIPs validDays : Int) :
    AccessTable × Except GoError User :=
  match gen with
  | .error err => (tbl, .error err)
  | .ok id =>
    let user : User :=
      { ID := id, Name := name, IPs := [], MaxIPs := maxIPs, Description := description,
        CreatedAt := now, ExpiresAt := AddDate now validDays, IsActive := true,
        UsageCount := 0, LastUsed := 0 }
    ({ tbl with users := tbl.users.Store id user }, .ok user)

/-- `func extendUserExpiration(userID string, days int) error`; `none` is nil. -/
def extendUserExpiration (tbl : AccessTable) (userID : GoString) (days : Int) :
    AccessTable × Option GoError :=
  match getUserByID tbl userID with
  | none => (tbl, some (.text "user not found".toList))
  | some user =>
    let user1 : User := { user with ExpiresAt := AddDate user.ExpiresAt days }
    ({ tbl with users := tbl.users.Store userID user1 }, none)

/-- `func deactivateUser(userID string) error` -/
def deactivateUser (tbl : AccessTable) (userID : GoString) : AccessTable × Option GoError :=
  match getUserByID tbl userID with
  | none => (tbl, some (.text "user not found".toList))
  | some user =>
    let user1 : User := { user with IsActive := false }
    ({ tbl with users := tbl.users.Store userID user1 }, none)

/-- `func deleteUser(userID string) error` -/
def deleteUser (tbl : AccessTable) (userID : GoString) : AccessTable × Option GoError :=
  match getUserByID tbl userID with
  | none => (tbl, some (.text "user not found".toList))
  | some user =>
    ({ users := tbl.users.Delete userID
       ipToUser := user.IPs.foldl (fun m ip => SyncMap.Delete m ip) tbl.ipToUser }, none)

/-- `func addIPToUser(userID, clientIP string) error`, run at instant `now`. -/
def addIPToUser (now : Int) (tbl : AccessTable) (userID clientIP : GoString) :
    AccessTable × Option GoError :=
  match getUserByID tbl userID with
  | none => (tbl, some (.text "user not found".toList))
  | some user =>
    if !user.IsActive then (tbl, some (.text "user is inactive".toList))
    else if now > user.ExpiresAt then (tbl, some (.text "user expired".toList))
    else if clientIP ∈ user.IPs then (tbl, none)
    else
      let evicted : List GoString × SyncMap GoString GoString :=
        if (user.IPs.length : Int) ≥ user.MaxIPs ∧ user.MaxIPs > 0 then
          match user.IPs with
          | oldestIP :: rest => (rest, tbl.ipToUser.Delete oldestIP)
          | [] => (user.IPs, tbl.ipToUser)
        else (user.IPs, tbl.ipToUser)
      let user1 : User := { user with IPs := evicted.1 ++ [clientIP] }
      ({ users := tbl.users.Store userID user1
         ipToUser := evicted.2.Store clientIP userID }, none)

/-- `func checkExpiredUsers()`, run at instant `now`: every active user past its
expiry is stored back with `IsActive = false` under its own key. -/
def checkExpiredUsers (now : Int) (tbl : AccessTable) : AccessTable :=
  { tbl with users := tbl.users.map (fun e =>
      if e.2.IsActive && decide (now > e.2.ExpiresAt) then (e.1, { e.2 with IsActive := false })
      else e) }

/-- The calls `addIPToUser(userID, ip)` for the pairs (instant, IP) of a list,
one after the other. -/
def bindAll (tbl : AccessTable) (userID : GoString) : List (Int × GoString) → AccessTable
  | [] => tbl
  | (now, ip) :: rest => bindAll (addIPToUser now tbl userID ip).1 userID rest

/-- One call on the access table, with what the clock and the random source
give it. -/
inductive TableOp where
  | create (gen : Except GoError GoString) (now : Int) (name description : GoString)
      (maxIPs validDays : Int)
  | addIP (now : Int) (userID clientIP : GoString)
  | extend (userID : GoString) (days : Int)
  | deactivate (userID : GoString)
  | delete (userID : GoString)
  | checkExpired (now : Int)
  | authorize (cfg : Config) (tCheck tUse : Int) (ip : GoString)

/-- The access table after one call. -/
def TableOp.apply (tbl : AccessTable) : TableOp → AccessTable
  | .create gen now name description maxIPs validDays =>
    (createUser gen now tbl name description maxIPs validDays).1
  | .addIP now userID clientIP => (addIPToUser now tbl userID clientIP).1
  | .extend userID days => (extendUserExpiration tbl userID days).1
  | .deactivate userID => (deactivateUser tbl userID).1
  | .delete userID => (deleteUser tbl userID).1
  | .checkExpired now => checkExpiredUsers now tbl
  | .authorize cfg tCheck tUse ip => (isUserAuthorized cfg tCheck tUse tbl ip).1

/-- The access table after a sequence of calls, starting from the empty table. -/
def runOps (ops : List TableOp) : AccessTable := ops.foldl TableOp.apply {}

/-- The last `n` entries of a list (all of it when it has fewer). -/
def lastN {α : Type} (n : Nat) (l : List α) : List α := l.drop (l.length - n)

/-- The capacity bound on the users that have a capacity. -/
def CapacityOK (tbl : AccessTable) : Prop :=
  ∀ id u, tbl.users.Load id = some u → 0 < u.MaxIPs → (u.IPs.length : Int) ≤ u.MaxIPs

/-! The DoH front-end -/

/-- `unicode.IsSpace`: the white space `strings.TrimSpace` strips. -/
def isSpace (c : Char) : Bool :=
  let n := c.toNat
  (9 ≤ n && n ≤ 13) || n = 32 || n = 0x85 || n = 0xA0 || n = 0x1680
    || (0x2000 ≤ n && n ≤ 0x200A) || n = 0x2028 || n = 0x2029 || n = 0x202F || n = 0x205F
    || n = 0x3000

/-- `strings.TrimSpace` -/
def TrimSpace (s : GoString) : GoString :=
  ((s.dropWhile isSpace).reverse.dropWhile isSpace).reverse

/-- The bytes of an ASCII text, `[]byte(s)`. -/
def stringBytes (s : GoString) : Bytes := s.map (fun c => Fin.ofNat c.toNat)

/-- The alphabet of `base64.RawURLEncoding`. -/
def encodeURL : GoString :=
  "ABCDEFGHIJKLMNOPQRSTUVWXYZabcdefghijklmnopqrstuvwxyz0123456789-_".toList

/-- The table lookup `enc.encode[x]` of the URL alphabet. -/
def encodeURLIdx (x : Nat) : Char := encodeURL.getD x 'A'

/-- The table lookup `enc.decodeMap[c]` of the URL alphabet; `none` is `0xff`. -/
def decodeURLIdx (c : Char) : Option Nat :=
  let i := encodeURL.indexOf c
  if i < 64 then some i else none

/-- `base64.RawURLEncoding.EncodeToString`: as the standard encoding, with the
URL alphabet and without padding. -/
def base64RawURLEncode : Bytes → GoString
  | a :: b :: c :: rest =>
      let val := a.val <<< 16 ||| b.val <<< 8 ||| c.val
      encodeURLIdx (val >>> 18 &&& 0x3F) :: encodeURLIdx (val >>> 12 &&& 0x3F) ::
        encodeURLIdx (val >>> 6 &&& 0x3F) :: encodeURLIdx (val &&& 0x3F) ::
        base64RawURLEncode rest
  | [a, b] =>
      let val := a.val <<< 16 ||| b.val <<< 8
      [encodeURLIdx (val >>> 18 &&& 0x3F), encodeURLIdx (val >>> 12 &&& 0x3F),
        encodeURLIdx (val >>> 6 &&& 0x3F)]
  | [a] =>
      let val := a.val <<< 16
      [encodeURLIdx (val >>> 18 &&& 0x3F), encodeURLIdx (val >>> 12 &&& 0x3F)]
  | [] => []

/-- The quanta of `base64.RawURLEncoding.Decode` on a text without `\r` and
`\n`: four characters give three bytes, a last group of three or two gives two
or one (left-over bits are dropped), a last group of one, or a character
outside the alphabet, is a `CorruptInputError`. -/
def decodeQuanta : GoString → Except GoError Bytes
  | a :: b :: c :: d :: rest =>
    match decodeURLIdx a, decodeURLIdx b, decodeURLIdx c, decodeURLIdx d with
    | some i0, some i1, some i2, some i3 =>
      let val := i0 <<< 18 ||| i1 <<< 12 ||| i2 <<< 6 ||| i3
      match decodeQuanta rest with
      | .ok out => .ok (Fin.ofNat (val >>> 16) :: Fin.ofNat (val >>> 8) :: Fin.ofNat val :: out)
      | .error err => .error err
    | _, _, _, _ => .error (.text "illegal base64 data".toList)
  | [a, b, c] =>
    match decodeURLIdx a, decodeURLIdx b, decodeURLIdx c with
    | some i0, some i1, some i2 =>
      let val := i0 <<< 18 ||| i1 <<< 12 ||| i2 <<< 6
      .ok [Fin.ofNat (val >>> 16), Fin.ofNat (val >>> 8)]
    | _, _, _ => .error (.text "illegal base64 data".toList)
  | [a, b] =>
    match decodeURLIdx a, decodeURLIdx b with
    | some i0, some i1 =>
      let val := i0 <<< 18 ||| i1 <<< 12
      .ok [Fin.ofNat (val >>> 16)]
    | _, _ => .error (.text "illegal base64 data".toList)
  | [_] => .error (.text "illegal base64 data".toList)
  | [] => .ok []

/-- `base64.RawURLEncoding.DecodeString`: `\r` and `\n` are skipped. -/
def base64RawURLDecode (s : GoString) : Except GoError Bytes :=
  decodeQuanta (s.filter (fun c => !(c = '\r' || c = '\n')))

/-- `func (m *Metrics) IncDOHQueries()` -/
def Metrics.IncDOHQueries (m : Metrics) : Metrics :=
  { m with dohQueries := addUint64 m.dohQueries }

/-- The parts of a `*fasthttp.RequestCtx` the DoH handler reads: the method, the
three headers (`Header.Peek`, empty when absent), the peer address
(`ctx.RemoteIP().String()`), the query argument `dns` (`QueryArgs().Peek`, `none`
for nil) and the body. -/
structure RequestCtx where
  Method : GoString := "GET".toList
  XForwardedFor : GoString := []
  XRealIP : GoString := []
  Authorization : GoString := []
  RemoteIP : GoString := []
  dns : Option GoString := none
  PostBody : Bytes := []
  deriving DecidableEq, Repr

/-- The response a handler leaves in the `RequestCtx`. -/
structure Response where
  StatusCode : Nat := 200
  ContentType : GoString := "text/plain; charset=utf-8".toList
  Headers : List (GoString × GoString) := []
  Body : Bytes := []
  deriving DecidableEq, Repr

/-- `ctx.Error(msg, statusCode)`: the response is reset to the status code, the
default content type and the message as body. -/
def ctxError (msg : String) (statusCode : Nat) : Response :=
  { StatusCode := statusCode, Body := stringBytes msg.toList }

/-- The globals of the process: those of the resolver, the access table and the
bearer-token set `authTokens`. -/
structure Server where
  state : State := {}
  table : AccessTable := {}
  authTokens : SyncMap GoString Bool := []
  deriving DecidableEq, Repr

/-- `metrics.IncErrors()` on the globals. -/
def Server.IncErrors (srv : Server) : Server :=
  { srv with state := { srv.state with metrics := srv.state.metrics.IncErrors } }

/-- The four instants a request reads the clock at. -/
structure Clock where
  tCheck : Int := 0
  tUse : Int := 0
  tLookup : Int := 0
  tInsert : Int := 0

/-- The verdicts of the token buckets for one request: `limiter.Allow()` and
`getIPLimiter(clientIP).Allow()`. -/
structure Limits where
  globalAllow : Bool := true
  ipAllow : Bool := true

/-- `strings.Split(s, sep)` for a separator `sep` of one character: the pieces
of `s` between the separators, at least one piece. -/
def Split : GoString → Char → List GoString
  | [], _ => [[]]
  | c :: rest, sep =>
    if c = sep then [] :: Split rest sep
    else
      match Split rest sep with
      | first :: more => (c :: first) :: more
      | [] => [[c]]

/-- `func getClientIP(ctx *fasthttp.RequestCtx) string`; `ips[0]` exists, as
`strings.Split` returns at least one piece. -/
def getClientIP (ctx : RequestCtx) : GoString :=
  if ctx.XForwardedFor ≠ [] then
    let ips := Split ctx.XForwardedFor ','
    TrimSpace (ips.headD [])
  else if ctx.XRealIP ≠ [] then ctx.XRealIP
  else ctx.RemoteIP

/-- `func checkAuth(ctx *fasthttp.RequestCtx) bool` -/
def checkAuth (cfg : Config) (authTokens : SyncMap GoString Bool) (ctx : RequestCtx) : Bool :=
  if !cfg.EnableAuth then true
  else if ctx.Authorization = [] then false
  else if hasPrefix ctx.Authorization "Bearer ".toList then
    (authTokens.Load (ctx.Authorization.drop 7)).isSome
  else false

/-- The end of `handleDoHRequest` (lines 1452-1478) for the payload `body`,
with the deferred `recover` of a panic of the resolver. -/
def dohResolve (lib : Lib) (clk : Clock) (srv : Server) (body : Bytes) : Server × Response :=
  if body.length > 4096 then
    (srv.IncErrors, ctxError "DNS query too large" 413)
  else
    let r := processDNSQuery lib clk.tLookup clk.tInsert srv.state body
    let srv1 : Server := { srv with state := r.state }
    match r.out with
    | .panic => (srv1.IncErrors, ctxError "Internal server error" 500)
    | .ret (.error _) => (srv1.IncErrors, ctxError "Failed to process DNS query" 400)
    | .ret (.ok resp) =>
      (srv1,
        { StatusCode := 200
          ContentType := "application/dns-message".toList
          Headers := [("X-Content-Type-Options".toList, "nosniff".toList),
                      ("X-Frame-Options".toList, "DENY".toList),
                      ("X-XSS-Protection".toList, "1; mode=block".toList),
                      ("Referrer-Policy".toList, "no-referrer".toList)]
          Body := resp })

/-- `func handleDoHRequest(ctx *fasthttp.RequestCtx)` -/
def handleDoHRequest (lib : Lib) (clk : Clock) (lim : Limits) (srv : Server)
    (ctx : RequestCtx) : Server × Response :=
  let srv0 : Server :=
    { srv with state := { srv.state with metrics := srv.state.metrics.IncDOHQueries } }
  let clientIP := getClientIP ctx
  let auth := isUserAuthorized srv0.state.config clk.tCheck clk.tUse srv0.table clientIP
  let srv1 : Server := { srv0 with table := auth.1 }
  if !auth.2 then
    (srv1.IncErrors, ctxError "Access denied - Please register first" 403)
  else if !checkAuth srv1.state.config srv1.authTokens ctx then
    (srv1.IncErrors, ctxError "Unauthorized" 401)
  else if !lim.globalAllow then
    (srv1.IncErrors, ctxError "Rate limit exceeded" 429)
  else if !lim.ipAllow then
    (srv1.IncErrors, ctxError "Rate limit exceeded" 429)
  else if ctx.Method = "GET".toList then
    match ctx.dns with
    | none => (srv1, ctxError "Missing 'dns' query parameter" 400)
    | some raw =>
      match base64RawURLDecode raw with
      | .error _ => (srv1.IncErrors, ctxError "Invalid 'dns' query parameter" 400)
      | .ok decoded => dohResolve lib clk srv1 decoded
  else if ctx.Method = "POST".toList then
    if ctx.PostBody.length = 0 then (srv1, ctxError "Empty request body" 400)
    else dohResolve lib clk srv1 ctx.PostBody
  else (srv1, ctxError "Only GET and POST methods are allowed" 405)

/-- The status the decision chain of the specification gives a DoH request:
the first failing check, in the order client IP not authorised (403), bearer
token required and not presented (401), global limiter (429), per-IP limiter
(429), method (405), missing or undecodable `dns` argument or empty POST body
(400), payload over 4096 bytes (413), resolver error (400), else 200. -/
def dohStatusChain (lib : Lib) (clk : Clock) (lim : Limits) (srv : Server)
    (ctx : RequestCtx) : Nat :=
  let payload : Bytes :=
    if ctx.Method = "GET".toList then
      match ctx.dns with
      | some raw => (match base64RawURLDecode raw with | .ok d => d | .error _ => [])
      | none => []
    else ctx.PostBody
  let undecodable : Bool :=
    match ctx.dns with
    | some raw => (match base64RawURLDecode raw with | .ok _ => false | .error _ => true)
    | none => true
  if (isUserAuthorized srv.state.config clk.tCheck clk.tUse srv.table (getClientIP ctx)).2
      = false then 403
  else if srv.state.config.EnableAuth = true ∧
      (srv.authTokens.any (fun e => decide (ctx.Authorization = "Bearer ".toList ++ e.1)))
        = false then 401
  else if lim.globalAllow = false then 429
  else if lim.ipAllow = false then 429
  else if ctx.Method ≠ "GET".toList ∧ ctx.Method ≠ "POST".toList then 405
  else if (ctx.Method = "GET".toList ∧ undecodable = true) ∨
      (ctx.Method = "POST".toList ∧ ctx.PostBody = []) then 400
  else if payload.length > 4096 then 413
  else
    match (processDNSQuery lib clk.tLookup clk.tInsert
      { srv.state with metrics := srv.state.metrics.IncDOHQueries } payload).out with
    | .ret (.ok _) => 200
    | _ => 400

/-! The SNI splicer -/

/-- `net.JoinHostPort` -/
def JoinHostPort (host port : GoString) : GoString :=
  if ':' ∈ host then "[".toList ++ host ++ "]:".toList ++ port
  else host ++ ":".toList ++ port

/-- The fixed reply to a ClientHello without server name. -/
def misdirectedResponse : GoString :=
  ("HTTP/1.1 421 Misdirected Request\r\n" ++
    "Content-Type: text/plain; charset=utf-8\r\n" ++
    "Connection: close\r\n" ++
    "Content-Length: 12\r\n\r\nSNI required").toList

/-- What `handleConnection` does once the ClientHello is read. -/
inductive Route where
  /-- Write the 421 response to the client and return. -/
  | misdirected (resp : GoString)
  /-- Dial the target. -/
  | dial (target : GoString)
  deriving DecidableEq, Repr

/-- The routing step of `handleConnection` (lines 1275-1297) for the server name
of the ClientHello. A server name is any text, and `strings.ToLower` of the
standard library lower-cases every Unicode letter of it: the function is the
parameter `ToLower`. -/
def routeSNI (ToLower : GoString → GoString) (cfg : Config) (serverName : GoString) : Route :=
  let sni := TrimSpace (ToLower serverName)
  if sni = [] then .misdirected misdirectedResponse
  else
    let target := sni
    if target = ToLower cfg.Host then .dial "127.0.0.1:8443".toList
    else .dial (JoinHostPort target "443".toList)

/-- The inbound side of a connection: the segments still to arrive, in order;
the byte stream is their concatenation. -/
abbrev ByteStream := List Bytes

/-- `Read(p)` with `len(p) = n`: up to `n` bytes of the next segment. -/
def ByteStream.Read (s : ByteStream) (n : Nat) : Bytes × ByteStream :=
  match s with
  | [] => ([], [])
  | seg :: rest =>
    if seg.length ≤ n then (seg, rest) else (seg.take n, seg.drop n :: rest)

/-- `tls.ClientHelloInfo`, the field the proxy reads. -/
structure ClientHelloInfo where
  ServerName : GoString := []
  deriving DecidableEq, Repr

/-- The run of `tls.Server(conn, cfg).Handshake()` as seen from the connection:
it ends, having handed a ClientHello to `GetConfigForClient` or not, or it
calls `Read` with a buffer of some length and goes on with the bytes it got. -/
inductive Handshake where
  | done (hello : Option ClientHelloInfo)
  | read (n : Nat) (next : Bytes → Handshake)

/-- `readClientHello(io.TeeReader(reader, peekBuf))`: every `Read` of the
handshake goes to `reader` and what it returns is appended to `peekBuf`. -/
def readClientHello : Handshake → ByteStream → Bytes → Option ClientHelloInfo × ByteStream × Bytes
  | .done hello, reader, peekBuf => (hello, reader, peekBuf)
  | .read n next, reader, peekBuf =>
    readClientHello (next (reader.Read n).1) (reader.Read n).2 (peekBuf ++ (reader.Read n).1)

/-- `func peekClientHello(reader io.Reader)`: the ClientHello and the buffer, or
the error; with it, what is left of the reader. -/
def peekClientHello (hs : Handshake) (reader : ByteStream) :
    Except GoError (ClientHelloInfo × Bytes) × ByteStream :=
  match readClientHello hs reader [] with
  | (none, rest, _) => (.error (.text "failed to capture ClientHello".toList), rest)
  | (some hello, rest, peekBuf) => (.ok (hello, peekBuf), rest)

/-- `io.CopyBuffer(dst, src, buf)` with `len(buf) = bufLen` on a source that ends:
the bytes written to `dst`; `none` when the fuel runs out. -/
def copyBuffer (bufLen : Nat) : Nat → ByteStream → Bytes → Option Bytes
  | _, [], written => some written
  | 0, _ :: _, _ => none
  | fuel + 1, seg :: rest, written =>
    copyBuffer bufLen fuel (ByteStream.Read (seg :: rest) bufLen).2
      (written ++ (ByteStream.Read (seg :: rest) bufLen).1)

/-- What a run of `handleConnection` does on the wire. -/
structure Splice where
  /-- The bytes the proxy itself writes to the client. -/
  toClient : Bytes := []
  /-- The target of `dialer.Dial`, if it dials. -/
  dialled : Option GoString := none
  /-- The bytes written to the backend, in order; `none` when the fuel of the
  pump ran out. -/
  toBackend : Option Bytes := some []
  deriving DecidableEq, Repr

/-- `func handleConnection(clientConn net.Conn)` on the client side of the
relay: peek, route, dial (`dialOK` tells whether the dial succeeds), replay of
the captured bytes, then the pump client to backend with the 16 KiB buffer.
`ToLower` is `strings.ToLower`, as in `routeSNI`. -/
def handleConnection (ToLower : GoString → GoString) (cfg : Config) (hs : Handshake)
    (dialOK : Bool) (fuel : Nat) (client : ByteStream) : Splice :=
  match peekClientHello hs client with
  | (.error _, _) => {}
  | (.ok (clientHello, clientHelloBytes), rest) =>
    match routeSNI ToLower cfg clientHello.ServerName with
    | .misdirected resp => { toClient := stringBytes resp }
    | .dial target =>
      if !dialOK then { dialled := some target }
      else
        { dialled := some target
          toBackend := copyBuffer (16 * 1024) fuel rest clientHelloBytes }

/-- A handshake that reads the 5-byte record header, then the record body of
the length the header gives, and hands over a ClientHello for `foo.test`. -/
def sampleHandshake : Handshake :=
  .read 5 (fun hdr =>
    .read ((hdr.getD 3 0).val * 256 + (hdr.getD 4 0).val) (fun _ =>
      .done (some { ServerName := "foo.test".toList })))

/-! The configuration store -/

/-- The loop of `validateConfig` over the override map, in the order the
`range` visits it. -/
def validateDomains (lib : Lib) : List (GoString × GoString) → Option GoError
  | [] => none
  | (pattern, ip) :: rest =>
    if pattern = [] then some (.text "domain pattern cannot be empty".toList)
    else if (lib.ParseIP ip).isNone then some (.invalidDomainIP pattern ip)
    else validateDomains lib rest

/-- The keys of the map `validLevels` of `validateConfig`. -/
def validLevels : List GoString :=
  ["debug".toList, "info".toList, "warn".toList, "error".toList]

/-- `func validateConfig(c *Config) error`; `none` is nil. -/
def validateConfig (lib : Lib) (c : Config) : Option GoError :=
  if c.Host = [] then some (.text "host cannot be empty".toList)
  else if c.Domains.length = 0 then some (.text "domains cannot be empty".toList)
  else
    match validateDomains lib c.Domains with
    | some err => some err
    | none =>
      if !validLevels.contains c.LogLevel then some (.invalidLogLevel c.LogLevel)
      else none

/-- The calls of `LoadConfig` out of the program: `os.ReadFile` on the file
system as it is at the call, and `json.Unmarshal` into a zero `Config`. -/
structure Disk where
  ReadFile : GoString → Except GoError Bytes
  Unmarshal : Bytes → Except GoError Config

/-- The defaults `LoadConfig` sets on the decoded configuration. -/
def setDefaults (c : Config) : Config :=
  let c1 : Config :=
    if c.UpstreamDOH.length = 0 then
      { c with UpstreamDOH := ["https://1.1.1.1/dns-query".toList,
                               "https://8.8.8.8/dns-query".toList] }
    else c
  let c2 : Config := if c1.CacheTTL = 0 then { c1 with CacheTTL := 300 } else c1
  let c3 : Config := if c2.RateLimitPerIP = 0 then { c2 with RateLimitPerIP := 10 } else c2
  let c4 : Config := if c3.RateLimitBurstIP = 0 then { c3 with RateLimitBurstIP := 20 } else c3
  let c5 : Config := if c4.LogLevel = [] then { c4 with LogLevel := "info".toList } else c4
  if c5.WebPanelPort = 0 then { c5 with WebPanelPort := 8088 } else c5

/-- `func LoadConfig(filename string) (*Config, error)` -/
def LoadConfig (lib : Lib) (disk : Disk) (filename : GoString) : Except GoError Config :=
  match disk.ReadFile filename with
  | .error err => .error err
  | .ok b =>
    match disk.Unmarshal b with
    | .error err => .error err
    | .ok c0 =>
      let c := setDefaults c0
      match validateConfig lib c with
      | some err => .error (.configValidationFailed err)
      | none => .ok c

/-- The bearer-token set after `authTokens.Store(token, true)` for the tokens
of a list, in order. -/
def storeTokens (authTokens : SyncMap GoString Bool) (tokens : List GoString) :
    SyncMap GoString Bool :=
  tokens.foldl (fun m token => m.Store token true) authTokens

/-- The `authTokens.Range` of `reloadConfig`: every key the range visits is
deleted. -/
def clearTokens (authTokens : SyncMap GoString Bool) : SyncMap GoString Bool :=
  authTokens.foldl (fun m e => m.Delete e.1) authTokens

/-- `func reloadConfig(filename string) error`; `none` is nil. -/
def reloadConfig (lib : Lib) (disk : Disk) (srv : Server) (filename : GoString) :
    Server × Option GoError :=
  match LoadConfig lib disk filename with
  | .error err => (srv, some err)
  | .ok newConfig =>
    let state1 : State :=
      { srv.state with config := newConfig, dohUpstream := newConfig.UpstreamDOH }
    ({ srv with state := state1
                authTokens := storeTokens (clearTokens srv.authTokens) newConfig.AuthTokens },
      none)

/-- The publications of a configuration by the web panel
(`handlePanelChangePassword`, `handlePanelChangeUsername`): a field of the
current configuration is set and the configuration stored again. -/
def storePanelPassword (srv : Server) (newHash : GoString) : Server :=
  let cfg1 : Config := { srv.state.config with WebPanelPassword := newHash }
  { srv with state := { srv.state with config := cfg1 } }

/-- See `storePanelPassword`. -/
def storePanelUsername (srv : Server) (newUsername : GoString) : Server :=
  let cfg1 : Config := { srv.state.config with WebPanelUsername := newUsername }
  { srv with state := { srv.state with config := cfg1 } }

/-- The globals `main` initialises: those of the servers, and the variable
`dohURL` with its initial value. -/
structure Process where
  srv : Server := {}
  dohURL : GoString := "https://1.1.1.1/dns-query".toList
  deriving DecidableEq, Repr

/-- The initialisation in `func main()` (lines 2505-2528), before the servers
start: the configuration is loaded and published, the upstream list and the
bearer tokens are stored, the environment is read with `getenv`. An error is
the `log.Fatalf` on a configuration that does not load. -/
def main (lib : Lib) (disk : Disk) (getenv : GoString → GoString) : Except GoError Process :=
  match LoadConfig lib disk "config.json".toList with
  | .error err => .error err
  | .ok cfg =>
    let state0 : State := { config := cfg, dohUpstream := cfg.UpstreamDOH }
    let p : Process := { srv := { state := state0, authTokens := storeTokens [] cfg.AuthTokens } }
    let v := getenv "DOH_UPSTREAM".toList
    if v ≠ [] then .ok { p with dohURL := v } else .ok p

/-- What happens to the published configuration after start-up: a reload from
the disk as it then is, or one of the two stores of the web panel. -/
inductive ConfigOp where
  | reload (disk : Disk)
  | panelPassword (newHash : GoString)
  | panelUsername (newUsername : GoString)

/-- The globals after one such call. -/
def ConfigOp.apply (lib : Lib) (srv : Server) : ConfigOp → Server
  | .reload disk => (reloadConfig lib disk srv "config.json".toList).1
  | .panelPassword newHash => storePanelPassword srv newHash
  | .panelUsername newUsername => storePanelUsername srv newUsername

/-- The configuration invariant of the specification: host non-empty, every
override IP parses, log level one of debug, info, warn, error. -/
def ConfigOK (lib : Lib) (c : Config) : Prop :=
  c.Host ≠ [] ∧ (∀ e ∈ c.Domains, lib.ParseIP e.2 ≠ none) ∧ c.LogLevel ∈ validLevels

/-- The text of a minimal valid `config.json`. -/
def sampleConfigJSON : Bytes :=
  stringBytes ("\x7b\"host\":\"dns.example.com\"," ++
    "\"domains\":\x7b\"other.test\":\"10.0.0.1\"\x7d," ++
    "\"auth_tokens\":[\"s3cret\"]\x7d").toList

/-- A disk whose `config.json` holds `sampleConfigJSON`, with the decoder on
that text. -/
def sampleDisk : Disk where
  ReadFile := fun name =>
    if name = "config.json".toList then .ok sampleConfigJSON
    else .error (.text "open: no such file or directory".toList)
  Unmarshal := fun b =>
    if b = sampleConfigJSON then
      .ok { Host := "dns.example.com".toList
            Domains := [("other.test".toList, "10.0.0.1".toList)]
            AuthTokens := ["s3cret".toList] }
    else .error (.text "invalid character".toList)

/-! The framed front-ends: DoT and DNS over TCP -/

/-- `func (m *Metrics) IncDOTQueries()` -/
def Metrics.IncDOTQueries (m : Metrics) : Metrics :=
  { m with dotQueries := addUint64 m.dotQueries }

/-- `binary.BigEndian.Uint16(b)`: `uint16(b[1]) | uint16(b[0])<<8`. -/
def Uint16 (b : Bytes) : Nat := (b.getD 1 0).val ||| (b.getD 0 0).val <<< 8

/-- The conversion `uint16(n)` of an `int` that is not negative. -/
def toUint16 (n : Nat) : Nat := n % 2 ^ 16

/-- `binary.BigEndian.PutUint16(b, v)` on a slice of two bytes, for a `uint16`
value `v`: the slice holds `byte(v >> 8)`, `byte(v)`. -/
def PutUint16 (v : Nat) : Bytes := [Fin.ofNat (v >>> 8), Fin.ofNat v]

/-- `io.ReadFull(conn, buf)` with `len(buf) = n`: `Read` is called on the part
of the buffer still to fill until `n` bytes are there (a step on a segment is
one `ByteStream.Read`: the whole segment, or the `n` bytes asked for); `none`
is the error (`io.EOF`, `io.ErrUnexpectedEOF`) on a connection that ends
before. -/
def ReadFull : ByteStream → Nat → Option Bytes × ByteStream
  | s, 0 => (some [], s)
  | [], _ + 1 => (none, [])
  | seg :: rest, n + 1 =>
    if seg.length ≤ n + 1 then
      match ReadFull rest (n + 1 - seg.length) with
      | (some more, s1) => (some (seg ++ more), s1)
      | (none, s1) => (none, s1)
    else (some (seg.take (n + 1)), seg.drop (n + 1) :: rest)

/-- What the calls on a connection other than `Read` return: whether
`SetReadDeadline`, `SetWriteDeadline` and the two calls of `Write` return nil.
A `Write` that fails is taken to have written nothing. -/
structure ConnEnv where
  readDeadlineOK : Bool := true
  writeDeadlineOK : Bool := true
  writeLenOK : Bool := true
  writeBodyOK : Bool := true

/-- What a run of a framed front-end does: the globals it leaves, the query it
handed to `processDNSQuery` (if it got that far), the bytes it wrote to the
connection, and whether it ended in a panic that nothing recovered. -/
structure FramedRun where
  srv : Server
  query : Option Bytes := none
  written : Bytes := []
  panicked : Bool := false

/-- `func handleDoTConnection(conn net.Conn)`; `clientIP` is the host part of
`conn.RemoteAddr()`, `conn` the bytes that arrive within the read deadline. -/
def handleDoTConnection (lib : Lib) (clk : Clock) (lim : Limits) (env : ConnEnv)
    (srv : Server) (clientIP : GoString) (conn : ByteStream) : FramedRun :=
  let srv0 : Server :=
    { srv with state := { srv.state with metrics := srv.state.metrics.IncDOTQueries } }
  let auth := isUserAuthorized srv0.state.config clk.tCheck clk.tUse srv0.table clientIP
  let srv1 : Server := { srv0 with table := auth.1 }
  if !auth.2 then { srv := srv1.IncErrors }
  else if !lim.globalAllow then { srv := srv1.IncErrors }
  else if !env.readDeadlineOK then { srv := srv1 }
  else
    match ReadFull conn 2 with
    | (none, _) => { srv := srv1.IncErrors }
    | (some header, conn1) =>
      let dnsLen := Uint16 header
      if dnsLen = 0 ∨ dnsLen > 8192 then { srv := srv1.IncErrors }
      else
        match ReadFull conn1 dnsLen with
        | (none, _) => { srv := srv1.IncErrors }
        | (some buf, _) =>
          let r := processDNSQuery lib clk.tLookup clk.tInsert srv1.state buf
          let srv2 : Server := { srv1 with state := r.state }
          match r.out with
          | .panic => { srv := srv2.IncErrors, query := some buf }
          | .ret (.error _) => { srv := srv2.IncErrors, query := some buf }
          | .ret (.ok resp) =>
            if !env.writeDeadlineOK then { srv := srv2, query := some buf }
            else
              let outLen := PutUint16 (toUint16 resp.length)
              if !env.writeLenOK then { srv := srv2.IncErrors, query := some buf }
              else if !env.writeBodyOK then
                { srv := srv2.IncErrors, query := some buf, written := outLen }
              else { srv := srv2, query := some buf, written := outLen ++ resp }

/-- `func handleDNSTCP(conn net.Conn)`; the results of the two calls of `Write`
are not looked at, and no panic is recovered. -/
def handleDNSTCP (lib : Lib) (clk : Clock) (srv : Server) (conn : ByteStream) : FramedRun :=
  match ReadFull conn 2 with
  | (none, _) => { srv := srv }
  | (some lenBuf, conn1) =>
    let msgLen := Uint16 lenBuf
    match ReadFull conn1 msgLen with
    | (none, _) => { srv := srv }
    | (some query, _) =>
      let r := processDNSQuery lib clk.tLookup clk.tInsert srv.state query
      let srv1 : Server := { srv with state := r.state }
      match r.out with
      | .panic => { srv := srv1, query := some query, panicked := true }
      | .ret (.error _) => { srv := srv1, query := some query }
      | .ret (.ok response) =>
        { srv := srv1, query := some query
          written := PutUint16 (toUint16 response.length) ++ response }

/-- A body of 65536 bytes. -/
def bigBody : Bytes := List.replicate 65536 0

/-- A library instance whose upstream answers 200 with `bigBody`. -/
def bigLib : Lib :=
  { sampleLib with Post := fun _ _ => .response 200 (.ok bigBody) }

/-! Lemmas on strings -/

theorem lowerRune_cases (P : Char → Prop) (c : Char)
    (hU : ∀ n, 65 ≤ n → n ≤ 90 → P (Char.ofNat n))
    (hL : ∀ n, 97 ≤ n → n ≤ 122 → P (Char.ofNat n))
    (hO : ¬ (65 ≤ c.toNat ∧ c.toNat ≤ 90) → ¬ (97 ≤ c.toNat ∧ c.toNat ≤ 122) → P c) : P c := by
  by_cases h1 : 65 ≤ c.toNat ∧ c.toNat ≤ 90
  · have := hU c.toNat h1.1 h1.2
    rwa [Char.ofNat_toNat] at this
  · by_cases h2 : 97 ≤ c.toNat ∧ c.toNat ≤ 122
    · have := hL c.toNat h2.1 h2.2
      rwa [Char.ofNat_toNat] at this
    · exact hO h1 h2

theorem lowerRune_idem (c : Char) : c.toLower.toLower = c.toLower := by
  refine lowerRune_cases (fun c => c.toLower.toLower = c.toLower) c ?_ ?_ ?_
  · intro n h1 h2; interval_cases n <;> decide
  · intro n h1 h2; interval_cases n <;> decide
  · intro h1 _
    have e1 : c.toLower = c := by simp [Char.toLower, h1]
    simp [e1]

theorem lowerRune_upperRune (c : Char) : c.toUpper.toLower = c.toLower := by
  refine lowerRune_cases (fun c => c.toUpper.toLower = c.toLower) c ?_ ?_ ?_
  · intro n h1 h2; interval_cases n <;> decide
  · intro n h1 h2; interval_cases n <;> decide
  · intro h1 h2
    have e1 : c.toLower = c := by simp [Char.toLower, h1]
    have e2 : c.toUpper = c := by simp [Char.toUpper, h2]
    simp [e1, e2]

theorem lowerRune_eq_dot (c : Char) : c.toLower = '.' ↔ c = '.' := by
  refine lowerRune_cases (fun c => c.toLower = '.' ↔ c = '.') c ?_ ?_ ?_
  · intro n h1 h2; interval_cases n <;> decide
  · intro n h1 h2; interval_cases n <;> decide
  · intro h1 _
    have e1 : c.toLower = c := by simp [Char.toLower, h1]
    simp [e1]

theorem upperRune_eq_dot (c : Char) : c.toUpper = '.' ↔ c = '.' := by
  refine lowerRune_cases (fun c => c.toUpper = '.' ↔ c = '.') c ?_ ?_ ?_
  · intro n h1 h2; interval_cases n <;> decide
  · intro n h1 h2; interval_cases n <;> decide
  · intro _ h2
    have e2 : c.toUpper = c := by simp [Char.toUpper, h2]
    simp [e2]

theorem hasSuffix_iff (s suf : GoString) : hasSuffix s suf = true ↔ ∃ x, s = x ++ suf := by
  unfold hasSuffix
  rw [List.isSuffixOf_iff_suffix]
  constructor
  · rintro ⟨x, hx⟩; exact ⟨x, hx.symm⟩
  · rintro ⟨x, hx⟩; exact ⟨x, hx.symm⟩

theorem hasSuffix_snoc_dot (t : GoString) (b : Char) :
    hasSuffix (t ++ [b]) ['.'] = decide (b = '.') := by
  rw [Bool.eq_iff_iff, hasSuffix_iff]
  simp only [decide_eq_true_eq]
  constructor
  · rintro ⟨x, hx⟩
    have := List.append_inj' hx rfl
    simpa using this.2
  · rintro rfl; exact ⟨t, rfl⟩

theorem trimDot_nil : trimDot [] = [] := by decide

theorem trimDot_snoc (t : GoString) (b : Char) :
    trimDot (t ++ [b]) = if b = '.' then t else t ++ [b] := by
  unfold trimDot trimSuffix
  rw [hasSuffix_snoc_dot]
  by_cases hb : b = '.'
  · simp [hb]
  · simp [hb]

theorem trimDot_of_not_suffix (s : GoString) (h : hasSuffix s ['.'] = false) :
    trimDot s = s := by
  unfold trimDot trimSuffix
  simp [h]

theorem trimDot_append (pre d : GoString) (hd : d ≠ []) :
    trimDot (pre ++ d) = pre ++ trimDot d := by
  rcases List.eq_nil_or_concat d with h | ⟨t, b, h⟩
  · exact absurd h hd
  · subst h
    rw [List.concat_eq_append, ← List.append_assoc, trimDot_snoc, trimDot_snoc]
    split_ifs <;> simp

theorem trimDot_map (f : Char → Char) (hf : ∀ c, f c = '.' ↔ c = '.') (s : GoString) :
    trimDot (s.map f) = (trimDot s).map f := by
  rcases List.eq_nil_or_concat s with h | ⟨t, b, h⟩
  · subst h; simp [trimDot_nil]
  · subst h
    rw [List.concat_eq_append, List.map_append, List.map_singleton, trimDot_snoc, trimDot_snoc]
    by_cases hb : b = '.'
    · subst hb; simp [(hf '.').2 rfl]
    · have : f b ≠ '.' := fun h => hb ((hf b).1 h)
      simp [hb, this]

theorem toLower_append (a b : GoString) : toLower (a ++ b) = toLower a ++ toLower b := by
  simp [toLower]

theorem normalise_toLower (s : GoString) : normalise (toLower s) = normalise s := by
  unfold normalise
  rw [show toLower s = s.map Char.toLower from rfl, trimDot_map _ lowerRune_eq_dot]
  simp [toLower, lowerRune_idem]

theorem normalise_toUpper (s : GoString) : normalise (toUpper s) = normalise s := by
  unfold normalise
  rw [show toUpper s = s.map Char.toUpper from rfl, trimDot_map _ upperRune_eq_dot]
  simp [toLower, lowerRune_upperRune]

/-- The matcher reads its arguments only through their normal forms. -/
theorem matchesPattern_congr (h h2 p p2 : GoString)
    (hh : normalise h = normalise h2) (hp : normalise p = normalise p2) :
    matchesPattern h p = matchesPattern h2 p2 := by
  unfold matchesPattern
  unfold normalise at hh hp
  simp only [hh, hp]

theorem normalise_wildcard (d : GoString) (hd : d ≠ []) :
    normalise (wildcard d) = '*' :: '.' :: normalise d := by
  unfold normalise wildcard
  have := trimDot_append ['*', '.'] d hd
  simp only [List.cons_append, List.nil_append] at this
  rw [this]
  simp [toLower]

/-- On a wildcard pattern the dot-count comparison never rejects: the matcher
is the suffix test alone. -/
theorem matchesPattern_wildcard (host d : GoString) (hd : d ≠ []) :
    matchesPattern host (wildcard d) = hasSuffix (normalise host) ('.' :: normalise d) := by
  have hp := normalise_wildcard d hd
  unfold matchesPattern
  unfold normalise at hp
  simp only [hp]
  rw [← show normalise host = toLower (trimDot host) from rfl,
    ← show normalise d = toLower (trimDot d) from rfl]
  have h1 : hasPrefix ('*' :: '.' :: normalise d) ['*', '.'] = true := by
    simp [hasPrefix]
  simp only [h1, if_true, List.drop_succ_cons, List.drop_zero]
  rw [if_neg (by simp)]
  cases hs : hasSuffix (normalise host) ('.' :: normalise d)
  · simp
  · obtain ⟨x, hx⟩ := (hasSuffix_iff _ _).1 hs
    simp only [Bool.true_and, decide_eq_true_eq, countDots, ge_iff_le]
    rw [hx]
    have : List.count '.' ('*' :: '.' :: normalise d) = List.count '.' ('.' :: normalise d) := by
      rw [List.count_cons_of_ne (by decide)]
    rw [this, List.count_append]
    omega

/-! Lemmas on the cache key and on `sync.Map` -/

theorem or3 (a b c : Nat) (hb : b < 256) (hc : c < 256) :
    (a <<< 16 ||| b <<< 8 ||| c) = a * 65536 + b * 256 + c := by
  have e1 : a <<< 16 ||| b <<< 8 = 2 ^ 16 * a + b * 256 := by
    rw [Nat.mul_add_lt_is_or (by omega) a]
    simp [Nat.shiftLeft_eq, Nat.mul_comm]
  have e2 : 2 ^ 16 * a + b * 256 = 2 ^ 8 * (a * 256 + b) := by ring
  rw [e1, e2, ← Nat.mul_add_lt_is_or (by omega)]
  ring
theorem or2 (a b : Nat) (hb : b < 256) :
    (a <<< 16 ||| b <<< 8) = a * 65536 + b * 256 := by
  rw [show a * 65536 = 2 ^ 16 * a by ring, Nat.mul_add_lt_is_or (by omega) a]
  simp [Nat.shiftLeft_eq, Nat.mul_comm]
theorem shiftMask (v k : Nat) : v >>> k &&& 0x3F = (v / 2^k) % 64 := by
  rw [Nat.shiftRight_eq_div_pow]
  exact Nat.and_pow_two_sub_one_eq_mod _ 6
theorem mask6 (v : Nat) : v &&& 0x3F = v % 64 := Nat.and_pow_two_sub_one_eq_mod _ 6

theorem encodeIdx_index : ∀ i : Fin 64, encodeStd.indexOf (encodeIdx i.val) = i.val := by decide
theorem encodeIdx_ne_pad_fin : ∀ i : Fin 64, encodeIdx i.val ≠ '=' := by decide

theorem encodeIdx_inj (i j : Nat) (hi : i < 64) (hj : j < 64) (h : encodeIdx i = encodeIdx j) :
    i = j := by
  have h1 := encodeIdx_index ⟨i, hi⟩
  have h2 := encodeIdx_index ⟨j, hj⟩
  simp only at h1 h2
  rw [← h1, ← h2, h]

theorem encodeIdx_ne_pad (i : Nat) (hi : i < 64) : encodeIdx i ≠ '=' :=
  encodeIdx_ne_pad_fin ⟨i, hi⟩

theorem base64_three (a b c : Byte) (rest : Bytes) :
    base64StdEncode (a :: b :: c :: rest) =
      encodeIdx (a.val / 4) :: encodeIdx ((a.val % 4) * 16 + b.val / 16) ::
        encodeIdx ((b.val % 16) * 4 + c.val / 64) :: encodeIdx (c.val % 64) ::
        base64StdEncode rest := by
  have ha := a.isLt; have hb := b.isLt; have hc := c.isLt
  simp only [base64StdEncode, mask6, Nat.shiftRight_eq_div_pow, or3 _ _ _ hb hc]
  have i0 : (a.val * 65536 + b.val * 256 + c.val) / 2 ^ 18 % 64 = a.val / 4 := by omega
  have i1 : (a.val * 65536 + b.val * 256 + c.val) / 2 ^ 12 % 64
      = (a.val % 4) * 16 + b.val / 16 := by omega
  have i2 : (a.val * 65536 + b.val * 256 + c.val) / 2 ^ 6 % 64
      = (b.val % 16) * 4 + c.val / 64 := by omega
  have i3 : (a.val * 65536 + b.val * 256 + c.val) % 64 = c.val % 64 := by omega
  rw [i0, i1, i2, i3]

theorem base64_two (a b : Byte) :
    base64StdEncode [a, b] =
      [encodeIdx (a.val / 4), encodeIdx ((a.val % 4) * 16 + b.val / 16),
        encodeIdx ((b.val % 16) * 4), '='] := by
  have ha := a.isLt; have hb := b.isLt
  simp only [base64StdEncode, Nat.shiftRight_eq_div_pow, mask6, or2 _ _ hb]
  have i0 : (a.val * 65536 + b.val * 256) / 2 ^ 18 % 64 = a.val / 4 := by omega
  have i1 : (a.val * 65536 + b.val * 256) / 2 ^ 12 % 64
      = (a.val % 4) * 16 + b.val / 16 := by omega
  have i2 : (a.val * 65536 + b.val * 256) / 2 ^ 6 % 64 = (b.val % 16) * 4 := by omega
  rw [i0, i1, i2]

theorem base64_one (a : Byte) :
    base64StdEncode [a] =
      [encodeIdx (a.val / 4), encodeIdx ((a.val % 4) * 16), '=', '='] := by
  have ha := a.isLt
  simp only [base64StdEncode, Nat.shiftRight_eq_div_pow, mask6, Nat.shiftLeft_eq]
  have i0 : a.val * 2 ^ 16 / 2 ^ 18 % 64 = a.val / 4 := by omega
  have i1 : a.val * 2 ^ 16 / 2 ^ 12 % 64 = (a.val % 4) * 16 := by omega
  rw [i0, i1]

theorem base64StdEncode_injective : ∀ q1 q2 : Bytes,
    base64StdEncode q1 = base64StdEncode q2 → q1 = q2 := by
  intro q1
  induction q1 using base64StdEncode.induct with
  | case1 a b c rest ih =>
    intro q2 h
    have ha := a.isLt; have hb := b.isLt; have hc := c.isLt
    rcases q2 with _ | ⟨a2, _ | ⟨b2, _ | ⟨c2, rest2⟩⟩⟩
    · simp [base64StdEncode] at h
    · rw [base64_three, base64_one] at h
      simp only [List.cons.injEq] at h
      exact absurd h.2.2.1 (encodeIdx_ne_pad _ (by omega))
    · rw [base64_three, base64_two] at h
      simp only [List.cons.injEq] at h
      exact absurd h.2.2.2.1 (encodeIdx_ne_pad _ (by omega))
    · have ha2 := a2.isLt; have hb2 := b2.isLt; have hc2 := c2.isLt
      rw [base64_three, base64_three] at h
      simp only [List.cons.injEq] at h
      obtain ⟨h0, h1, h2, h3, hr⟩ := h
      have e0 := encodeIdx_inj _ _ (by omega) (by omega) h0
      have e1 := encodeIdx_inj _ _ (by omega) (by omega) h1
      have e2 := encodeIdx_inj _ _ (by omega) (by omega) h2
      have e3 := encodeIdx_inj _ _ (by omega) (by omega) h3
      have := ih rest2 hr
      subst this
      have ea : a = a2 := Fin.ext (by omega)
      have eb : b = b2 := Fin.ext (by omega)
      have ec : c = c2 := Fin.ext (by omega)
      subst ea eb ec
      rfl
  | case2 a b =>
    intro q2 h
    have ha := a.isLt; have hb := b.isLt
    rcases q2 with _ | ⟨a2, _ | ⟨b2, _ | ⟨c2, rest2⟩⟩⟩
    · simp [base64StdEncode] at h
    · rw [base64_two, base64_one] at h
      simp only [List.cons.injEq] at h
      exact absurd h.2.2.1 (encodeIdx_ne_pad _ (by omega))
    · have ha2 := a2.isLt; have hb2 := b2.isLt
      rw [base64_two, base64_two] at h
      simp only [List.cons.injEq] at h
      obtain ⟨h0, h1, h2, -⟩ := h
      have e0 := encodeIdx_inj _ _ (by omega) (by omega) h0
      have e1 := encodeIdx_inj _ _ (by omega) (by omega) h1
      have e2 := encodeIdx_inj _ _ (by omega) (by omega) h2
      have ea : a = a2 := Fin.ext (by omega)
      have eb : b = b2 := Fin.ext (by omega)
      subst ea eb
      rfl
    · have hc2 := c2.isLt
      rw [base64_two, base64_three] at h
      simp only [List.cons.injEq] at h
      exact absurd h.2.2.2.1.symm (encodeIdx_ne_pad _ (by omega))
  | case3 a =>
    intro q2 h
    have ha := a.isLt
    rcases q2 with _ | ⟨a2, _ | ⟨b2, _ | ⟨c2, rest2⟩⟩⟩
    · simp [base64StdEncode] at h
    · have ha2 := a2.isLt
      rw [base64_one, base64_one] at h
      simp only [List.cons.injEq] at h
      obtain ⟨h0, h1, -⟩ := h
      have e0 := encodeIdx_inj _ _ (by omega) (by omega) h0
      have e1 := encodeIdx_inj _ _ (by omega) (by omega) h1
      have ea : a = a2 := Fin.ext (by omega)
      subst ea
      rfl
    · have hb2 := b2.isLt
      rw [base64_one, base64_two] at h
      simp only [List.cons.injEq] at h
      exact absurd h.2.2.1.symm (encodeIdx_ne_pad _ (by omega))
    · have hb2 := b2.isLt; have hc2 := c2.isLt
      rw [base64_one, base64_three] at h
      simp only [List.cons.injEq] at h
      exact absurd h.2.2.1.symm (encodeIdx_ne_pad _ (by omega))
  | case4 =>
    intro q2 h
    rcases q2 with _ | ⟨a2, _ | ⟨b2, _ | ⟨c2, rest2⟩⟩⟩
    · rfl
    · simp [base64StdEncode] at h
    · simp [base64StdEncode] at h
    · simp [base64StdEncode] at h

theorem base64StdEncode_length (q : Bytes) :
    (base64StdEncode q).length = 4 * ((q.length + 2) / 3) := by
  induction q using base64StdEncode.induct with
  | case1 a b c rest ih =>
    rw [base64_three]
    simp only [List.length_cons, ih]
    omega
  | case2 a b => simp [base64StdEncode]
  | case3 a => simp [base64StdEncode]
  | case4 => simp [base64StdEncode]

theorem getCacheKey_injective : Function.Injective getCacheKey :=
  fun q1 q2 h => base64StdEncode_injective q1 q2 h

theorem sliceTo_key_of_len (q : Bytes) (hq : 13 ≤ q.length) :
    ∃ pre, sliceTo (getCacheKey q) 20 = some pre := by
  unfold sliceTo getCacheKey
  rw [base64StdEncode_length]
  exact ⟨_, if_pos (by omega)⟩

theorem SyncMap.Load_Delete_self {κ ν : Type} [DecidableEq κ] (m : SyncMap κ ν) (k : κ) :
    (SyncMap.Delete m k).Load k = none := by
  unfold SyncMap.Load SyncMap.Delete
  induction m with
  | nil => rfl
  | cons e m ih =>
    by_cases h : e.1 = k
    · rw [List.filter_cons_of_neg (by simp [h])]
      exact ih
    · rw [List.filter_cons_of_pos (by simp [h]), List.find?_cons_of_neg _ (by simp [h])]
      exact ih

theorem SyncMap.Load_Delete_ne {κ ν : Type} [DecidableEq κ] (m : SyncMap κ ν) (k k2 : κ)
    (hk : k2 ≠ k) : (SyncMap.Delete m k).Load k2 = m.Load k2 := by
  unfold SyncMap.Load SyncMap.Delete
  induction m with
  | nil => rfl
  | cons e m ih =>
    by_cases h : e.1 = k
    · have h2 : ¬ e.1 = k2 := fun h3 => hk (h3.symm.trans h)
      rw [List.filter_cons_of_neg (by simp [h]), List.find?_cons_of_neg _ (by simp [h2])]
      exact ih
    · rw [List.filter_cons_of_pos (by simp [h])]
      by_cases h2 : e.1 = k2
      · rw [List.find?_cons_of_pos _ (by simp [h2]), List.find?_cons_of_pos _ (by simp [h2])]
      · rw [List.find?_cons_of_neg _ (by simp [h2]), List.find?_cons_of_neg _ (by simp [h2])]
        exact ih

theorem SyncMap.Load_Store_self {κ ν : Type} [DecidableEq κ] (m : SyncMap κ ν) (k : κ) (v : ν) :
    (SyncMap.Store m k v).Load k = some v := by
  simp [SyncMap.Load, SyncMap.Store]

theorem SyncMap.Load_Store_ne {κ ν : Type} [DecidableEq κ] (m : SyncMap κ ν) (k k2 : κ) (v : ν)
    (hk : k2 ≠ k) : (SyncMap.Store m k v).Load k2 = m.Load k2 := by
  have h := SyncMap.Load_Delete_ne m k k2 hk
  unfold SyncMap.Load at h ⊢
  unfold SyncMap.Store
  rw [List.find?_cons_of_neg _ (by simpa using fun h3 => hk h3.symm)]
  exact h

theorem secondsToDuration_of_le (n : Int) (h0 : 0 < n) (h1 : n ≤ 9223372036) :
    secondsToDuration n = n * 1000000000 := by
  unfold secondsToDuration wrapInt64
  omega

/-! The matcher -/

/-- The ten rows of the table of `src/test_matching.go`, run on the matcher of
`src/main.go`: every row gives the wanted verdict. -/
theorem matchesPattern_test_table :
    matchesPattern "example.com".toList "example.com".toList = true ∧
    matchesPattern "example.com".toList "*.example.com".toList = false ∧
    matchesPattern "www.example.com".toList "*.example.com".toList = true ∧
    matchesPattern "api.example.com".toList "*.example.com".toList = true ∧
    matchesPattern "cdn.api.example.com".toList "*.example.com".toList = true ∧
    matchesPattern "whatismyipaddress.com".toList "whatismyipaddress.com".toList = true ∧
    matchesPattern "whatismyipaddress.com".toList "*.whatismyipaddress.com".toList = false ∧
    matchesPattern "www.whatismyipaddress.com".toList "*.whatismyipaddress.com".toList
      = true ∧
    matchesPattern "example.com.".toList "example.com".toList = true ∧
    matchesPattern "www.example.com.".toList "*.example.com".toList = true := by
  decide

/-- What the wildcard branch of the matcher of `src/main.go` accepts: exactly
the hosts whose normal form ends in `"." + d`, the part before it being
possibly empty. -/
theorem matchesPattern_wildcard_iff (host d : GoString) (hd : d ≠ []) :
    matchesPattern host (wildcard d) = true ↔
      ∃ x : GoString, normalise host = x ++ '.' :: normalise d := by
  rw [matchesPattern_wildcard host d hd, hasSuffix_iff]

/-- C1, evaluated at the failing input: `matches(".example.com", "*.example.com")`
is true in `src/main.go` although the normalised host `.example.com` has no
non-empty prefix before `.example.com`. -/
theorem C1_wildcard_accepts_empty_prefix :
    matchesPattern ".example.com".toList (wildcard "example.com".toList) = true ∧
      ¬ ∃ x : GoString, x ≠ [] ∧
          normalise ".example.com".toList = x ++ '.' :: normalise "example.com".toList := by
  refine ⟨by decide, ?_⟩
  rintro ⟨x, hx, h⟩
  have e1 : normalise ".example.com".toList = ".example.com".toList := by decide
  have e2 : normalise "example.com".toList = "example.com".toList := by decide
  rw [e1, e2] at h
  have hl := congrArg List.length h
  rw [List.length_append, List.length_cons] at hl
  have l1 : ".example.com".toList.length = 12 := by decide
  have l2 : "example.com".toList.length = 11 := by decide
  rw [l1, l2] at hl
  exact hx (List.length_eq_zero.1 (by omega))

/-- C2: a wildcard pattern never matches its own bare parent domain:
`matches(d, "*." + d)` is false for every `d`. -/
theorem C2_wildcard_rejects_bare_parent (d : GoString) :
    matchesPattern d (wildcard d) = false := by
  by_cases hd : d = []
  · subst hd; decide
  · rw [matchesPattern_wildcard d d hd]
    cases hs : hasSuffix (normalise d) ('.' :: normalise d)
    · rfl
    · obtain ⟨x, hx⟩ := (hasSuffix_iff _ _).1 hs
      have hl := congrArg List.length hx
      simp at hl
      omega

/-- C3: a wildcard pattern matches every sub-domain of its suffix at any depth:
`matches(x + "." + d, "*." + d)` is true for non-empty `x` and `d`. -/
theorem C3_wildcard_matches_subdomain (x d : GoString) (_hx : x ≠ []) (hd : d ≠ []) :
    matchesPattern (x ++ '.' :: d) (wildcard d) = true := by
  rw [matchesPattern_wildcard _ d hd, hasSuffix_iff]
  refine ⟨toLower x, ?_⟩
  unfold normalise
  have := trimDot_append (x ++ ['.']) d hd
  simp only [List.append_assoc, List.singleton_append] at this
  rw [this, toLower_append]
  rfl

theorem C3_wildcard_matches_subdomain_witness :
    "cdn.api".toList ≠ [] ∧ "example.com".toList ≠ [] ∧
    matchesPattern ("cdn.api".toList ++ '.' :: "example.com".toList)
      (wildcard "example.com".toList) = true :=
  ⟨by decide, by decide,
    C3_wildcard_matches_subdomain "cdn.api".toList "example.com".toList (by decide) (by decide)⟩

/-- C4, counterexample: with a host that already ends in a dot, one more
trailing dot changes the verdict, `matches("example.com..", "example.com")` is
false while `matches("example.com.", "example.com")` is true. -/
theorem C4_second_trailing_dot_counts :
    matchesPattern ("example.com.".toList ++ ['.']) "example.com".toList = false ∧
      matchesPattern "example.com.".toList "example.com".toList = true := by
  decide

/-- C4, amended: one trailing dot is ignored on either input, for a host
respectively a pattern that does not itself end in a dot. -/
theorem C4_one_trailing_dot_ignored (h p : GoString) :
    (hasSuffix h ['.'] = false → matchesPattern (h ++ ['.']) p = matchesPattern h p) ∧
      (hasSuffix p ['.'] = false → matchesPattern h (p ++ ['.']) = matchesPattern h p) := by
  have key : ∀ s : GoString, hasSuffix s ['.'] = false → normalise (s ++ ['.']) = normalise s := by
    intro s hs
    unfold normalise
    rw [trimDot_snoc, trimDot_of_not_suffix s hs]
    simp
  exact ⟨fun hh => matchesPattern_congr _ _ _ _ (key h hh) rfl,
    fun hp => matchesPattern_congr _ _ _ _ rfl (key p hp)⟩

theorem C4_one_trailing_dot_ignored_witness :
    matchesPattern ("www.example.com".toList ++ ['.']) "*.example.com".toList
        = matchesPattern "www.example.com".toList "*.example.com".toList ∧
      matchesPattern "www.example.com".toList ("*.example.com".toList ++ ['.'])
        = matchesPattern "www.example.com".toList "*.example.com".toList :=
  ⟨(C4_one_trailing_dot_ignored "www.example.com".toList "*.example.com".toList).1 (by decide),
    (C4_one_trailing_dot_ignored "www.example.com".toList "*.example.com".toList).2 (by decide)⟩

/-- C5: the matcher is case-insensitive in both arguments (ASCII letters):
`matches(h, p) = matches(toLower h, toLower p) = matches(toUpper h, p)
= matches(h, toUpper p)`. -/
theorem C5_matches_case_insensitive (h p : GoString) :
    matchesPattern h p = matchesPattern (toLower h) (toLower p) ∧
      matchesPattern h p = matchesPattern (toUpper h) p ∧
      matchesPattern h p = matchesPattern h (toUpper p) :=
  ⟨matchesPattern_congr _ _ _ _ (normalise_toLower h).symm (normalise_toLower p).symm,
    matchesPattern_congr _ _ _ _ (normalise_toUpper h).symm rfl,
    matchesPattern_congr _ _ _ _ rfl (normalise_toUpper p).symm⟩

/-! The response cache -/

theorem setCachedResponse_ok (t : Int) (s : State) (q r : Bytes)
    (hn : 0 < s.config.CacheTTL) (hq : 13 ≤ q.length) :
    setCachedResponse t s q r =
      ({ s with
          dnsCache := s.dnsCache.Store (getCacheKey q)
            (CacheEntry.mk r (t + secondsToDuration s.config.CacheTTL)) }, .ret ()) := by
  obtain ⟨pre, hpre⟩ := sliceTo_key_of_len q hq
  unfold setCachedResponse
  rw [if_neg (by omega)]
  simp only [hpre]

theorem setCachedResponse_dnsCache (t : Int) (s : State) (q r : Bytes) :
    (setCachedResponse t s q r).1.dnsCache =
      if s.config.CacheTTL ≤ 0 then s.dnsCache
      else s.dnsCache.Store (getCacheKey q)
        (CacheEntry.mk r (t + secondsToDuration s.config.CacheTTL)) := by
  unfold setCachedResponse
  split_ifs
  · rfl
  · simp only []
    cases sliceTo (getCacheKey q) 20 <;> rfl

theorem getCachedResponse_hit (now : Int) (s : State) (q : Bytes) (e : CacheEntry)
    (hl : s.dnsCache.Load (getCacheKey q) = some e) (ht : now ≤ e.ExpiresAt)
    (hq : 13 ≤ q.length) :
    getCachedResponse now s q =
      ({ s with metrics := s.metrics.IncCacheHits }, .ret (e.Response, true)) := by
  obtain ⟨pre, hpre⟩ := sliceTo_key_of_len q hq
  unfold getCachedResponse
  simp only [hl, hpre]
  rw [if_neg (by omega)]

theorem getCachedResponse_expired (now : Int) (s : State) (q : Bytes) (e : CacheEntry)
    (hl : s.dnsCache.Load (getCacheKey q) = some e) (ht : e.ExpiresAt < now) :
    getCachedResponse now s q =
      ({ s with dnsCache := s.dnsCache.Delete (getCacheKey q),
                metrics := s.metrics.IncCacheMisses }, .ret ([], false)) := by
  unfold getCachedResponse
  simp only [hl]
  rw [if_pos (by omega)]

theorem getCachedResponse_absent (now : Int) (s : State) (q : Bytes)
    (hl : s.dnsCache.Load (getCacheKey q) = none) :
    getCachedResponse now s q =
      ({ s with metrics := s.metrics.IncCacheMisses }, .ret ([], false)) := by
  unfold getCachedResponse
  simp only [hl]

/-- C9, counterexample: (1) for the empty query under a TTL of 300 s the
lookup that follows the insert, at the same instant, does not return: both
calls panic on `key[:20]`; (2) under a TTL of 9223372037 s, whose nanosecond
count overflows `int64`, the lookup at the instant of the insert misses. -/
theorem C9_cache_contract_fails :
    (getCachedResponse 0
        (setCachedResponse 0 { config := { CacheTTL := 300 } } [] [1]).1 []).2 = .panic ∧
      (getCachedResponse 0
        (setCachedResponse 0 { config := { CacheTTL := 9223372037 } }
          [0, 0, 0, 0, 0, 0, 0, 0, 0, 0, 0, 0, 0] [1]).1
          [0, 0, 0, 0, 0, 0, 0, 0, 0, 0, 0, 0, 0]).2 = .ret ([], false) := by
  constructor <;> decide

/-- C9, amended: for a query `q` of at least 13 bytes and a configured cache
TTL of `n` seconds with `0 < n ≤ 9223372036`, `setCachedResponse(q, r)` at
instant `t` returns, and then every `getCachedResponse(q)` at an instant `t2`
with `t ≤ t2 ≤ t + n s` returns `(r, true)` and leaves the cache map as it is
(so a second lookup within the TTL returns `r` again), while a lookup at
`t2 > t + n s` returns a miss and removes the entry. -/
theorem C9_cache_contract (t : Int) (s : State) (q r : Bytes)
    (hn : 0 < s.config.CacheTTL) (hmax : s.config.CacheTTL ≤ 9223372036)
    (hq : 13 ≤ q.length) :
    (setCachedResponse t s q r).2 = .ret () ∧
    (∀ t2 : Int, t ≤ t2 → t2 ≤ t + s.config.CacheTTL * 1000000000 →
      getCachedResponse t2 (setCachedResponse t s q r).1 q =
        ({ (setCachedResponse t s q r).1 with
            metrics := (setCachedResponse t s q r).1.metrics.IncCacheHits }, .ret (r, true))) ∧
    (∀ t2 t3 : Int, t ≤ t2 → t2 ≤ t3 → t3 ≤ t + s.config.CacheTTL * 1000000000 →
      (getCachedResponse t3 (getCachedResponse t2 (setCachedResponse t s q r).1 q).1 q).2
        = .ret (r, true)) ∧
    (∀ t2 : Int, t + s.config.CacheTTL * 1000000000 < t2 →
      (getCachedResponse t2 (setCachedResponse t s q r).1 q).2 = .ret ([], false) ∧
      (getCachedResponse t2 (setCachedResponse t s q r).1 q).1.dnsCache.Load (getCacheKey q)
        = none) := by
  have hset := setCachedResponse_ok t s q r hn hq
  have hdur := secondsToDuration_of_le _ hn hmax
  rw [hset, hdur]
  have hload := SyncMap.Load_Store_self s.dnsCache (getCacheKey q)
    (CacheEntry.mk r (t + s.config.CacheTTL * 1000000000))
  refine ⟨rfl, ?_, ?_, ?_⟩
  · intro t2 _ h2
    exact getCachedResponse_hit t2 _ q (CacheEntry.mk r _) hload h2 hq
  · intro t2 t3 _ h23 h3
    have h2 : t2 ≤ t + s.config.CacheTTL * 1000000000 := by omega
    rw [getCachedResponse_hit t2 _ q (CacheEntry.mk r _) hload h2 hq]
    rw [getCachedResponse_hit t3 _ q (CacheEntry.mk r _) hload h3 hq]
  · intro t2 h2
    rw [getCachedResponse_expired t2 _ q (CacheEntry.mk r _) hload h2]
    exact ⟨rfl, SyncMap.Load_Delete_self _ _⟩

/-- C9 at a TTL of 300 s and a 13-byte query: the insert at instant 0 returns,
the lookup 300 s later hits, the lookup one nanosecond after that misses. -/
theorem C9_cache_contract_witness :
    (setCachedResponse 0 { config := { CacheTTL := 300 } }
        [0, 0, 0, 0, 0, 0, 0, 0, 0, 0, 0, 0, 0] [1]).2 = .ret () ∧
    (getCachedResponse 300000000000
        (setCachedResponse 0 { config := { CacheTTL := 300 } }
          [0, 0, 0, 0, 0, 0, 0, 0, 0, 0, 0, 0, 0] [1]).1
        [0, 0, 0, 0, 0, 0, 0, 0, 0, 0, 0, 0, 0]).2 = .ret ([1], true) ∧
    (getCachedResponse 300000000001
        (setCachedResponse 0 { config := { CacheTTL := 300 } }
          [0, 0, 0, 0, 0, 0, 0, 0, 0, 0, 0, 0, 0] [1]).1
        [0, 0, 0, 0, 0, 0, 0, 0, 0, 0, 0, 0, 0]).2 = .ret ([], false) :=
  have h := C9_cache_contract 0 { config := { CacheTTL := 300 } }
    [0, 0, 0, 0, 0, 0, 0, 0, 0, 0, 0, 0, 0] [1] (by decide) (by decide) (by decide)
  ⟨h.1, congrArg Prod.snd (h.2.1 300000000000 (by decide) (by decide)),
    (h.2.2.2 300000000001 (by decide)).1⟩

/-- C10: the cache fingerprint is injective on wire queries; hence, in a cache
with no entry under the key of `q2`, a lookup for `q2` that follows an insert
for `q1` can hit only if `q1 = q2`, and two queries that differ in their
two-byte transaction ID have different keys. -/
theorem C10_cache_key_injective :
    Function.Injective getCacheKey ∧
    (∀ (t t2 : Int) (s : State) (q1 q2 r resp : Bytes),
      s.dnsCache.Load (getCacheKey q2) = none →
      (getCachedResponse t2 (setCachedResponse t s q1 r).1 q2).2 = .ret (resp, true) →
      q1 = q2) ∧
    (∀ (a1 b1 a2 b2 : Byte) (rest : Bytes), (a1, b1) ≠ (a2, b2) →
      getCacheKey (a1 :: b1 :: rest) ≠ getCacheKey (a2 :: b2 :: rest)) := by
  refine ⟨getCacheKey_injective, ?_, ?_⟩
  · intro t t2 s q1 q2 r resp hnone hhit
    by_contra hne
    have hk : getCacheKey q2 ≠ getCacheKey q1 := fun h => hne (getCacheKey_injective h.symm)
    have hload : (setCachedResponse t s q1 r).1.dnsCache.Load (getCacheKey q2) = none := by
      rw [setCachedResponse_dnsCache]
      split_ifs
      · exact hnone
      · exact (SyncMap.Load_Store_ne s.dnsCache _ _ _ hk).trans hnone
    rw [getCachedResponse_absent t2 _ q2 hload] at hhit
    simp at hhit
  · intro a1 b1 a2 b2 rest hne h
    have := getCacheKey_injective h
    simp only [List.cons.injEq] at this
    exact hne (Prod.ext this.1 this.2.1)

/-! The resolver -/

theorem sampleLib_sound : sampleLib.Sound where
  parseIP_len := by
    intro s ip h
    simp only [sampleLib] at h
    split_ifs at h <;> (cases h; decide)
  unpack_len := by
    intro q m h _
    simp only [sampleLib] at h
    split_ifs at h with hq
    subst hq; decide

theorem isDomainBlocked_iff (cfg : Config) (domain : GoString) :
    isDomainBlocked cfg domain = true ↔
      ∃ b ∈ cfg.BlockedDomains, matchesPattern domain b = true := by
  unfold isDomainBlocked
  rw [List.any_eq_true]

theorem findValueByPattern_found (m : List (GoString × GoString)) (host v : GoString)
    (h : findValueByPattern m host = (v, true)) :
    ∃ k, (k, v) ∈ m ∧ matchesPattern host k = true := by
  induction m with
  | nil => simp [findValueByPattern] at h
  | cons e m ih =>
    obtain ⟨k, w⟩ := e
    unfold findValueByPattern at h
    by_cases hm : matchesPattern host k = true
    · rw [if_pos hm] at h
      have hv : w = v := congrArg Prod.fst h
      subst hv
      exact ⟨k, List.mem_cons_self _ _, hm⟩
    · rw [if_neg hm] at h
      obtain ⟨k2, hk2, hm2⟩ := ih h
      exact ⟨k2, List.mem_cons_of_mem _ hk2, hm2⟩

/-- C6: a parseable query whose first question name (trailing dot stripped)
matches a blocklist pattern is answered with the packed reply of rcode REFUSED,
whatever the cache and the override map hold; the cache map and the hit and
miss counters are untouched and no upstream is contacted. -/
theorem C6_blocklist_precedence (lib : Lib) (tLookup tInsert : Int) (s : State)
    (query : Bytes) (req : Msg) (q0 : Question) (rest : List Question)
    (hu : lib.Unpack query = .ok req) (hq : req.Question = q0 :: rest)
    (hb : ∃ b ∈ s.config.BlockedDomains, matchesPattern (trimDot q0.Name) b = true) :
    (processDNSQuery lib tLookup tInsert s query).out = .ret (lib.Pack (blockedReply req)) ∧
    (blockedReply req).Rcode = RcodeRefused ∧
    (blockedReply req).Response = true ∧
    (blockedReply req).Id = req.Id ∧
    (blockedReply req).Answer = [] ∧
    (processDNSQuery lib tLookup tInsert s query).state.dnsCache = s.dnsCache ∧
    (processDNSQuery lib tLookup tInsert s query).state.metrics.cacheHits
      = s.metrics.cacheHits ∧
    (processDNSQuery lib tLookup tInsert s query).state.metrics.cacheMisses
      = s.metrics.cacheMisses ∧
    (processDNSQuery lib tLookup tInsert s query).contacted = [] := by
  have hblk := (isDomainBlocked_iff s.config (trimDot q0.Name)).2 hb
  have key : processDNSQuery lib tLookup tInsert s query =
      { state := { s with metrics := s.metrics.IncErrors }
        out := .ret (buildBlockedResponse lib req)
        contacted := [] } := by
    unfold processDNSQuery
    simp only [hu, hq, hblk, if_true]
  rw [key]
  exact ⟨rfl, rfl, rfl, rfl, rfl, rfl, rfl, rfl, rfl⟩

/-- C6 at a state where the blocked name also has an override and an unexpired
cache entry for the very same query bytes. -/
theorem C6_blocklist_precedence_witness :
    (processDNSQuery sampleLib 5 5
      { config := { Domains := [("example.com".toList, "10.0.0.1".toList)],
                    BlockedDomains := ["example.com".toList], CacheTTL := 300 },
        dnsCache := [(getCacheKey queryExampleA, { Response := [1, 2, 3], ExpiresAt := 100 })] }
      queryExampleA).out
      = .ret (.ok [0x12, 0x34, 0x81, 0x85, 0, 1, 0, 0, 0, 0, 0, 0]) :=
  (C6_blocklist_precedence sampleLib 5 5
    { config := { Domains := [("example.com".toList, "10.0.0.1".toList)],
                  BlockedDomains := ["example.com".toList], CacheTTL := 300 },
      dnsCache := [(getCacheKey queryExampleA, { Response := [1, 2, 3], ExpiresAt := 100 })] }
    queryExampleA requestExampleA
    { Name := "example.com.".toList, Qtype := TypeA, Qclass := ClassINET } []
    (by decide) (by decide) ⟨"example.com".toList, by decide, by decide⟩).1

theorem setCachedResponse_returns (t : Int) (s : State) (q r : Bytes) (hq : 13 ≤ q.length) :
    (setCachedResponse t s q r).2 = .ret () := by
  obtain ⟨pre, hpre⟩ := sliceTo_key_of_len q hq
  unfold setCachedResponse
  split_ifs
  · rfl
  · simp only [hpre]

theorem To16_of_len (ip : IP) (h : ip.length = 16) : To16 ip = some ip := by
  unfold To16
  rw [if_neg (by omega), if_pos h]

theorem localReply_A (req : Msg) (q : Question) (ip ip4 : IP)
    (hA : q.Qtype = TypeA) (h4 : To4 ip = some ip4) :
    (localReply req q ip).Answer =
      [RR.A { Name := q.Name, Rrtype := TypeA, Class := ClassINET, Ttl := 3600 } ip4] := by
  unfold localReply
  simp only [hA, h4, if_true]
  rfl

theorem localReply_ANY_v6 (req : Msg) (q : Question) (ip : IP)
    (hANY : q.Qtype = TypeANY) (hlen : ip.length = 16) (h4 : To4 ip = none) :
    (localReply req q ip).Answer =
      [RR.AAAA { Name := q.Name, Rrtype := TypeAAAA, Class := ClassINET, Ttl := 3600 } ip] := by
  unfold localReply
  rw [if_neg (by rw [hANY]; decide), if_neg (by rw [hANY]; decide), if_pos hANY]
  simp only [h4, To16_of_len ip hlen]
  rfl

/-- C7, counterexample: with the override `example.com -> 2001:db8::1` the
type-A query for `example.com` (not blocked, nothing cached) is answered with
a reply whose answer section is empty (ANCOUNT 0 in the packed header). -/
theorem C7_ipv6_override_gives_no_A :
    sampleLib.Unpack queryExampleA = .ok requestExampleA ∧
    matchesPattern (trimDot "example.com.".toList) "example.com".toList = true ∧
    sampleLib.ParseIP "2001:db8::1".toList = some ip2001db8 ∧
    (processDNSQuery sampleLib 0 0
      { config := { Domains := [("example.com".toList, "2001:db8::1".toList)], CacheTTL := 300 } }
      queryExampleA).out
      = .ret (sampleLib.Pack (localReply requestExampleA
          { Name := "example.com.".toList, Qtype := TypeA, Qclass := ClassINET } ip2001db8)) ∧
    (localReply requestExampleA
        { Name := "example.com.".toList, Qtype := TypeA, Qclass := ClassINET } ip2001db8).Answer
      = [] ∧
    (processDNSQuery sampleLib 0 0
      { config := { Domains := [("example.com".toList, "2001:db8::1".toList)], CacheTTL := 300 } }
      queryExampleA).out
      = .ret (.ok [0x12, 0x34, 0x81, 0x80, 0, 1, 0, 0, 0, 0, 0, 0]) := by
  decide

/-- C7, amended: for every configuration and every type-A query whose question
name (not blocked, no cached entry for the query) matches an override pattern,
when the value the override lookup returns parses to an IPv4 or IPv4-mapped
address, `processDNSQuery` returns the packed reply whose answer section is
exactly one A record with the question's name, class IN, TTL 3600 and the
4-byte form of that address; the value is the one configured for a pattern
that matches the name. -/
theorem C7_override_round_trip (lib : Lib) (hlib : lib.Sound) (tLookup tInsert : Int)
    (s : State) (query : Bytes) (req : Msg) (q0 : Question) (rest : List Question)
    (ipStr : GoString) (ip ip4 : IP)
    (hu : lib.Unpack query = .ok req) (hq : req.Question = q0 :: rest)
    (hA : q0.Qtype = TypeA)
    (hnb : isDomainBlocked s.config (trimDot q0.Name) = false)
    (hnc : s.dnsCache.Load (getCacheKey query) = none)
    (hfind : findValueByPattern s.config.Domains (trimDot q0.Name) = (ipStr, true))
    (hip : lib.ParseIP ipStr = some ip) (h4 : To4 ip = some ip4) :
    (∃ k, (k, ipStr) ∈ s.config.Domains ∧ matchesPattern (trimDot q0.Name) k = true) ∧
    (processDNSQuery lib tLookup tInsert s query).out
      = .ret (lib.Pack (localReply req q0 ip)) ∧
    (localReply req q0 ip).Answer =
      [RR.A { Name := q0.Name, Rrtype := TypeA, Class := ClassINET, Ttl := 3600 } ip4] ∧
    (processDNSQuery lib tLookup tInsert s query).contacted = [] := by
  have hlen : 13 ≤ query.length := by
    have := hlib.unpack_len query req hu (by rw [hq]; simp)
    omega
  refine ⟨findValueByPattern_found _ _ _ hfind, ?_, localReply_A req q0 ip ip4 hA h4, ?_⟩
  all_goals
    unfold processDNSQuery
    simp only [hu, hq, hnb, getCachedResponse_absent tLookup s query hnc, hfind,
      buildLocalDNSResponse, hip]
    cases hp : lib.Pack (localReply req q0 ip) with
    | error e => simp
    | ok resp =>
      have hret := setCachedResponse_returns tInsert
        { s with metrics := s.metrics.IncCacheMisses } query resp hlen
      simp only [Bool.false_eq_true, if_false]
      rcases hs : setCachedResponse tInsert
        { s with metrics := s.metrics.IncCacheMisses } query resp with ⟨s2, o⟩
      rw [hs] at hret
      simp only at hret
      subst hret
      rfl

theorem C7_override_round_trip_witness :
    (processDNSQuery sampleLib 0 0
      { config := { Domains := [("example.com".toList, "10.0.0.1".toList),
                                ("*.example.com".toList, "10.0.0.1".toList)], CacheTTL := 300 } }
      queryExampleA).out
      = .ret (.ok [0x12, 0x34, 0x81, 0x80, 0, 1, 0, 1, 0, 0, 0, 0]) ∧
    (localReply requestExampleA
        { Name := "example.com.".toList, Qtype := TypeA, Qclass := ClassINET } ipMapped10).Answer
      = [RR.A { Name := "example.com.".toList, Rrtype := 1, Class := 1, Ttl := 3600 }
          [10, 0, 0, 1]] :=
  have h := C7_override_round_trip sampleLib sampleLib_sound 0 0
    { config := { Domains := [("example.com".toList, "10.0.0.1".toList),
                              ("*.example.com".toList, "10.0.0.1".toList)], CacheTTL := 300 } }
    queryExampleA requestExampleA
    { Name := "example.com.".toList, Qtype := TypeA, Qclass := ClassINET } []
    "10.0.0.1".toList ipMapped10 [10, 0, 0, 1]
    (by decide) (by decide) (by decide) (by decide) (by decide) (by decide) (by decide)
    (by decide)
  ⟨h.2.1, h.2.2.1⟩

/-- C8, counterexample: the override value `::ffff:10.0.0.1` is an IPv6
address text (it has a colon and parses), yet for a TYPE ANY question the reply
holds one A record, for 10.0.0.1, and no AAAA record. -/
theorem C8_mapped_ipv6_text_gives_A :
    ':' ∈ "::ffff:10.0.0.1".toList ∧
    sampleLib.ParseIP "::ffff:10.0.0.1".toList = some ipMapped10 ∧
    buildLocalDNSResponse sampleLib requestExampleANY "::ffff:10.0.0.1".toList
      = .ret (sampleLib.Pack (localReply requestExampleANY
          { Name := "example.com.".toList, Qtype := TypeANY, Qclass := ClassINET } ipMapped10)) ∧
    (localReply requestExampleANY
        { Name := "example.com.".toList, Qtype := TypeANY, Qclass := ClassINET }
        ipMapped10).Answer
      = [RR.A { Name := "example.com.".toList, Rrtype := TypeA, Class := ClassINET, Ttl := 3600 }
          [10, 0, 0, 1]] := by
  decide

/-- C8, amended: for every override whose configured value parses to an
address that is not IPv4 or IPv4-mapped (`To4()` is nil), `buildLocalDNSResponse`
for a TYPE ANY question returns the packed reply whose answer section is
exactly one AAAA record, carrying the 16 bytes of that address with the
question's name, class IN and TTL 3600, and so no A record. -/
theorem C8_any_dispatch_ipv6 (lib : Lib) (hlib : lib.Sound) (req : Msg) (q : Question)
    (rest : List Question) (ipStr : GoString) (ip : IP)
    (hq : req.Question = q :: rest) (hANY : q.Qtype = TypeANY)
    (hip : lib.ParseIP ipStr = some ip) (h4 : To4 ip = none) :
    buildLocalDNSResponse lib req ipStr = .ret (lib.Pack (localReply req q ip)) ∧
    (localReply req q ip).Answer =
      [RR.AAAA { Name := q.Name, Rrtype := TypeAAAA, Class := ClassINET, Ttl := 3600 } ip] ∧
    (∀ hdr a, RR.A hdr a ∉ (localReply req q ip).Answer) := by
  have hans := localReply_ANY_v6 req q ip hANY (hlib.parseIP_len ipStr ip hip) h4
  refine ⟨?_, hans, ?_⟩
  · unfold buildLocalDNSResponse
    simp only [hip, hq]
  · intro hdr a hmem
    rw [hans] at hmem
    simp at hmem

theorem C8_any_dispatch_ipv6_witness :
    buildLocalDNSResponse sampleLib requestExampleANY "2001:db8::1".toList
      = .ret (.ok [0x12, 0x34, 0x81, 0x80, 0, 1, 0, 1, 0, 0, 0, 0]) ∧
    (localReply requestExampleANY
        { Name := "example.com.".toList, Qtype := TypeANY, Qclass := ClassINET }
        ip2001db8).Answer
      = [RR.AAAA { Name := "example.com.".toList, Rrtype := 28, Class := 1, Ttl := 3600 }
          ip2001db8] :=
  have h := C8_any_dispatch_ipv6 sampleLib sampleLib_sound requestExampleANY
    { Name := "example.com.".toList, Qtype := TypeANY, Qclass := ClassINET } []
    "2001:db8::1".toList ip2001db8 (by decide) (by decide) (by decide) (by decide)
  ⟨h.1, h.2.1⟩

/-! The access table -/

theorem addIPToUser_missing (now : Int) (tbl : AccessTable) (userID clientIP : GoString)
    (h : tbl.users.Load userID = none) :
    addIPToUser now tbl userID clientIP = (tbl, some (.text "user not found".toList)) := by
  simp only [addIPToUser, getUserByID, h]

theorem addIPToUser_inactive (now : Int) (tbl : AccessTable) (userID clientIP : GoString)
    (u : User) (h : tbl.users.Load userID = some u) (ha : u.IsActive = false) :
    addIPToUser now tbl userID clientIP = (tbl, some (.text "user is inactive".toList)) := by
  simp only [addIPToUser, getUserByID, h, ha, Bool.not_false, if_true]

theorem addIPToUser_expired (now : Int) (tbl : AccessTable) (userID clientIP : GoString)
    (u : User) (h : tbl.users.Load userID = some u) (ha : u.IsActive = true)
    (he : now > u.ExpiresAt) :
    addIPToUser now tbl userID clientIP = (tbl, some (.text "user expired".toList)) := by
  simp only [addIPToUser, getUserByID, h, ha, Bool.not_true, Bool.false_eq_true, if_false, he,
    if_true]

theorem addIPToUser_known (now : Int) (tbl : AccessTable) (userID clientIP : GoString)
    (u : User) (h : tbl.users.Load userID = some u) (ha : u.IsActive = true)
    (he : now ≤ u.ExpiresAt) (hm : clientIP ∈ u.IPs) :
    addIPToUser now tbl userID clientIP = (tbl, none) := by
  have he2 : ¬ now > u.ExpiresAt := by omega
  simp only [addIPToUser, getUserByID, h, ha, Bool.not_true, Bool.false_eq_true, if_false, he2,
    hm, if_true]

/-- The list and the index `addIPToUser` leaves for a usable user and a new IP. -/
theorem addIPToUser_new (now : Int) (tbl : AccessTable) (userID clientIP : GoString)
    (u : User) (h : tbl.users.Load userID = some u) (ha : u.IsActive = true)
    (he : now ≤ u.ExpiresAt) (hm : clientIP ∉ u.IPs) :
    addIPToUser now tbl userID clientIP =
      ({ users := tbl.users.Store userID
          { u with IPs :=
              (if (u.IPs.length : Int) ≥ u.MaxIPs ∧ u.MaxIPs > 0 then u.IPs.drop 1 else u.IPs)
                ++ [clientIP] }
         ipToUser := SyncMap.Store
          (if (u.IPs.length : Int) ≥ u.MaxIPs ∧ u.MaxIPs > 0 then
            (match u.IPs.head? with
              | some oldestIP => tbl.ipToUser.Delete oldestIP
              | none => tbl.ipToUser)
           else tbl.ipToUser) clientIP userID }, none) := by
  have he2 : ¬ now > u.ExpiresAt := by omega
  simp only [addIPToUser, getUserByID, h, ha, Bool.not_true, Bool.false_eq_true, if_false, he2,
    hm]
  by_cases hf : (u.IPs.length : Int) ≥ u.MaxIPs ∧ u.MaxIPs > 0
  · simp only [hf, and_self, if_true]
    cases hI : u.IPs with
    | nil => rfl
    | cons a t => rfl
  · simp only [hf, if_false]

/-- C16: `addIPToUser` returns an error exactly when the user is missing,
inactive or expired (`time.Now().After(ExpiresAt)`, that is
`now > ExpiresAt`); an error leaves the users
table and the IP index as they are; for a usable user whose list already holds
the IP the call returns nil and changes nothing. -/
theorem C16_bind_rejection_and_noop (now : Int) (tbl : AccessTable) (userID clientIP : GoString) :
    ((addIPToUser now tbl userID clientIP).2 ≠ none ↔
      (tbl.users.Load userID = none ∨
        ∃ u, tbl.users.Load userID = some u ∧ (u.IsActive = false ∨ now > u.ExpiresAt))) ∧
    ((addIPToUser now tbl userID clientIP).2 ≠ none →
      (addIPToUser now tbl userID clientIP).1 = tbl) ∧
    (∀ u, tbl.users.Load userID = some u → u.IsActive = true → now ≤ u.ExpiresAt →
      clientIP ∈ u.IPs → addIPToUser now tbl userID clientIP = (tbl, none)) := by
  refine ⟨?_, ?_, fun u h ha he hm => addIPToUser_known now tbl userID clientIP u h ha he hm⟩
  all_goals
    cases hl : tbl.users.Load userID with
    | none => simp [addIPToUser_missing now tbl userID clientIP hl]
    | some u =>
      cases ha : u.IsActive with
      | false => simp [addIPToUser_inactive now tbl userID clientIP u hl ha, ha]
      | true =>
        by_cases he : now > u.ExpiresAt
        · simp [addIPToUser_expired now tbl userID clientIP u hl ha he, he, ha]
        · have he2 : now ≤ u.ExpiresAt := by omega
          by_cases hm : clientIP ∈ u.IPs
          · simp [addIPToUser_known now tbl userID clientIP u hl ha he2 hm, he, ha]
          · simp [addIPToUser_new now tbl userID clientIP u hl ha he2 hm, he, ha]

theorem isUserAuthorized_off (cfg : Config) (tCheck tUse : Int) (tbl : AccessTable)
    (ip : GoString) (h : cfg.UserManagement = false) :
    isUserAuthorized cfg tCheck tUse tbl ip = (tbl, true) := by
  simp [isUserAuthorized, h]

theorem isUserAuthorized_unknownIP (cfg : Config) (tCheck tUse : Int) (tbl : AccessTable)
    (ip : GoString) (h : cfg.UserManagement = true) (hi : tbl.ipToUser.Load ip = none) :
    isUserAuthorized cfg tCheck tUse tbl ip = (tbl, false) := by
  simp [isUserAuthorized, h, hi]

theorem isUserAuthorized_noUser (cfg : Config) (tCheck tUse : Int) (tbl : AccessTable)
    (ip id : GoString) (h : cfg.UserManagement = true) (hi : tbl.ipToUser.Load ip = some id)
    (hu : tbl.users.Load id = none) :
    isUserAuthorized cfg tCheck tUse tbl ip = (tbl, false) := by
  simp [isUserAuthorized, h, hi, hu]

theorem isUserAuthorized_unusable (cfg : Config) (tCheck tUse : Int) (tbl : AccessTable)
    (ip id : GoString) (u : User) (h : cfg.UserManagement = true)
    (hi : tbl.ipToUser.Load ip = some id) (hu : tbl.users.Load id = some u)
    (hx : u.IsActive = false ∨ tCheck > u.ExpiresAt) :
    isUserAuthorized cfg tCheck tUse tbl ip = (tbl, false) := by
  have : (!u.IsActive || decide (tCheck > u.ExpiresAt)) = true := by
    rcases hx with hx | hx <;> simp [hx]
  simp only [isUserAuthorized, h, hi, hu, this, Bool.not_true, Bool.false_eq_true, if_false,
    if_true]

theorem isUserAuthorized_usable (cfg : Config) (tCheck tUse : Int) (tbl : AccessTable)
    (ip id : GoString) (u : User) (h : cfg.UserManagement = true)
    (hi : tbl.ipToUser.Load ip = some id) (hu : tbl.users.Load id = some u)
    (ha : u.IsActive = true) (he : tCheck ≤ u.ExpiresAt) :
    isUserAuthorized cfg tCheck tUse tbl ip =
      ({ tbl with
          users := tbl.users.Store id
            { u with UsageCount := addUint64 u.UsageCount, LastUsed := tUse } }, true) := by
  have : (!u.IsActive || decide (tCheck > u.ExpiresAt)) = false := by
    have : ¬ tCheck > u.ExpiresAt := by omega
    simp [ha, this]
  simp only [isUserAuthorized, h, hi, hu, this, Bool.not_true, Bool.false_eq_true, if_false]

/-- C15, counterexample: (1) at the instant `now = ExpiresAt` an active user is
still authorised; (2) a usage counter at the `uint64` maximum goes to 0. -/
theorem C15_authorized_at_expiry_instant :
    (isUserAuthorized { UserManagement := true } 100 100
      { users := [("u1".toList, { ID := "u1".toList, IPs := ["10.0.0.1".toList], MaxIPs := 1,
                                   ExpiresAt := 100, IsActive := true })],
        ipToUser := [("10.0.0.1".toList, "u1".toList)] } "10.0.0.1".toList).2 = true ∧
    ((isUserAuthorized { UserManagement := true } 50 50
      { users := [("u1".toList, { ID := "u1".toList, IPs := ["10.0.0.1".toList], MaxIPs := 1,
                                   ExpiresAt := 100, IsActive := true,
                                   UsageCount := 18446744073709551615 })],
        ipToUser := [("10.0.0.1".toList, "u1".toList)] } "10.0.0.1".toList).1.users.Load
        "u1".toList).map User.UsageCount = some 0 := by
  decide

/-- C15, amended: `isUserAuthorized(ip)` returns true if user management is
disabled; otherwise it returns true if and only if the index maps `ip` to a
user that exists, is active and is not expired, a user being usable iff
`active ∧ now ≤ expiresAt` (at `now = expiresAt` it still is). When it returns
true through a user, that user's usage counter is increased by 1 modulo `2^64`
and last-used is set to the instant read after the check, nothing else
changes; when it returns false the access table is unchanged. -/
theorem C15_authorize (cfg : Config) (tCheck tUse : Int) (tbl : AccessTable) (ip : GoString) :
    (cfg.UserManagement = false → isUserAuthorized cfg tCheck tUse tbl ip = (tbl, true)) ∧
    (cfg.UserManagement = true →
      ((isUserAuthorized cfg tCheck tUse tbl ip).2 = true ↔
        ∃ id u, tbl.ipToUser.Load ip = some id ∧ tbl.users.Load id = some u ∧
          u.IsActive = true ∧ tCheck ≤ u.ExpiresAt) ∧
      (∀ id u, tbl.ipToUser.Load ip = some id → tbl.users.Load id = some u →
          u.IsActive = true → tCheck ≤ u.ExpiresAt →
        (isUserAuthorized cfg tCheck tUse tbl ip).1.ipToUser = tbl.ipToUser ∧
        (isUserAuthorized cfg tCheck tUse tbl ip).1.users.Load id =
          some { u with UsageCount := (u.UsageCount + 1) % 2 ^ 64, LastUsed := tUse } ∧
        (∀ id2, id2 ≠ id →
          (isUserAuthorized cfg tCheck tUse tbl ip).1.users.Load id2 = tbl.users.Load id2)) ∧
      ((isUserAuthorized cfg tCheck tUse tbl ip).2 = false →
        (isUserAuthorized cfg tCheck tUse tbl ip).1 = tbl)) := by
  refine ⟨isUserAuthorized_off cfg tCheck tUse tbl ip, fun h => ?_⟩
  cases hi : tbl.ipToUser.Load ip with
  | none =>
    rw [isUserAuthorized_unknownIP cfg tCheck tUse tbl ip h hi]
    simp
  | some id =>
    cases hu : tbl.users.Load id with
    | none =>
      rw [isUserAuthorized_noUser cfg tCheck tUse tbl ip id h hi hu]
      refine ⟨⟨fun hf => by simp at hf, ?_⟩, ?_, fun _ => rfl⟩
      · rintro ⟨id2, u2, h1, h2, -, -⟩
        cases h1
        rw [hu] at h2
        cases h2
      · intro id2 u2 h1 h2
        cases h1
        rw [hu] at h2
        cases h2
    | some u =>
      by_cases hx : u.IsActive = true ∧ tCheck ≤ u.ExpiresAt
      · rw [isUserAuthorized_usable cfg tCheck tUse tbl ip id u h hi hu hx.1 hx.2]
        refine ⟨⟨fun _ => ⟨id, u, rfl, hu, hx.1, hx.2⟩, fun _ => rfl⟩, ?_, fun hf => by simp at hf⟩
        intro id2 u2 h1 h2 _ _
        cases h1
        rw [hu] at h2
        cases h2
        exact ⟨rfl, SyncMap.Load_Store_self _ _ _,
          fun id3 h3 => SyncMap.Load_Store_ne _ _ _ _ h3⟩
      · have hx2 : u.IsActive = false ∨ tCheck > u.ExpiresAt := by
          by_cases ha : u.IsActive = true
          · right
            have : ¬ tCheck ≤ u.ExpiresAt := fun h2 => hx ⟨ha, h2⟩
            omega
          · left
            simpa using ha
        rw [isUserAuthorized_unusable cfg tCheck tUse tbl ip id u h hi hu hx2]
        refine ⟨⟨fun hf => by simp at hf, ?_⟩, ?_, fun _ => rfl⟩
        · rintro ⟨id2, u2, h1, h2, h3, h4⟩
          cases h1
          rw [hu] at h2
          cases h2
          exact absurd ⟨h3, h4⟩ hx
        · intro id2 u2 h1 h2 h3 h4
          cases h1
          rw [hu] at h2
          cases h2
          exact absurd ⟨h3, h4⟩ hx

/-- One binding step on a usable user below or at capacity `c > 0`. -/
theorem addIPToUser_fifo_step (now : Int) (tbl : AccessTable) (id ip : GoString) (u : User)
    (c : Nat) (hc : 0 < c)
    (hl : tbl.users.Load id = some u) (ha : u.IsActive = true) (he : now ≤ u.ExpiresAt)
    (hmax : u.MaxIPs = (c : Int)) (hlen : u.IPs.length ≤ c) (hnd : u.IPs.Nodup)
    (hnew : ip ∉ u.IPs)
    (hidx : ∀ x, tbl.ipToUser.Load x = if x ∈ u.IPs then some id else none) :
    (addIPToUser now tbl id ip).2 = none ∧
    (addIPToUser now tbl id ip).1.users.Load id =
      some { u with IPs := (if c ≤ u.IPs.length then u.IPs.drop 1 else u.IPs) ++ [ip] } ∧
    (∀ x, (addIPToUser now tbl id ip).1.ipToUser.Load x =
      if x ∈ (if c ≤ u.IPs.length then u.IPs.drop 1 else u.IPs) ++ [ip]
      then some id else none) := by
  rw [addIPToUser_new now tbl id ip u hl ha he hnew]
  have hcond : ((u.IPs.length : Int) ≥ u.MaxIPs ∧ u.MaxIPs > 0) ↔ c ≤ u.IPs.length := by
    rw [hmax]; omega
  refine ⟨rfl, ?_, ?_⟩
  · simp only [SyncMap.Load_Store_self, hcond]
  · intro x
    simp only [hcond]
    by_cases hx : x = ip
    · subst hx
      rw [SyncMap.Load_Store_self]
      simp
    · rw [SyncMap.Load_Store_ne _ _ _ _ hx]
      by_cases hfull : c ≤ u.IPs.length
      · simp only [hfull, if_true]
        cases hI : u.IPs with
        | nil => rw [hI] at hfull; simp at hfull; omega
        | cons a t =>
          rw [hI] at hnd hidx
          simp only [List.head?_cons, List.drop_succ_cons, List.drop_zero, List.mem_append,
            List.mem_singleton, hx, or_false]
          have hat : a ∉ t := (List.nodup_cons.1 hnd).1
          by_cases hxa : x = a
          · subst hxa
            rw [SyncMap.Load_Delete_self]
            simp [hat]
          · rw [SyncMap.Load_Delete_ne _ _ _ hxa, hidx x]
            simp [hxa]
      · simp only [hfull, if_false, List.mem_append, List.mem_singleton, hx, or_false]
        exact hidx x

theorem lastN_fifo_step (c : Nat) (hc : 0 < c) (L rest : List GoString) (ip : GoString)
    (hlen : L.length ≤ c) :
    lastN c ((if c ≤ L.length then L.drop 1 else L) ++ [ip] ++ rest)
      = lastN c (L ++ ip :: rest) := by
  unfold lastN
  by_cases hfull : c ≤ L.length
  · simp only [hfull, if_true]
    cases L with
    | nil => simp at hfull; omega
    | cons a t =>
      simp only [List.drop_succ_cons, List.drop_zero, List.append_assoc, List.singleton_append,
        List.cons_append, List.length_cons, List.length_append, List.nil_append,
        List.length_nil, Nat.zero_add]
      simp only [List.length_cons] at hlen hfull
      have e : t.length + (rest.length + 1) + 1 - c = (t.length + (rest.length + 1) - c) + 1 := by
        omega
      rw [e, List.drop_succ_cons]
  · simp only [hfull, if_false, List.append_assoc, List.singleton_append]

/-- FIFO binding from any state of the user's list: with list `L` (no
duplicates, at most `c` entries, mirrored by the index) and new pairwise
distinct IPs, the list ends as the last `c` entries of `L` followed by the new
IPs, and the index follows. -/
theorem bindAll_fifo (id : GoString) (c : Nat) (hc : 0 < c) :
    ∀ (seq : List (Int × GoString)) (tbl : AccessTable) (u : User),
      tbl.users.Load id = some u → u.IsActive = true → u.MaxIPs = (c : Int) →
      u.IPs.length ≤ c → (u.IPs ++ seq.map Prod.snd).Nodup →
      (∀ p ∈ seq, p.1 ≤ u.ExpiresAt) →
      (∀ x, tbl.ipToUser.Load x = if x ∈ u.IPs then some id else none) →
      (bindAll tbl id seq).users.Load id =
        some { u with IPs := lastN c (u.IPs ++ seq.map Prod.snd) } ∧
      (∀ x, (bindAll tbl id seq).ipToUser.Load x =
        if x ∈ lastN c (u.IPs ++ seq.map Prod.snd) then some id else none) := by
  intro seq
  induction seq with
  | nil =>
    intro tbl u hl _ _ hlen _ _ hidx
    have e : u.IPs.length - c = 0 := by omega
    simp only [List.map_nil, List.append_nil, lastN, e, List.drop_zero, bindAll]
    exact ⟨hl, hidx⟩
  | cons p rest ih =>
    intro tbl u hl ha hmax hlen hnd ht hidx
    obtain ⟨now, ip⟩ := p
    simp only [List.map_cons] at hnd ⊢
    have hndL : u.IPs.Nodup := (List.nodup_append.1 hnd).1
    have hnew : ip ∉ u.IPs := by
      intro hmem
      exact (List.nodup_append.1 hnd).2.2 hmem (List.mem_cons_self _ _)
    have hnow : now ≤ u.ExpiresAt := ht (now, ip) (List.mem_cons_self _ _)
    obtain ⟨_, hl1, hidx1⟩ :=
      addIPToUser_fifo_step now tbl id ip u c hc hl ha hnow hmax hlen hndL hnew hidx
    have hsub : ((if c ≤ u.IPs.length then u.IPs.drop 1 else u.IPs) ++ [ip]
        ++ rest.map Prod.snd).Sublist (u.IPs ++ ip :: rest.map Prod.snd) := by
      rw [List.append_assoc, List.singleton_append]
      refine List.Sublist.append ?_ (List.Sublist.refl _)
      split_ifs
      · exact List.drop_sublist _ _
      · exact List.Sublist.refl _
    have hlen1 : ((if c ≤ u.IPs.length then u.IPs.drop 1 else u.IPs) ++ [ip]).length ≤ c := by
      split_ifs with hfull
      · simp only [List.length_append, List.length_drop, List.length_singleton]; omega
      · simp only [List.length_append, List.length_singleton]; omega
    have key := ih (addIPToUser now tbl id ip).1
      { u with IPs := (if c ≤ u.IPs.length then u.IPs.drop 1 else u.IPs) ++ [ip] }
      hl1 ha hmax hlen1 (hnd.sublist hsub)
      (fun q hq => ht q (List.mem_cons_of_mem _ hq)) hidx1
    simp only [lastN_fifo_step c hc u.IPs (rest.map Prod.snd) ip hlen] at key
    exact key

/-- C12: for a user that is active, has no IP yet and has capacity `c > 0`, in
a table whose index is empty, binding `k` pairwise distinct IPs at instants
not after the user's expiry leaves as the user's list the last `min(k, c)` IPs
in binding order, and the index maps exactly those IPs, each to this user. -/
theorem C12_fifo_binding (tbl : AccessTable) (id : GoString) (u : User) (c : Nat)
    (seq : List (Int × GoString))
    (hl : tbl.users.Load id = some u) (hfresh : u.IPs = []) (ha : u.IsActive = true)
    (hc : 0 < c) (hmax : u.MaxIPs = (c : Int)) (hidx : tbl.ipToUser = [])
    (hnd : (seq.map Prod.snd).Nodup) (ht : ∀ p ∈ seq, p.1 ≤ u.ExpiresAt) :
    (bindAll tbl id seq).users.Load id =
      some { u with IPs := lastN (min seq.length c) (seq.map Prod.snd) } ∧
    (∀ x, (bindAll tbl id seq).ipToUser.Load x =
      if x ∈ lastN (min seq.length c) (seq.map Prod.snd) then some id else none) := by
  have key := bindAll_fifo id c hc seq tbl u hl ha hmax (by rw [hfresh]; simp)
    (by rw [hfresh]; simpa using hnd) ht (by intro x; rw [hidx, hfresh]; rfl)
  have e : lastN (min seq.length c) (seq.map Prod.snd) = lastN c (u.IPs ++ seq.map Prod.snd) := by
    rw [hfresh]
    unfold lastN
    simp only [List.nil_append, List.length_map]
    congr 1
    omega
  rw [e]
  exact key

/-- C12 on the scenario of the specification: capacity 2, binding 10.0.0.1,
10.0.0.2, 10.0.0.3 leaves [10.0.0.2, 10.0.0.3], and the index has no entry for
10.0.0.1. -/
theorem C12_fifo_binding_witness :
    (bindAll (createUser (.ok "a1b2c3d4e5f60718".toList) 0 {} "alice".toList [] 2 30).1
        "a1b2c3d4e5f60718".toList
        [(1, "10.0.0.1".toList), (2, "10.0.0.2".toList), (3, "10.0.0.3".toList)]).users.Load
      "a1b2c3d4e5f60718".toList
      = some { ID := "a1b2c3d4e5f60718".toList, Name := "alice".toList,
               IPs := ["10.0.0.2".toList, "10.0.0.3".toList], MaxIPs := 2, CreatedAt := 0,
               ExpiresAt := 2592000000000000, IsActive := true } ∧
    (bindAll (createUser (.ok "a1b2c3d4e5f60718".toList) 0 {} "alice".toList [] 2 30).1
        "a1b2c3d4e5f60718".toList
        [(1, "10.0.0.1".toList), (2, "10.0.0.2".toList), (3, "10.0.0.3".toList)]).ipToUser.Load
      "10.0.0.1".toList = none ∧
    (bindAll (createUser (.ok "a1b2c3d4e5f60718".toList) 0 {} "alice".toList [] 2 30).1
        "a1b2c3d4e5f60718".toList
        [(1, "10.0.0.1".toList), (2, "10.0.0.2".toList), (3, "10.0.0.3".toList)]).ipToUser.Load
      "10.0.0.3".toList = some "a1b2c3d4e5f60718".toList :=
  have h := C12_fifo_binding
    (createUser (.ok "a1b2c3d4e5f60718".toList) 0 {} "alice".toList [] 2 30).1
    "a1b2c3d4e5f60718".toList
    { ID := "a1b2c3d4e5f60718".toList, Name := "alice".toList, IPs := [], MaxIPs := 2,
      CreatedAt := 0, ExpiresAt := 2592000000000000, IsActive := true } 2
    [(1, "10.0.0.1".toList), (2, "10.0.0.2".toList), (3, "10.0.0.3".toList)]
    (by decide) (by decide) (by decide) (by decide) (by decide) (by decide) (by decide)
    (by decide)
  ⟨h.1, (h.2 "10.0.0.1".toList).trans (by decide), (h.2 "10.0.0.3".toList).trans (by decide)⟩

/-- C13, evaluated at the failing input: after `createUser` for `aa` and `bb`
and `addIPToUser` of the one IP 10.0.0.1 first to `aa`, then to `bb`, the list
of `aa` holds the IP while the index maps it to `bb`; after `deleteUser(aa)`
the list of `bb` still holds the IP and the index has no entry for it. -/
theorem C13_index_not_inverse :
    ((runOps [.create (.ok "aa".toList) 0 "a".toList [] 1 30,
              .create (.ok "bb".toList) 0 "b".toList [] 1 30,
              .addIP 1 "aa".toList "10.0.0.1".toList,
              .addIP 2 "bb".toList "10.0.0.1".toList]).users.Load "aa".toList).map User.IPs
        = some ["10.0.0.1".toList] ∧
    (runOps [.create (.ok "aa".toList) 0 "a".toList [] 1 30,
              .create (.ok "bb".toList) 0 "b".toList [] 1 30,
              .addIP 1 "aa".toList "10.0.0.1".toList,
              .addIP 2 "bb".toList "10.0.0.1".toList]).ipToUser.Load "10.0.0.1".toList
        = some "bb".toList ∧
    ((runOps [.create (.ok "aa".toList) 0 "a".toList [] 1 30,
              .create (.ok "bb".toList) 0 "b".toList [] 1 30,
              .addIP 1 "aa".toList "10.0.0.1".toList,
              .addIP 2 "bb".toList "10.0.0.1".toList,
              .delete "aa".toList]).users.Load "bb".toList).map User.IPs
        = some ["10.0.0.1".toList] ∧
    (runOps [.create (.ok "aa".toList) 0 "a".toList [] 1 30,
              .create (.ok "bb".toList) 0 "b".toList [] 1 30,
              .addIP 1 "aa".toList "10.0.0.1".toList,
              .addIP 2 "bb".toList "10.0.0.1".toList,
              .delete "aa".toList]).ipToUser.Load "10.0.0.1".toList = none := by
  decide

/-- C14, counterexample: `createUser` accepts `maxIPs = 0`, and one
`addIPToUser` then gives that user a list of length 1 with `MaxIPs = 0`. -/
theorem C14_capacity_zero_unbounded :
    ((runOps [.create (.ok "aa".toList) 0 "a".toList [] 0 30,
              .addIP 1 "aa".toList "10.0.0.1".toList]).users.Load "aa".toList).map
        (fun u => (u.IPs.length, u.MaxIPs)) = some (1, 0) := by
  decide

theorem SyncMap.Load_Store {κ ν : Type} [DecidableEq κ] (m : SyncMap κ ν) (k k2 : κ) (v : ν) :
    (SyncMap.Store m k v).Load k2 = if k2 = k then some v else m.Load k2 := by
  by_cases h : k2 = k
  · subst h; simp [SyncMap.Load_Store_self]
  · simp [h, SyncMap.Load_Store_ne _ _ _ _ h]

theorem SyncMap.Load_Delete {κ ν : Type} [DecidableEq κ] (m : SyncMap κ ν) (k k2 : κ) :
    (SyncMap.Delete m k).Load k2 = if k2 = k then none else m.Load k2 := by
  by_cases h : k2 = k
  · subst h; simp [SyncMap.Load_Delete_self]
  · simp [h, SyncMap.Load_Delete_ne _ _ _ h]

theorem checkExpiredUsers_Load (now : Int) (tbl : AccessTable) (id : GoString) :
    (checkExpiredUsers now tbl).users.Load id =
      (tbl.users.Load id).map (fun u =>
        if u.IsActive && decide (now > u.ExpiresAt) then { u with IsActive := false } else u) := by
  unfold checkExpiredUsers SyncMap.Load
  simp only
  induction tbl.users with
  | nil => rfl
  | cons e m ih =>
    by_cases h : e.1 = id
    · rw [List.map_cons, List.find?_cons_of_pos _ (by split_ifs <;> simp [h]),
        List.find?_cons_of_pos _ (by simp [h])]
      simp only [Option.map_some']
      split_ifs <;> rfl
    · rw [List.map_cons, List.find?_cons_of_neg _ (by split_ifs <;> simp [h]),
        List.find?_cons_of_neg _ (by simp [h])]
      exact ih

theorem CapacityOK_apply (tbl : AccessTable) (op : TableOp) (h : CapacityOK tbl) :
    CapacityOK (op.apply tbl) := by
  intro id u hl hpos
  cases op with
  | create gen now name description maxIPs validDays =>
    simp only [TableOp.apply, createUser] at hl
    cases gen with
    | error err => exact h id u hl hpos
    | ok uid =>
      simp only [SyncMap.Load_Store] at hl
      split_ifs at hl with he
      · cases hl
        simpa using hpos.le
      · exact h id u hl hpos
  | addIP now userID clientIP =>
    simp only [TableOp.apply] at hl
    cases hu : tbl.users.Load userID with
    | none =>
      rw [addIPToUser_missing now tbl userID clientIP hu] at hl
      exact h id u hl hpos
    | some v =>
      cases ha : v.IsActive with
      | false =>
        rw [addIPToUser_inactive now tbl userID clientIP v hu ha] at hl
        exact h id u hl hpos
      | true =>
        by_cases he : now > v.ExpiresAt
        · rw [addIPToUser_expired now tbl userID clientIP v hu ha he] at hl
          exact h id u hl hpos
        · have he2 : now ≤ v.ExpiresAt := by omega
          by_cases hm : clientIP ∈ v.IPs
          · rw [addIPToUser_known now tbl userID clientIP v hu ha he2 hm] at hl
            exact h id u hl hpos
          · rw [addIPToUser_new now tbl userID clientIP v hu ha he2 hm] at hl
            simp only [SyncMap.Load_Store] at hl
            split_ifs at hl with hid hfull
            · cases hl
              have hv := h userID v hu hfull.2
              simp only [List.length_append, List.length_drop, List.length_singleton]
              have : 0 < v.IPs.length := by
                have := hfull.1
                omega
              push_cast
              omega
            · cases hl
              simp only at hpos
              simp only [List.length_append, List.length_singleton]
              push_cast
              have : ¬ ((v.IPs.length : Int) ≥ v.MaxIPs) := fun h1 => hfull ⟨h1, hpos⟩
              omega
            · exact h id u hl hpos
  | extend userID days =>
    simp only [TableOp.apply, extendUserExpiration, getUserByID] at hl
    cases hu : tbl.users.Load userID with
    | none => rw [hu] at hl; exact h id u hl hpos
    | some v =>
      rw [hu] at hl
      simp only [SyncMap.Load_Store] at hl
      split_ifs at hl with hid
      · cases hl
        exact h userID v hu hpos
      · exact h id u hl hpos
  | deactivate userID =>
    simp only [TableOp.apply, deactivateUser, getUserByID] at hl
    cases hu : tbl.users.Load userID with
    | none => rw [hu] at hl; exact h id u hl hpos
    | some v =>
      rw [hu] at hl
      simp only [SyncMap.Load_Store] at hl
      split_ifs at hl with hid
      · cases hl
        exact h userID v hu hpos
      · exact h id u hl hpos
  | delete userID =>
    simp only [TableOp.apply, deleteUser, getUserByID] at hl
    cases hu : tbl.users.Load userID with
    | none => rw [hu] at hl; exact h id u hl hpos
    | some v =>
      rw [hu] at hl
      simp only [SyncMap.Load_Delete] at hl
      split_ifs at hl with hid
      exact h id u hl hpos
  | checkExpired now =>
    simp only [TableOp.apply, checkExpiredUsers_Load] at hl
    cases hu : tbl.users.Load id with
    | none => rw [hu] at hl; cases hl
    | some v =>
      rw [hu] at hl
      simp only [Option.map_some', Option.some.injEq] at hl
      split_ifs at hl <;> (subst hl; exact h id v hu hpos)
  | authorize cfg tCheck tUse ip =>
    simp only [TableOp.apply] at hl
    cases hm : cfg.UserManagement with
    | false =>
      rw [isUserAuthorized_off cfg tCheck tUse tbl ip hm] at hl
      exact h id u hl hpos
    | true =>
      cases hi : tbl.ipToUser.Load ip with
      | none =>
        rw [isUserAuthorized_unknownIP cfg tCheck tUse tbl ip hm hi] at hl
        exact h id u hl hpos
      | some uid =>
        cases hu : tbl.users.Load uid with
        | none =>
          rw [isUserAuthorized_noUser cfg tCheck tUse tbl ip uid hm hi hu] at hl
          exact h id u hl hpos
        | some v =>
          by_cases hx : v.IsActive = true ∧ tCheck ≤ v.ExpiresAt
          · rw [isUserAuthorized_usable cfg tCheck tUse tbl ip uid v hm hi hu hx.1 hx.2] at hl
            simp only [SyncMap.Load_Store] at hl
            split_ifs at hl with hid
            · cases hl
              exact h uid v hu hpos
            · exact h id u hl hpos
          · have hx2 : v.IsActive = false ∨ tCheck > v.ExpiresAt := by
              by_cases ha : v.IsActive = true
              · right
                have : ¬ tCheck ≤ v.ExpiresAt := fun h2 => hx ⟨ha, h2⟩
                omega
              · left
                simpa using ha
            rw [isUserAuthorized_unusable cfg tCheck tUse tbl ip uid v hm hi hu hx2] at hl
            exact h id u hl hpos

theorem CapacityOK_foldl (ops : List TableOp) :
    ∀ tbl, CapacityOK tbl → CapacityOK (ops.foldl TableOp.apply tbl) := by
  induction ops with
  | nil => intro tbl h; exact h
  | cons op rest ih => intro tbl h; exact ih _ (CapacityOK_apply tbl op h)

/-- C14, amended: in every state reached from the empty access table by calls
of `createUser` (any arguments) and `addIPToUser`, and of the other operations
on the table as well, every user with `MaxIPs > 0` has
`length(IPs) ≤ MaxIPs`. -/
theorem C14_capacity_invariant (ops : List TableOp) (id : GoString) (u : User) :
    (runOps ops).users.Load id = some u → 0 < u.MaxIPs → (u.IPs.length : Int) ≤ u.MaxIPs :=
  CapacityOK_foldl ops {} (by intro id u hl; cases hl) id u

theorem C14_capacity_invariant_witness :
    (runOps [.create (.ok "aa".toList) 0 "a".toList [] 2 30,
             .addIP 1 "aa".toList "10.0.0.1".toList,
             .addIP 2 "aa".toList "10.0.0.2".toList,
             .addIP 3 "aa".toList "10.0.0.3".toList]).users.Load "aa".toList
      = some { ID := "aa".toList, Name := "a".toList,
               IPs := ["10.0.0.2".toList, "10.0.0.3".toList], MaxIPs := 2,
               ExpiresAt := 2592000000000000, IsActive := true } ∧
    ((["10.0.0.2".toList, "10.0.0.3".toList].length : Int) ≤ 2) :=
  ⟨by decide,
    C14_capacity_invariant
      [.create (.ok "aa".toList) 0 "a".toList [] 2 30,
       .addIP 1 "aa".toList "10.0.0.1".toList,
       .addIP 2 "aa".toList "10.0.0.2".toList,
       .addIP 3 "aa".toList "10.0.0.3".toList] "aa".toList
      { ID := "aa".toList, Name := "a".toList,
        IPs := ["10.0.0.2".toList, "10.0.0.3".toList], MaxIPs := 2,
        ExpiresAt := 2592000000000000, IsActive := true } (by decide) (by decide)⟩

/-! Upstream failover -/

theorem getCachedResponse_globals (now : Int) (s : State) (q : Bytes) :
    (getCachedResponse now s q).1.config = s.config ∧
    (getCachedResponse now s q).1.dohUpstream = s.dohUpstream := by
  unfold getCachedResponse
  simp only
  split
  · exact ⟨rfl, rfl⟩
  · split_ifs
    · exact ⟨rfl, rfl⟩
    · split <;> exact ⟨rfl, rfl⟩

theorem setCachedResponse_eq (t : Int) (s : State) (q r : Bytes) (hq : 13 ≤ q.length) :
    setCachedResponse t s q r =
      ({ s with dnsCache := (setCachedResponse t s q r).1.dnsCache }, .ret ()) := by
  obtain ⟨pre, hpre⟩ := sliceTo_key_of_len q hq
  unfold setCachedResponse
  split_ifs
  · rfl
  · simp only [hpre]

/-- The failover loop when every remaining upstream fails. -/
theorem forwardUpstream_all_fail (lib : Lib) (t : Int) (s : State) (q : Bytes) :
    ∀ (ups : List GoString) (lastErr : Option GoError) (log : List GoString),
      (∀ u ∈ ups, ∃ e, queryUpstreamDoH lib u q = .error e) →
      (forwardUpstream lib t s q ups lastErr log).state
          = { s with metrics := s.metrics.IncErrors } ∧
      (forwardUpstream lib t s q ups lastErr log).contacted = log ++ ups ∧
      (ups = [] → (forwardUpstream lib t s q ups lastErr log).out =
        .ret (.error (match lastErr with
          | some e => .allUpstreamsFailed e
          | none => .allUpstreamsFailedNil))) ∧
      (∀ u e, ups.getLast? = some u → queryUpstreamDoH lib u q = .error e →
        (forwardUpstream lib t s q ups lastErr log).out
          = .ret (.error (.allUpstreamsFailed e))) := by
  intro ups
  induction ups with
  | nil =>
    intro lastErr log _
    unfold forwardUpstream
    exact ⟨rfl, by simp, fun _ => rfl, by simp⟩
  | cons u rest ih =>
    intro lastErr log hall
    obtain ⟨e, he⟩ := hall u (List.mem_cons_self _ _)
    have hrest : ∀ v ∈ rest, ∃ e, queryUpstreamDoH lib v q = .error e :=
      fun v hv => hall v (List.mem_cons_of_mem _ hv)
    obtain ⟨h1, h2, h3, h4⟩ := ih (some e) (log ++ [u]) hrest
    simp only [forwardUpstream, he]
    refine ⟨h1, by rw [h2]; simp, by simp, ?_⟩
    intro v e2 hlast hv
    cases rest with
    | nil =>
      simp only [List.getLast?_singleton, Option.some.injEq] at hlast
      subst hlast
      rw [he] at hv
      cases hv
      exact h3 rfl
    | cons w rest2 =>
      rw [List.getLast?_cons_cons] at hlast
      exact h4 v e2 hlast hv

/-- The failover loop when an upstream succeeds after failures. -/
theorem forwardUpstream_first_success (lib : Lib) (t : Int) (s : State) (q : Bytes)
    (hq : 13 ≤ q.length) (u : GoString) (post : List GoString) (R : Bytes)
    (hu : queryUpstreamDoH lib u q = .ok R) :
    ∀ (pre : List GoString) (lastErr : Option GoError) (log : List GoString),
      (∀ v ∈ pre, ∃ e, queryUpstreamDoH lib v q = .error e) →
      forwardUpstream lib t s q (pre ++ u :: post) lastErr log =
        { state := (setCachedResponse t s q R).1, out := .ret (.ok R),
          contacted := log ++ pre ++ [u] } := by
  intro pre
  induction pre with
  | nil =>
    intro lastErr log _
    simp only [List.nil_append, forwardUpstream, hu, List.append_nil]
    rw [setCachedResponse_eq t s q R hq]
  | cons v rest ih =>
    intro lastErr log hall
    obtain ⟨e, he⟩ := hall v (List.mem_cons_self _ _)
    have key := ih (some e) (log ++ [v]) (fun w hw => hall w (List.mem_cons_of_mem _ hw))
    simp only [List.cons_append, forwardUpstream, he]
    simp only [List.append_assoc, List.singleton_append] at key
    simpa using key

theorem first_success_split (lib : Lib) (q : Bytes) :
    ∀ ups : List GoString, ¬ (∀ u ∈ ups, ∃ e, queryUpstreamDoH lib u q = .error e) →
      ∃ pre u post R, ups = pre ++ u :: post ∧
        (∀ v ∈ pre, ∃ e, queryUpstreamDoH lib v q = .error e) ∧
        queryUpstreamDoH lib u q = .ok R := by
  intro ups
  induction ups with
  | nil => intro h; exact absurd (by simp) h
  | cons u rest ih =>
    intro h
    cases hu : queryUpstreamDoH lib u q with
    | ok R => exact ⟨[], u, rest, R, rfl, by simp, hu⟩
    | error e =>
      have hrest : ¬ (∀ v ∈ rest, ∃ e, queryUpstreamDoH lib v q = .error e) := by
        intro hall
        apply h
        intro v hv
        rcases List.mem_cons.1 hv with rfl | hv
        · exact ⟨e, hu⟩
        · exact hall v hv
      obtain ⟨pre, w, post, R, h1, h2, h3⟩ := ih hrest
      refine ⟨u :: pre, w, post, R, by rw [h1]; rfl, ?_, h3⟩
      intro v hv
      rcases List.mem_cons.1 hv with rfl | hv
      · exact ⟨e, hu⟩
      · exact h2 v hv

/-- On a miss for a name neither blocked nor overridden the resolver is the
failover loop over `dohUpstream`. -/
theorem processDNSQuery_forward (lib : Lib) (tLookup tInsert : Int) (s s1 : State)
    (query cached : Bytes) (req : Msg) (q0 : Question) (rest : List Question) (v : GoString)
    (hu : lib.Unpack query = .ok req) (hq : req.Question = q0 :: rest)
    (hnb : isDomainBlocked s.config (trimDot q0.Name) = false)
    (hmiss : getCachedResponse tLookup s query = (s1, .ret (cached, false)))
    (hno : findValueByPattern s.config.Domains (trimDot q0.Name) = (v, false)) :
    processDNSQuery lib tLookup tInsert s query =
      forwardUpstream lib tInsert s1 query s.dohUpstream none [] := by
  have hg := getCachedResponse_globals tLookup s query
  rw [hmiss] at hg
  simp only at hg
  unfold processDNSQuery
  simp only [hu, hq, hnb, hmiss, hg.1, hg.2, hno]
  simp

/-- C11, counterexample: with a cache TTL of -1 s and upstreams
[U1 fails, U2 returns R] the miss is answered with R after both upstreams were
tried in order, and the cache is still empty: R is not inserted. -/
theorem C11_no_insert_without_ttl :
    (processDNSQuery failoverLib 0 0
      { config := { Domains := [("other.test".toList, "10.0.0.1".toList)], CacheTTL := -1 },
        dohUpstream := ["https://u1/dns-query".toList, "https://u2/dns-query".toList] }
      queryExampleA).out = .ret (.ok [0xAB, 0xCD]) ∧
    (processDNSQuery failoverLib 0 0
      { config := { Domains := [("other.test".toList, "10.0.0.1".toList)], CacheTTL := -1 },
        dohUpstream := ["https://u1/dns-query".toList, "https://u2/dns-query".toList] }
      queryExampleA).contacted
        = ["https://u1/dns-query".toList, "https://u2/dns-query".toList] ∧
    (processDNSQuery failoverLib 0 0
      { config := { Domains := [("other.test".toList, "10.0.0.1".toList)], CacheTTL := -1 },
        dohUpstream := ["https://u1/dns-query".toList, "https://u2/dns-query".toList] }
      queryExampleA).state.dnsCache = [] := by
  decide

/-- C11, amended: on a cache miss (the lookup leaves the globals `s1`) for a
name neither blocked nor overridden, `processDNSQuery` tries the upstream URLs
in list order; it returns the response `R` of the first upstream that succeeds,
having tried exactly the upstreams up to that one, and inserts `R` in the
cache when the cache TTL is positive (the cache is left as the lookup left it
when the TTL is zero or negative); it returns an error if and only if every
upstream fails, and then it has tried them all, nothing is inserted, and the
error wraps the error of the last upstream (a nil error for an empty list). -/
theorem C11_upstream_failover (lib : Lib) (hlib : lib.Sound) (tLookup tInsert : Int)
    (s s1 : State) (query cached : Bytes) (req : Msg) (q0 : Question) (rest : List Question)
    (v : GoString)
    (hu : lib.Unpack query = .ok req) (hq : req.Question = q0 :: rest)
    (hnb : isDomainBlocked s.config (trimDot q0.Name) = false)
    (hmiss : getCachedResponse tLookup s query = (s1, .ret (cached, false)))
    (hno : findValueByPattern s.config.Domains (trimDot q0.Name) = (v, false)) :
    (∀ pre u post R, s.dohUpstream = pre ++ u :: post →
      (∀ w ∈ pre, ∃ e, queryUpstreamDoH lib w query = .error e) →
      queryUpstreamDoH lib u query = .ok R →
      (processDNSQuery lib tLookup tInsert s query).out = .ret (.ok R) ∧
      (processDNSQuery lib tLookup tInsert s query).contacted = pre ++ [u] ∧
      (processDNSQuery lib tLookup tInsert s query).state.dnsCache =
        if s.config.CacheTTL ≤ 0 then s1.dnsCache
        else s1.dnsCache.Store (getCacheKey query)
          (CacheEntry.mk R (tInsert + secondsToDuration s.config.CacheTTL))) ∧
    ((∃ e, (processDNSQuery lib tLookup tInsert s query).out = .ret (.error e)) ↔
      ∀ u ∈ s.dohUpstream, ∃ e, queryUpstreamDoH lib u query = .error e) ∧
    ((∀ u ∈ s.dohUpstream, ∃ e, queryUpstreamDoH lib u query = .error e) →
      (processDNSQuery lib tLookup tInsert s query).contacted = s.dohUpstream ∧
      (processDNSQuery lib tLookup tInsert s query).state.dnsCache = s1.dnsCache ∧
      (∀ u e, s.dohUpstream.getLast? = some u → queryUpstreamDoH lib u query = .error e →
        (processDNSQuery lib tLookup tInsert s query).out
          = .ret (.error (.allUpstreamsFailed e))) ∧
      (s.dohUpstream = [] →
        (processDNSQuery lib tLookup tInsert s query).out
          = .ret (.error .allUpstreamsFailedNil))) := by
  have hlen : 13 ≤ query.length := by
    have := hlib.unpack_len query req hu (by rw [hq]; simp)
    omega
  have hg := getCachedResponse_globals tLookup s query
  rw [hmiss] at hg
  simp only at hg
  rw [processDNSQuery_forward lib tLookup tInsert s s1 query cached req q0 rest v hu hq hnb
    hmiss hno]
  have hsucc : ∀ pre u post R, s.dohUpstream = pre ++ u :: post →
      (∀ w ∈ pre, ∃ e, queryUpstreamDoH lib w query = .error e) →
      queryUpstreamDoH lib u query = .ok R →
      forwardUpstream lib tInsert s1 query s.dohUpstream none [] =
        { state := (setCachedResponse tInsert s1 query R).1, out := .ret (.ok R),
          contacted := pre ++ [u] } := by
    intro pre u post R hsplit hpre hok
    rw [hsplit, forwardUpstream_first_success lib tInsert s1 query hlen u post R hok pre none []
      hpre]
    simp
  have hfail := forwardUpstream_all_fail lib tInsert s1 query s.dohUpstream none []
  refine ⟨?_, ?_, ?_⟩
  · intro pre u post R hsplit hpre hok
    rw [hsucc pre u post R hsplit hpre hok]
    refine ⟨rfl, rfl, ?_⟩
    simp only [setCachedResponse_dnsCache, hg.1]
  · constructor
    · rintro ⟨e, he⟩
      by_contra hnot
      obtain ⟨pre, u, post, R, hsplit, hpre, hok⟩ := first_success_split lib query _ hnot
      rw [hsucc pre u post R hsplit hpre hok] at he
      simp at he
    · intro hall
      obtain ⟨_, _, h3, h4⟩ := hfail hall
      cases hl : s.dohUpstream.getLast? with
      | none =>
        have hnil : s.dohUpstream = [] := List.getLast?_eq_none_iff.1 hl
        exact ⟨_, h3 hnil⟩
      | some u =>
        obtain ⟨e, he⟩ := hall u (List.mem_of_getLast?_eq_some hl)
        exact ⟨_, h4 u e hl he⟩
  · intro hall
    obtain ⟨h1, h2, h3, h4⟩ := hfail hall
    refine ⟨by simpa using h2, by rw [h1], h4, fun hnil => h3 hnil⟩

theorem C11_upstream_failover_witness :
    (processDNSQuery failoverLib 0 0
      { config := { Domains := [("other.test".toList, "10.0.0.1".toList)], CacheTTL := 300 },
        dohUpstream := ["https://u1/dns-query".toList, "https://u2/dns-query".toList] }
      queryExampleA).out = .ret (.ok [0xAB, 0xCD]) ∧
    (processDNSQuery failoverLib 0 0
      { config := { Domains := [("other.test".toList, "10.0.0.1".toList)], CacheTTL := 300 },
        dohUpstream := ["https://u1/dns-query".toList, "https://u2/dns-query".toList] }
      queryExampleA).contacted
        = ["https://u1/dns-query".toList] ++ ["https://u2/dns-query".toList] :=
  have h := (C11_upstream_failover failoverLib ⟨sampleLib_sound.parseIP_len,
      sampleLib_sound.unpack_len⟩ 0 0
    { config := { Domains := [("other.test".toList, "10.0.0.1".toList)], CacheTTL := 300 },
      dohUpstream := ["https://u1/dns-query".toList, "https://u2/dns-query".toList] }
    { config := { Domains := [("other.test".toList, "10.0.0.1".toList)], CacheTTL := 300 },
      dohUpstream := ["https://u1/dns-query".toList, "https://u2/dns-query".toList],
      metrics := { cacheMisses := 1 } }
    queryExampleA [] requestExampleA
    { Name := "example.com.".toList, Qtype := TypeA, Qclass := ClassINET } [] []
    (by decide) (by decide) (by decide) (by decide) (by decide)).1
    ["https://u1/dns-query".toList] "https://u2/dns-query".toList [] [0xAB, 0xCD]
    (by decide)
    (by
      intro w hw
      rw [List.mem_singleton] at hw
      subst hw
      exact ⟨.text "connection refused".toList, by decide⟩)
    (by decide)
  ⟨h.1, h.2.1⟩

/-! The resolver never panics -/

theorem getCachedResponse_no_panic (now : Int) (s : State) (q : Bytes) (hq : 13 ≤ q.length) :
    (getCachedResponse now s q).2 ≠ .panic := by
  obtain ⟨pre, hpre⟩ := sliceTo_key_of_len q hq
  unfold getCachedResponse
  simp only [hpre]
  split
  · simp
  · split_ifs <;> simp

theorem forwardUpstream_no_panic (lib : Lib) (t : Int) (s : State) (q : Bytes)
    (hq : 13 ≤ q.length) :
    ∀ (ups : List GoString) (lastErr : Option GoError) (log : List GoString),
      (forwardUpstream lib t s q ups lastErr log).out ≠ .panic := by
  intro ups
  induction ups with
  | nil => intro lastErr log; simp [forwardUpstream]
  | cons u rest ih =>
    intro lastErr log
    unfold forwardUpstream
    cases hu : queryUpstreamDoH lib u q with
    | error e => simpa using ih (some e) (log ++ [u])
    | ok R =>
      simp only
      rw [setCachedResponse_eq t s q R hq]
      simp

/-- Under the library contract the resolver never panics. -/
theorem processDNSQuery_no_panic (lib : Lib) (hlib : lib.Sound) (tLookup tInsert : Int)
    (s : State) (query : Bytes) :
    (processDNSQuery lib tLookup tInsert s query).out ≠ .panic := by
  cases hu : lib.Unpack query with
  | error e => simp [processDNSQuery, hu]
  | ok req =>
    cases hq : req.Question with
    | nil => simp [processDNSQuery, hu, hq]
    | cons q0 rest =>
      have hlen : 13 ≤ query.length := by
        have := hlib.unpack_len query req hu (by rw [hq]; simp)
        omega
      unfold processDNSQuery
      simp only [hu, hq]
      split_ifs
      · simp
      · have hnp := getCachedResponse_no_panic tLookup s query hlen
        rcases hg : getCachedResponse tLookup s query with ⟨s1, o⟩
        rw [hg] at hnp
        cases o with
        | panic => exact absurd rfl hnp
        | ret p =>
          obtain ⟨cached, found⟩ := p
          cases found with
          | true => simp
          | false =>
            simp only
            rcases hf : findValueByPattern s1.config.Domains (trimDot q0.Name) with ⟨ip, ok⟩
            cases ok with
            | false => exact forwardUpstream_no_panic lib tInsert s1 query hlen _ _ _
            | true =>
              simp only [buildLocalDNSResponse, hq]
              cases hp : lib.ParseIP ip with
              | none => simp
              | some addr =>
                simp only
                cases hk : lib.Pack (localReply req q0 addr) with
                | error e => simp
                | ok resp =>
                  simp only
                  rw [setCachedResponse_eq tInsert s1 query resp hlen]
                  simp

/-! The unpadded URL-safe base64 codec -/

theorem orIdx2 (i0 i1 : Nat) (h1 : i1 < 64) :
    (i0 <<< 18 ||| i1 <<< 12) = i0 * 262144 + i1 * 4096 := by
  rw [show i0 * 262144 = 2 ^ 18 * i0 by ring, Nat.mul_add_lt_is_or (by omega) i0]
  simp [Nat.shiftLeft_eq, Nat.mul_comm]

theorem orIdx3 (i0 i1 i2 : Nat) (h1 : i1 < 64) (h2 : i2 < 64) :
    (i0 <<< 18 ||| i1 <<< 12 ||| i2 <<< 6) = i0 * 262144 + i1 * 4096 + i2 * 64 := by
  rw [orIdx2 i0 i1 h1, show i0 * 262144 + i1 * 4096 = 2 ^ 12 * (i0 * 64 + i1) by ring,
    show 2 ^ 12 * (i0 * 64 + i1) + i2 * 64 = 2 ^ 12 * (i0 * 64 + i1) + i2 * 64 from rfl,
    Nat.mul_add_lt_is_or (by omega) (i0 * 64 + i1)]
  simp [Nat.shiftLeft_eq]

theorem orIdx4 (i0 i1 i2 i3 : Nat) (h1 : i1 < 64) (h2 : i2 < 64) (h3 : i3 < 64) :
    (i0 <<< 18 ||| i1 <<< 12 ||| i2 <<< 6 ||| i3)
      = i0 * 262144 + i1 * 4096 + i2 * 64 + i3 := by
  rw [orIdx3 i0 i1 i2 h1 h2,
    show i0 * 262144 + i1 * 4096 + i2 * 64 = 2 ^ 6 * (i0 * 4096 + i1 * 64 + i2) by ring,
    Nat.mul_add_lt_is_or (by omega) (i0 * 4096 + i1 * 64 + i2)]

theorem decodeURLIdx_encode_fin :
    ∀ i : Fin 64, decodeURLIdx (encodeURLIdx i.val) = some i.val := by decide

theorem decodeURLIdx_encode (i : Nat) (hi : i < 64) :
    decodeURLIdx (encodeURLIdx i) = some i := decodeURLIdx_encode_fin ⟨i, hi⟩

theorem encodeURLIdx_not_newline_fin :
    ∀ i : Fin 64, (!(encodeURLIdx i.val = '\r' || encodeURLIdx i.val = '\n')) = true := by
  decide

theorem encodeURLIdx_not_newline (i : Nat) (hi : i < 64) :
    (!(encodeURLIdx i = '\r' || encodeURLIdx i = '\n')) = true :=
  encodeURLIdx_not_newline_fin ⟨i, hi⟩

theorem rawURL_three (a b c : Byte) (rest : Bytes) :
    base64RawURLEncode (a :: b :: c :: rest) =
      encodeURLIdx (a.val / 4) :: encodeURLIdx ((a.val % 4) * 16 + b.val / 16) ::
        encodeURLIdx ((b.val % 16) * 4 + c.val / 64) :: encodeURLIdx (c.val % 64) ::
        base64RawURLEncode rest := by
  have ha := a.isLt; have hb := b.isLt; have hc := c.isLt
  simp only [base64RawURLEncode, mask6, Nat.shiftRight_eq_div_pow, or3 _ _ _ hb hc]
  have i0 : (a.val * 65536 + b.val * 256 + c.val) / 2 ^ 18 % 64 = a.val / 4 := by omega
  have i1 : (a.val * 65536 + b.val * 256 + c.val) / 2 ^ 12 % 64
      = (a.val % 4) * 16 + b.val / 16 := by omega
  have i2 : (a.val * 65536 + b.val * 256 + c.val) / 2 ^ 6 % 64
      = (b.val % 16) * 4 + c.val / 64 := by omega
  have i3 : (a.val * 65536 + b.val * 256 + c.val) % 64 = c.val % 64 := by omega
  rw [i0, i1, i2, i3]

theorem rawURL_two (a b : Byte) :
    base64RawURLEncode [a, b] =
      [encodeURLIdx (a.val / 4), encodeURLIdx ((a.val % 4) * 16 + b.val / 16),
        encodeURLIdx ((b.val % 16) * 4)] := by
  have ha := a.isLt; have hb := b.isLt
  simp only [base64RawURLEncode, Nat.shiftRight_eq_div_pow, mask6, or2 _ _ hb]
  have i0 : (a.val * 65536 + b.val * 256) / 2 ^ 18 % 64 = a.val / 4 := by omega
  have i1 : (a.val * 65536 + b.val * 256) / 2 ^ 12 % 64
      = (a.val % 4) * 16 + b.val / 16 := by omega
  have i2 : (a.val * 65536 + b.val * 256) / 2 ^ 6 % 64 = (b.val % 16) * 4 := by omega
  rw [i0, i1, i2]

theorem rawURL_one (a : Byte) :
    base64RawURLEncode [a] =
      [encodeURLIdx (a.val / 4), encodeURLIdx ((a.val % 4) * 16)] := by
  have ha := a.isLt
  simp only [base64RawURLEncode, Nat.shiftRight_eq_div_pow, mask6, Nat.shiftLeft_eq]
  have i0 : a.val * 2 ^ 16 / 2 ^ 18 % 64 = a.val / 4 := by omega
  have i1 : a.val * 2 ^ 16 / 2 ^ 12 % 64 = (a.val % 4) * 16 := by omega
  rw [i0, i1]

theorem rawURL_chars (q : Bytes) :
    ∀ ch ∈ base64RawURLEncode q, (!(ch = '\r' || ch = '\n')) = true := by
  induction q using base64RawURLEncode.induct with
  | case1 a b c rest ih =>
    have ha := a.isLt; have hb := b.isLt; have hc := c.isLt
    rw [rawURL_three]
    intro ch hch
    simp only [List.mem_cons] at hch
    rcases hch with h | h | h | h | h
    · rw [h]; exact encodeURLIdx_not_newline _ (by omega)
    · rw [h]; exact encodeURLIdx_not_newline _ (by omega)
    · rw [h]; exact encodeURLIdx_not_newline _ (by omega)
    · rw [h]; exact encodeURLIdx_not_newline _ (by omega)
    · exact ih ch h
  | case2 a b =>
    have ha := a.isLt; have hb := b.isLt
    rw [rawURL_two]
    intro ch hch
    simp only [List.mem_cons, List.mem_singleton, List.not_mem_nil, or_false] at hch
    rcases hch with h | h | h
    · rw [h]; exact encodeURLIdx_not_newline _ (by omega)
    · rw [h]; exact encodeURLIdx_not_newline _ (by omega)
    · rw [h]; exact encodeURLIdx_not_newline _ (by omega)
  | case3 a =>
    have ha := a.isLt
    rw [rawURL_one]
    intro ch hch
    simp only [List.mem_cons, List.mem_singleton, List.not_mem_nil, or_false] at hch
    rcases hch with h | h
    · rw [h]; exact encodeURLIdx_not_newline _ (by omega)
    · rw [h]; exact encodeURLIdx_not_newline _ (by omega)
  | case4 => intro ch hch; simp [base64RawURLEncode] at hch

theorem rawURL_no_newline (q : Bytes) :
    (base64RawURLEncode q).filter (fun c => !(c = '\r' || c = '\n')) = base64RawURLEncode q :=
  List.filter_eq_self.2 (rawURL_chars q)

theorem decodeQuanta_encode (q : Bytes) : decodeQuanta (base64RawURLEncode q) = .ok q := by
  induction q using base64RawURLEncode.induct with
  | case1 a b c rest ih =>
    have ha := a.isLt; have hb := b.isLt; have hc := c.isLt
    rw [rawURL_three]
    unfold decodeQuanta
    simp only [decodeURLIdx_encode _ (show a.val / 4 < 64 by omega),
      decodeURLIdx_encode _ (show (a.val % 4) * 16 + b.val / 16 < 64 by omega),
      decodeURLIdx_encode _ (show (b.val % 16) * 4 + c.val / 64 < 64 by omega),
      decodeURLIdx_encode _ (show c.val % 64 < 64 by omega), ih]
    rw [orIdx4 _ _ _ _ (by omega) (by omega) (by omega)]
    simp only [Nat.shiftRight_eq_div_pow, Except.ok.injEq, List.cons.injEq, and_true]
    refine ⟨Fin.ext ?_, Fin.ext ?_, Fin.ext ?_⟩ <;> simp only [Fin.ofNat, Fin.val_mk] <;> omega
  | case2 a b =>
    have ha := a.isLt; have hb := b.isLt
    rw [rawURL_two]
    unfold decodeQuanta
    simp only [decodeURLIdx_encode _ (show a.val / 4 < 64 by omega),
      decodeURLIdx_encode _ (show (a.val % 4) * 16 + b.val / 16 < 64 by omega),
      decodeURLIdx_encode _ (show (b.val % 16) * 4 < 64 by omega)]
    rw [orIdx3 _ _ _ (by omega) (by omega)]
    simp only [Nat.shiftRight_eq_div_pow, Except.ok.injEq, List.cons.injEq, and_true]
    refine ⟨Fin.ext ?_, Fin.ext ?_⟩ <;> simp only [Fin.ofNat, Fin.val_mk] <;> omega
  | case3 a =>
    have ha := a.isLt
    rw [rawURL_one]
    unfold decodeQuanta
    simp only [decodeURLIdx_encode _ (show a.val / 4 < 64 by omega),
      decodeURLIdx_encode _ (show (a.val % 4) * 16 < 64 by omega)]
    rw [orIdx2 _ _ (by omega)]
    simp only [Nat.shiftRight_eq_div_pow, Except.ok.injEq, List.cons.injEq, and_true]
    refine Fin.ext ?_
    simp only [Fin.ofNat, Fin.val_mk]
    omega
  | case4 => rfl

/-- Decoding the unpadded URL-safe base64 encoding gives the bytes back. -/
theorem base64RawURL_roundtrip (q : Bytes) :
    base64RawURLDecode (base64RawURLEncode q) = .ok q := by
  unfold base64RawURLDecode
  rw [rawURL_no_newline, decodeQuanta_encode]

/-! The DoH front-end -/

theorem SyncMap.Load_isSome {κ ν : Type} [DecidableEq κ] (m : SyncMap κ ν) (k : κ) :
    (m.Load k).isSome = m.any (fun e => decide (e.1 = k)) := by
  unfold SyncMap.Load
  induction m with
  | nil => rfl
  | cons e m ih =>
    by_cases h : e.1 = k
    · rw [List.find?_cons_of_pos _ (by simp [h])]
      simp [h]
    · rw [List.find?_cons_of_neg _ (by simp [h])]
      simp [h, ih]

theorem hasPrefix_iff (s pre : GoString) : hasPrefix s pre = true ↔ ∃ t, s = pre ++ t := by
  unfold hasPrefix
  rw [List.isPrefixOf_iff_prefix]
  constructor
  · rintro ⟨t, ht⟩; exact ⟨t, ht.symm⟩
  · rintro ⟨t, ht⟩; exact ⟨t, ht.symm⟩

/-- `checkAuth` passes exactly when authentication is off or the header is
`Bearer ` followed by a known token. -/
theorem checkAuth_eq (cfg : Config) (authTokens : SyncMap GoString Bool) (ctx : RequestCtx) :
    checkAuth cfg authTokens ctx =
      (!cfg.EnableAuth ||
        authTokens.any (fun e => decide (ctx.Authorization = "Bearer ".toList ++ e.1))) := by
  unfold checkAuth
  cases hE : cfg.EnableAuth with
  | false => simp
  | true =>
    simp only [Bool.not_true, Bool.false_eq_true, if_false, Bool.false_or]
    by_cases h0 : ctx.Authorization = []
    · rw [if_pos h0, h0]
      symm
      rw [List.any_eq_false]
      intro e _
      simp
    · rw [if_neg h0]
      by_cases hp : hasPrefix ctx.Authorization "Bearer ".toList = true
      · rw [if_pos hp]
        obtain ⟨t, ht⟩ := (hasPrefix_iff _ _).1 hp
        have hd : ctx.Authorization.drop 7 = t := by
          rw [ht]
          exact List.drop_left' (by decide)
        rw [hd, SyncMap.Load_isSome, ht]
        congr 1
        funext e
        simp only [List.append_cancel_left_eq]
        by_cases h : e.1 = t
        · simp [h]
        · have : ¬ t = e.1 := fun h2 => h h2.symm
          simp [h, this]
      · rw [if_neg hp]
        symm
        rw [List.any_eq_false]
        intro e _
        simp only [decide_eq_true_eq]
        intro h
        exact hp ((hasPrefix_iff _ _).2 ⟨e.1, h⟩)

theorem dohResolve_status (lib : Lib) (hlib : lib.Sound) (clk : Clock) (srv : Server)
    (body : Bytes) :
    (dohResolve lib clk srv body).2.StatusCode =
      (if body.length > 4096 then 413
       else match (processDNSQuery lib clk.tLookup clk.tInsert srv.state body).out with
        | .ret (.ok _) => 200
        | _ => 400) ∧
    ((dohResolve lib clk srv body).2.StatusCode = 200 →
      (dohResolve lib clk srv body).2.ContentType = "application/dns-message".toList ∧
      (processDNSQuery lib clk.tLookup clk.tInsert srv.state body).out
        = .ret (.ok (dohResolve lib clk srv body).2.Body)) := by
  unfold dohResolve
  by_cases hl : body.length > 4096
  · simp only [hl, if_true]
    refine ⟨rfl, fun h => ?_⟩
    simp only [ctxError] at h
    exact absurd h (by decide)
  · simp only [hl, if_false]
    have hnp := processDNSQuery_no_panic lib hlib clk.tLookup clk.tInsert srv.state body
    cases ho : (processDNSQuery lib clk.tLookup clk.tInsert srv.state body).out with
    | panic => exact absurd ho hnp
    | ret x =>
      cases x with
      | error e =>
        refine ⟨rfl, fun h => ?_⟩
        simp only [ctxError] at h
        exact absurd h (by decide)
      | ok resp => exact ⟨rfl, fun _ => ⟨rfl, rfl⟩⟩

/-- C17: the status `handleDoHRequest` answers with is the one the decision
chain of the specification gives (403, 401, 429, 429, 405, 400, 413, 400, else
200), and a 200 carries the content type `application/dns-message` and as body
exactly the bytes the resolver returned for the payload. -/
theorem C17_doh_status_chain (lib : Lib) (hlib : lib.Sound) (clk : Clock) (lim : Limits)
    (srv : Server) (ctx : RequestCtx) :
    (handleDoHRequest lib clk lim srv ctx).2.StatusCode = dohStatusChain lib clk lim srv ctx ∧
    ((handleDoHRequest lib clk lim srv ctx).2.StatusCode = 200 →
      (handleDoHRequest lib clk lim srv ctx).2.ContentType = "application/dns-message".toList ∧
      ∃ payload,
        ((ctx.Method = "GET".toList ∧
            ∃ raw, ctx.dns = some raw ∧ base64RawURLDecode raw = .ok payload) ∨
          (ctx.Method = "POST".toList ∧ payload = ctx.PostBody)) ∧
        (processDNSQuery lib clk.tLookup clk.tInsert
          { srv.state with metrics := srv.state.metrics.IncDOHQueries } payload).out
          = .ret (.ok (handleDoHRequest lib clk lim srv ctx).2.Body)) := by
  have h403 : (ctxError "Access denied - Please register first" 403).StatusCode ≠ 200 := by
    decide
  have h401 : (ctxError "Unauthorized" 401).StatusCode ≠ 200 := by decide
  have h429 : (ctxError "Rate limit exceeded" 429).StatusCode ≠ 200 := by decide
  have h400a : (ctxError "Missing 'dns' query parameter" 400).StatusCode ≠ 200 := by decide
  have h400b : (ctxError "Invalid 'dns' query parameter" 400).StatusCode ≠ 200 := by decide
  have h400c : (ctxError "Empty request body" 400).StatusCode ≠ 200 := by decide
  have h405 : (ctxError "Only GET and POST methods are allowed" 405).StatusCode ≠ 200 := by
    decide
  unfold handleDoHRequest dohStatusChain
  simp only []
  cases hA : (isUserAuthorized srv.state.config clk.tCheck clk.tUse srv.table
      (getClientIP ctx)).2 with
  | false =>
    simp only [Bool.not_false, if_true]
    exact ⟨rfl, fun h => absurd h h403⟩
  | true =>
    simp only [Bool.not_true, Bool.false_eq_true, if_false, checkAuth_eq]
    cases hE : srv.state.config.EnableAuth <;>
      cases hT : srv.authTokens.any
        (fun e => decide (ctx.Authorization = "Bearer ".toList ++ e.1)) <;>
      simp only [Bool.not_true, Bool.not_false, Bool.or_true, Bool.or_false, Bool.true_or,
        Bool.false_or, Bool.false_eq_true, if_false, if_true, true_and, false_and, and_self,
        and_true, and_false, reduceCtorEq]
    all_goals first
      | exact ⟨rfl, fun h => absurd h h401⟩
      | skip
    all_goals
      cases hG : lim.globalAllow
      · simp only [Bool.not_false, if_true]
        exact ⟨rfl, fun h => absurd h h429⟩
      · cases hI : lim.ipAllow
        · simp only [Bool.not_true, Bool.not_false, Bool.false_eq_true, if_false, if_true,
            Bool.true_eq_false]
          exact ⟨rfl, fun h => absurd h h429⟩
        · simp only [Bool.not_true, Bool.false_eq_true, if_false, Bool.true_eq_false]
          by_cases hGet : ctx.Method = "GET".toList
          · have hNP : ¬ ctx.Method = "POST".toList := by rw [hGet]; decide
            have hNP2 : ¬ "GET".toList = "POST".toList := by decide
            simp only [hGet, hNP2, if_true, ne_eq, not_true_eq_false, false_and, if_false,
              true_and, and_false, or_false]
            rcases hd : ctx.dns with _ | raw
            · simp only [if_true]
              exact ⟨rfl, fun h => absurd h h400a⟩
            · rcases hdec : base64RawURLDecode raw with e | decoded
              · simp only [hdec, if_true]
                exact ⟨rfl, fun h => absurd h h400b⟩
              · simp only [hdec, Bool.false_eq_true, if_false]
                have key := dohResolve_status lib hlib clk
                  { state := { srv.state with metrics := srv.state.metrics.IncDOHQueries },
                    table := (isUserAuthorized srv.state.config clk.tCheck clk.tUse srv.table
                      (getClientIP ctx)).1,
                    authTokens := srv.authTokens } decoded
                refine ⟨?_, fun h => ?_⟩
                · exact key.1
                · exact ⟨(key.2 h).1, decoded, ⟨raw, rfl, hdec⟩, (key.2 h).2⟩
          · by_cases hPost : ctx.Method = "POST".toList
            · have hPG : ¬ "POST".toList = "GET".toList := by decide
              simp only [hPost, hPG, if_true, if_false, ne_eq, not_true_eq_false, and_false,
                false_and, true_and, false_or, not_false_eq_true]
              by_cases hb : ctx.PostBody = []
              · simp only [hb, List.length_nil, if_true]
                exact ⟨rfl, fun h => absurd h h400c⟩
              · have hlen : ¬ ctx.PostBody.length = 0 := fun h => hb (List.length_eq_zero.1 h)
                simp only [hb, hlen, if_false]
                have key := dohResolve_status lib hlib clk
                  { state := { srv.state with metrics := srv.state.metrics.IncDOHQueries },
                    table := (isUserAuthorized srv.state.config clk.tCheck clk.tUse srv.table
                      (getClientIP ctx)).1,
                    authTokens := srv.authTokens } ctx.PostBody
                refine ⟨?_, fun h => ?_⟩
                · exact key.1
                · exact ⟨(key.2 h).1, ctx.PostBody, rfl, (key.2 h).2⟩
            · simp only [hGet, hPost, if_false, ne_eq, not_false_eq_true, and_self, if_true]
              exact ⟨rfl, fun h => absurd h h405⟩

theorem C17_doh_status_chain_witness :
    (handleDoHRequest sampleLib {} {}
      { state := { config := { Domains := [("example.com".toList, "10.0.0.1".toList)],
                               CacheTTL := 300 } } }
      { Method := "POST".toList, PostBody := queryExampleA }).2.StatusCode = 200 :=
  (C17_doh_status_chain sampleLib sampleLib_sound {} {}
    { state := { config := { Domains := [("example.com".toList, "10.0.0.1".toList)],
                             CacheTTL := 300 } } }
    { Method := "POST".toList, PostBody := queryExampleA }).1.trans (by decide)

theorem handleDoHRequest_post_pass (lib : Lib) (clk : Clock) (lim : Limits) (srv : Server)
    (ctx : RequestCtx) (q : Bytes) (hq : q ≠ [])
    (hA : (isUserAuthorized srv.state.config clk.tCheck clk.tUse srv.table
      (getClientIP ctx)).2 = true)
    (hC : checkAuth srv.state.config srv.authTokens ctx = true)
    (hG : lim.globalAllow = true) (hI : lim.ipAllow = true) :
    handleDoHRequest lib clk lim srv { ctx with Method := "POST".toList, PostBody := q } =
      dohResolve lib clk
        { state := { srv.state with metrics := srv.state.metrics.IncDOHQueries }
          table := (isUserAuthorized srv.state.config clk.tCheck clk.tUse srv.table
            (getClientIP ctx)).1
          authTokens := srv.authTokens } q := by
  have hlen : ¬ q.length = 0 := fun h => hq (List.length_eq_zero.1 h)
  have hPG : ¬ "POST".toList = "GET".toList := by decide
  have hA2 : (isUserAuthorized srv.state.config clk.tCheck clk.tUse srv.table
      (getClientIP { ctx with Method := "POST".toList, PostBody := q })).2 = true := hA
  have hC2 : checkAuth srv.state.config srv.authTokens
      { ctx with Method := "POST".toList, PostBody := q } = true := hC
  unfold handleDoHRequest
  simp only [hA2, hC2, hG, hI, hlen, hPG, Bool.not_true, Bool.false_eq_true, if_false, if_true]
  rfl

theorem dohResolve_small (lib : Lib) (clk : Clock) (srv : Server) (q : Bytes)
    (hlen : q.length ≤ 4096) :
    (∀ resp, (processDNSQuery lib clk.tLookup clk.tInsert srv.state q).out = .ret (.ok resp) →
      (dohResolve lib clk srv q).2.StatusCode = 200 ∧
      (dohResolve lib clk srv q).2.Body = resp ∧
      (dohResolve lib clk srv q).1.state
        = (processDNSQuery lib clk.tLookup clk.tInsert srv.state q).state) ∧
    (∀ e, (processDNSQuery lib clk.tLookup clk.tInsert srv.state q).out = .ret (.error e) →
      (dohResolve lib clk srv q).2.StatusCode = 400 ∧
      (dohResolve lib clk srv q).1.state.dnsCache
        = (processDNSQuery lib clk.tLookup clk.tInsert srv.state q).state.dnsCache) := by
  have h : ¬ q.length > 4096 := by omega
  unfold dohResolve
  simp only [h, if_false]
  constructor
  · intro resp hr
    rw [hr]
    exact ⟨rfl, rfl, rfl⟩
  · intro e hr
    rw [hr]
    exact ⟨rfl, rfl⟩

/-- C18: decoding the unpadded URL-safe base64 encoding of `q` yields `q`; hence
for a non-empty `q` of at most 4096 bytes a GET whose `dns` argument is that
encoding and a POST whose body is `q`, from the same state and otherwise
alike, give the same response and leave the same state. When the request
passes the checks before the payload is read (client authorised, bearer token
accepted, both limiters allow), both run the resolver on exactly `q`: if
`processDNSQuery(q)` returns bytes, the status is 200 and the body is those
bytes, and the globals are those the resolver left; if it returns an error,
the status is 400. -/
theorem C18_get_post_equivalence (lib : Lib) (clk : Clock) (lim : Limits) (srv : Server)
    (ctx : RequestCtx) (q : Bytes) (hq : q ≠ []) (hlen : q.length ≤ 4096) :
    base64RawURLDecode (base64RawURLEncode q) = .ok q ∧
    handleDoHRequest lib clk lim srv
        { ctx with Method := "GET".toList, dns := some (base64RawURLEncode q) }
      = handleDoHRequest lib clk lim srv
        { ctx with Method := "POST".toList, PostBody := q } ∧
    ((isUserAuthorized srv.state.config clk.tCheck clk.tUse srv.table
        (getClientIP ctx)).2 = true →
      checkAuth srv.state.config srv.authTokens ctx = true →
      lim.globalAllow = true → lim.ipAllow = true →
      (∀ resp,
        (processDNSQuery lib clk.tLookup clk.tInsert
          { srv.state with metrics := srv.state.metrics.IncDOHQueries } q).out
            = .ret (.ok resp) →
        (handleDoHRequest lib clk lim srv
          { ctx with Method := "GET".toList, dns := some (base64RawURLEncode q) }).2.StatusCode
            = 200 ∧
        (handleDoHRequest lib clk lim srv
          { ctx with Method := "GET".toList, dns := some (base64RawURLEncode q) }).2.Body
            = resp ∧
        (handleDoHRequest lib clk lim srv
          { ctx with Method := "GET".toList, dns := some (base64RawURLEncode q) }).1.state
            = (processDNSQuery lib clk.tLookup clk.tInsert
                { srv.state with metrics := srv.state.metrics.IncDOHQueries } q).state ∧
        (handleDoHRequest lib clk lim srv
          { ctx with Method := "POST".toList, PostBody := q }).2.StatusCode = 200 ∧
        (handleDoHRequest lib clk lim srv
          { ctx with Method := "POST".toList, PostBody := q }).2.Body = resp) ∧
      (∀ e,
        (processDNSQuery lib clk.tLookup clk.tInsert
          { srv.state with metrics := srv.state.metrics.IncDOHQueries } q).out
            = .ret (.error e) →
        (handleDoHRequest lib clk lim srv
          { ctx with Method := "GET".toList, dns := some (base64RawURLEncode q) }).2.StatusCode
            = 400 ∧
        (handleDoHRequest lib clk lim srv
          { ctx with Method := "POST".toList, PostBody := q }).2.StatusCode = 400)) := by
  have hgp : handleDoHRequest lib clk lim srv
        { ctx with Method := "GET".toList, dns := some (base64RawURLEncode q) }
      = handleDoHRequest lib clk lim srv
        { ctx with Method := "POST".toList, PostBody := q } := by
    have hlen0 : ¬ q.length = 0 := fun h => hq (List.length_eq_zero.1 h)
    have hPG : ¬ "POST".toList = "GET".toList := by decide
    unfold handleDoHRequest
    simp only [base64RawURL_roundtrip, hlen0, hPG, if_true, if_false]
    rfl
  refine ⟨base64RawURL_roundtrip q, hgp, ?_⟩
  intro hA hC hG hI
  rw [hgp, handleDoHRequest_post_pass lib clk lim srv ctx q hq hA hC hG hI]
  obtain ⟨h1, h2⟩ := dohResolve_small lib clk
    { state := { srv.state with metrics := srv.state.metrics.IncDOHQueries }
      table := (isUserAuthorized srv.state.config clk.tCheck clk.tUse srv.table
        (getClientIP ctx)).1
      authTokens := srv.authTokens } q hlen
  constructor
  · intro resp hr
    obtain ⟨a, b, c⟩ := h1 resp hr
    exact ⟨a, b, c, a, b⟩
  · intro e hr
    obtain ⟨a, -⟩ := h2 e hr
    exact ⟨a, a⟩

/-- C18 on `queryExampleA`: its encoding, the status of the GET, and the GET
and the POST compared. -/
theorem C18_get_post_equivalence_witness :
    base64RawURLEncode queryExampleA = "EjQBAAABAAAAAAAAB2V4YW1wbGUDY29tAAABAAE".toList ∧
    (handleDoHRequest sampleLib {} {}
      { state := { config := { Domains := [("example.com".toList, "10.0.0.1".toList)],
                               CacheTTL := 300 } } }
      { Method := "GET".toList,
        dns := some "EjQBAAABAAAAAAAAB2V4YW1wbGUDY29tAAABAAE".toList }).2.StatusCode = 200 ∧
    handleDoHRequest sampleLib {} {}
        { state := { config := { Domains := [("example.com".toList, "10.0.0.1".toList)],
                                 CacheTTL := 300 } } }
        { ({} : RequestCtx) with
          Method := "GET".toList, dns := some (base64RawURLEncode queryExampleA) }
      = handleDoHRequest sampleLib {} {}
        { state := { config := { Domains := [("example.com".toList, "10.0.0.1".toList)],
                                 CacheTTL := 300 } } }
        { ({} : RequestCtx) with Method := "POST".toList, PostBody := queryExampleA } :=
  ⟨by decide, by decide,
    (C18_get_post_equivalence sampleLib {} {}
      { state := { config := { Domains := [("example.com".toList, "10.0.0.1".toList)],
                               CacheTTL := 300 } } }
      {} queryExampleA (by decide) (by decide)).2.1⟩

/-! The SNI splicer -/

theorem dropWhile_reverse_split (p : Char → Bool) (t : GoString) :
    t = (t.reverse.dropWhile p).reverse ++ (t.reverse.takeWhile p).reverse := by
  have h := List.takeWhile_append_dropWhile p t.reverse
  have h2 := congrArg List.reverse h
  rw [List.reverse_append, List.reverse_reverse] at h2
  exact h2.symm

theorem TrimSpace_spec (s : GoString) :
    ∃ pre post, s = pre ++ TrimSpace s ++ post ∧
      (∀ c ∈ pre, isSpace c = true) ∧ (∀ c ∈ post, isSpace c = true) ∧
      (∀ c, (TrimSpace s).head? = some c → isSpace c = false) ∧
      (∀ c, (TrimSpace s).getLast? = some c → isSpace c = false) := by
  refine ⟨s.takeWhile isSpace, ((s.dropWhile isSpace).reverse.takeWhile isSpace).reverse,
    ?_, ?_, ?_, ?_, ?_⟩
  · unfold TrimSpace
    rw [List.append_assoc, ← dropWhile_reverse_split, List.takeWhile_append_dropWhile]
  · intro c hc
    exact List.mem_takeWhile_imp hc
  · intro c hc
    rw [List.mem_reverse] at hc
    exact List.mem_takeWhile_imp hc
  · intro c hc
    have hsplit := dropWhile_reverse_split isSpace (s.dropWhile isSpace)
    have htrim : TrimSpace s = ((s.dropWhile isSpace).reverse.dropWhile isSpace).reverse := rfl
    rw [← htrim] at hsplit
    have hd := List.head?_dropWhile_not isSpace s
    rw [hsplit] at hd
    cases ht : TrimSpace s with
    | nil => rw [ht] at hc; cases hc
    | cons a rest =>
      rw [ht] at hc hd
      simp only [List.cons_append, List.head?_cons, Option.some.injEq] at hc hd
      subst hc
      simpa using hd
  · intro c hc
    have htrim : TrimSpace s = ((s.dropWhile isSpace).reverse.dropWhile isSpace).reverse := rfl
    rw [htrim, List.getLast?_reverse] at hc
    have hd := List.head?_dropWhile_not isSpace (s.dropWhile isSpace).reverse
    rw [hc] at hd
    simpa using hd

/-- C19: with `n` the server name lower-cased by `strings.ToLower` and trimmed
of surrounding white space (`n` is what is left of the lower-cased name when
the white space before and after it is taken off: it neither begins nor ends
with white space): an empty `n` is answered with the fixed 421 response and
nothing is dialled; `n` equal to the lower-cased host name dials
`127.0.0.1:8443`; any other `n` without a colon dials `n:443`; the route
depends on the configuration through the host name only. On ASCII text, where
`strings.ToLower` is `toLower`: the name ` DNS.Example.COM` with a tab after it
is routed to `127.0.0.1:8443` for the host `dns.EXAMPLE.com`, the name
`Foo.Test` between blanks to `foo.test:443`, and a name of blanks gets the 421
response. -/
theorem C19_sni_routing (ToLower : GoString → GoString) (cfg : Config) (s : GoString) :
    (∃ pre post, ToLower s = pre ++ TrimSpace (ToLower s) ++ post ∧
      (∀ c ∈ pre, isSpace c = true) ∧ (∀ c ∈ post, isSpace c = true) ∧
      (∀ c, (TrimSpace (ToLower s)).head? = some c → isSpace c = false) ∧
      (∀ c, (TrimSpace (ToLower s)).getLast? = some c → isSpace c = false)) ∧
    (TrimSpace (ToLower s) = [] →
      routeSNI ToLower cfg s = .misdirected misdirectedResponse) ∧
    (TrimSpace (ToLower s) ≠ [] → TrimSpace (ToLower s) = ToLower cfg.Host →
      routeSNI ToLower cfg s = .dial "127.0.0.1:8443".toList) ∧
    (TrimSpace (ToLower s) ≠ [] → TrimSpace (ToLower s) ≠ ToLower cfg.Host →
      ':' ∉ TrimSpace (ToLower s) →
      routeSNI ToLower cfg s = .dial (TrimSpace (ToLower s) ++ ":443".toList)) ∧
    (∀ cfg2 : Config, cfg2.Host = cfg.Host → routeSNI ToLower cfg2 s = routeSNI ToLower cfg s) ∧
    (∀ (hs : Handshake) (dialOK : Bool) (fuel : Nat) (client rest : ByteStream)
        (hello : ClientHelloInfo) (buf : Bytes),
      peekClientHello hs client = (.ok (hello, buf), rest) → hello.ServerName = s →
      TrimSpace (ToLower s) = [] →
      handleConnection ToLower cfg hs dialOK fuel client =
        { toClient := stringBytes misdirectedResponse, dialled := none, toBackend := some [] }) ∧
    routeSNI toLower { Host := "dns.EXAMPLE.com".toList } " DNS.Example.COM\t".toList
      = .dial "127.0.0.1:8443".toList ∧
    routeSNI toLower { Host := "dns.example.com".toList } " Foo.Test ".toList
      = .dial "foo.test:443".toList ∧
    routeSNI toLower { Host := "dns.example.com".toList } " \t ".toList
      = .misdirected ("HTTP/1.1 421 Misdirected Request\r\n" ++
          "Content-Type: text/plain; charset=utf-8\r\n" ++
          "Connection: close\r\n" ++
          "Content-Length: 12\r\n\r\nSNI required").toList := by
  refine ⟨TrimSpace_spec (ToLower s), ?_, ?_, ?_, ?_, ?_, by decide, by decide, by decide⟩
  · intro h
    simp only [routeSNI, h, if_true]
  · intro h1 h2
    simp only [routeSNI]
    rw [if_neg h1, if_pos h2]
  · intro h1 h2 h3
    simp only [routeSNI, JoinHostPort]
    rw [if_neg h1, if_neg h2, if_neg h3, List.append_assoc]
    rfl
  · intro cfg2 h
    simp only [routeSNI, h]
  · intro hs dialOK fuel client rest hello buf hp hn he
    have hr : routeSNI ToLower cfg hello.ServerName = .misdirected misdirectedResponse := by
      rw [hn]
      simp only [routeSNI, he, if_true]
    simp only [handleConnection, hp, hr]

theorem ByteStream.Read_join (s : ByteStream) (n : Nat) :
    (ByteStream.Read s n).1 ++ (ByteStream.Read s n).2.flatten = s.flatten := by
  cases s with
  | nil => rfl
  | cons seg rest =>
    simp only [ByteStream.Read]
    split_ifs
    · rfl
    · simp only [List.flatten_cons, ← List.append_assoc, List.take_append_drop]

theorem ByteStream.Read_measure (s : ByteStream) (n : Nat) (hn : 0 < n) (hs : s ≠ []) :
    (ByteStream.Read s n).2.flatten.length + (ByteStream.Read s n).2.length
      < s.flatten.length + s.length := by
  cases s with
  | nil => exact absurd rfl hs
  | cons seg rest =>
    simp only [ByteStream.Read]
    split_ifs with h
    · simp only [List.flatten_cons, List.length_append, List.length_cons]
      omega
    · simp only [List.flatten_cons, List.length_append, List.length_cons, List.length_drop]
      omega

theorem ByteStream.Read_measure_le (s : ByteStream) (n : Nat) :
    (ByteStream.Read s n).2.flatten.length + (ByteStream.Read s n).2.length
      ≤ s.flatten.length + s.length := by
  cases s with
  | nil => exact Nat.le_refl _
  | cons seg rest =>
    simp only [ByteStream.Read]
    split_ifs with h
    · simp only [List.flatten_cons, List.length_append, List.length_cons]
      omega
    · simp only [List.flatten_cons, List.length_append, List.length_cons, List.length_drop]
      omega

/-- The tee: whatever the handshake reads, the buffer followed by what is left
of the reader is the buffer before followed by the reader before. -/
theorem readClientHello_tee (hs : Handshake) :
    ∀ (reader : ByteStream) (peekBuf : Bytes),
      (readClientHello hs reader peekBuf).2.2 ++ (readClientHello hs reader peekBuf).2.1.flatten
        = peekBuf ++ reader.flatten ∧
      (readClientHello hs reader peekBuf).2.1.flatten.length
          + (readClientHello hs reader peekBuf).2.1.length
        ≤ reader.flatten.length + reader.length := by
  induction hs with
  | done hello => intro reader peekBuf; exact ⟨rfl, Nat.le_refl _⟩
  | read n next ih =>
    intro reader peekBuf
    unfold readClientHello
    obtain ⟨h1, h2⟩ := ih (ByteStream.Read reader n).1 (ByteStream.Read reader n).2
      (peekBuf ++ (ByteStream.Read reader n).1)
    refine ⟨?_, Nat.le_trans h2 (ByteStream.Read_measure_le reader n)⟩
    rw [h1, List.append_assoc, ByteStream.Read_join]

/-- The pump copies the whole source, given fuel for every `Read`. -/
theorem copyBuffer_all (bufLen : Nat) (hb : 0 < bufLen) :
    ∀ (fuel : Nat) (src : ByteStream) (written : Bytes),
      src.flatten.length + src.length ≤ fuel →
      copyBuffer bufLen fuel src written = some (written ++ src.flatten) := by
  intro fuel
  induction fuel with
  | zero =>
    intro src written h
    cases src with
    | nil => simp [copyBuffer]
    | cons seg rest => simp at h
  | succ fuel ih =>
    intro src written h
    cases src with
    | nil => simp [copyBuffer]
    | cons seg rest =>
      unfold copyBuffer
      have hm := ByteStream.Read_measure (seg :: rest) bufLen hb (by simp)
      rw [ih _ _ (by omega), List.append_assoc, ByteStream.Read_join]

/-- C20: when the peek succeeds with a non-empty server name, the peek buffer
is exactly the prefix of the client stream consumed during the peek, and the
bytes written to the backend, the replayed buffer followed by what the pump
client to backend copies, are the client stream, in order (the dial succeeds
and the pump has fuel for every `Read`). -/
theorem C20_replay_verbatim (ToLower : GoString → GoString) (cfg : Config) (hs : Handshake)
    (fuel : Nat) (client rest : ByteStream) (hello : ClientHelloInfo) (peekBuf : Bytes)
    (hpeek : peekClientHello hs client = (.ok (hello, peekBuf), rest))
    (hsni : TrimSpace (ToLower hello.ServerName) ≠ [])
    (hfuel : client.flatten.length + client.length ≤ fuel) :
    peekBuf ++ rest.flatten = client.flatten ∧
    peekBuf = client.flatten.take (client.flatten.length - rest.flatten.length) ∧
    (handleConnection ToLower cfg hs true fuel client).toBackend = some client.flatten ∧
    (handleConnection ToLower cfg hs true fuel client).toClient = [] := by
  have htee := readClientHello_tee hs client []
  have hrc : readClientHello hs client [] = (some hello, rest, peekBuf) := by
    unfold peekClientHello at hpeek
    rcases hr : readClientHello hs client [] with ⟨h, r, b⟩
    rw [hr] at hpeek
    cases h with
    | none => simp at hpeek
    | some h2 =>
      simp only [Prod.mk.injEq, Except.ok.injEq] at hpeek
      obtain ⟨⟨rfl, rfl⟩, rfl⟩ := hpeek
      rfl
  rw [hrc] at htee
  simp only [List.nil_append] at htee
  obtain ⟨hcat, hmeas⟩ := htee
  refine ⟨hcat, ?_, ?_, ?_⟩
  · rw [← hcat, List.length_append, Nat.add_sub_cancel, List.take_left]
  · have hroute : ∃ target, routeSNI ToLower cfg hello.ServerName = .dial target := by
      unfold routeSNI
      simp only [hsni, if_false]
      split_ifs
      · exact ⟨_, rfl⟩
      · exact ⟨_, rfl⟩
    obtain ⟨target, ht⟩ := hroute
    simp only [handleConnection, hpeek, ht, Bool.not_true, Bool.false_eq_true, if_false]
    rw [copyBuffer_all _ (by decide) fuel rest peekBuf (by omega), hcat]
  · have hroute : ∃ target, routeSNI ToLower cfg hello.ServerName = .dial target := by
      unfold routeSNI
      simp only [hsni, if_false]
      split_ifs
      · exact ⟨_, rfl⟩
      · exact ⟨_, rfl⟩
    obtain ⟨target, ht⟩ := hroute
    simp only [handleConnection, hpeek, ht, Bool.not_true, Bool.false_eq_true, if_false]

/-- C20 on a ClientHello record of 9 bytes with server name `foo.test` (ASCII
text, on which `strings.ToLower` is `toLower`), followed by the bytes AA BB CC,
arriving in two segments. -/
theorem C20_replay_verbatim_witness :
    peekClientHello sampleHandshake
        [[22, 3, 1, 0, 4, 1, 2, 3, 4, 0xAA], [0xBB, 0xCC]]
      = (.ok ({ ServerName := "foo.test".toList }, [22, 3, 1, 0, 4, 1, 2, 3, 4]),
          [[0xAA], [0xBB, 0xCC]]) ∧
    (handleConnection toLower {} sampleHandshake true 14
        [[22, 3, 1, 0, 4, 1, 2, 3, 4, 0xAA], [0xBB, 0xCC]]).toBackend
      = some [22, 3, 1, 0, 4, 1, 2, 3, 4, 0xAA, 0xBB, 0xCC] ∧
    (handleConnection toLower {} sampleHandshake true 14
        [[22, 3, 1, 0, 4, 1, 2, 3, 4, 0xAA], [0xBB, 0xCC]]).dialled
      = some "foo.test:443".toList :=
  ⟨by decide,
    (C20_replay_verbatim toLower {} sampleHandshake 14
      [[22, 3, 1, 0, 4, 1, 2, 3, 4, 0xAA], [0xBB, 0xCC]] [[0xAA], [0xBB, 0xCC]]
      { ServerName := "foo.test".toList } [22, 3, 1, 0, 4, 1, 2, 3, 4]
      (by decide) (by decide) (by decide)).2.2.1,
    by decide⟩

/-! The configuration store -/

theorem validateDomains_none (lib : Lib) (m : List (GoString × GoString)) :
    validateDomains lib m = none ↔ ∀ e ∈ m, e.1 ≠ [] ∧ lib.ParseIP e.2 ≠ none := by
  induction m with
  | nil => simp [validateDomains]
  | cons e rest ih =>
    obtain ⟨pattern, ip⟩ := e
    unfold validateDomains
    by_cases h1 : pattern = []
    · simp [h1]
    · by_cases h2 : lib.ParseIP ip = none
      · simp [h1, h2]
      · have h3 : (lib.ParseIP ip).isNone = false := by
          cases h : lib.ParseIP ip with
          | none => exact absurd h h2
          | some _ => rfl
        simp [h1, h2, h3, ih]

theorem validLevels_mem (l : GoString) :
    l ∈ validLevels ↔
      l = "debug".toList ∨ l = "info".toList ∨ l = "warn".toList ∨ l = "error".toList := by
  simp [validLevels]

theorem validateConfig_none (lib : Lib) (c : Config) :
    validateConfig lib c = none ↔
      c.Host ≠ [] ∧ c.Domains ≠ [] ∧
      (∀ e ∈ c.Domains, e.1 ≠ [] ∧ lib.ParseIP e.2 ≠ none) ∧ c.LogLevel ∈ validLevels := by
  unfold validateConfig
  by_cases h1 : c.Host = []
  · simp [h1]
  · by_cases h2 : c.Domains = []
    · simp [h1, h2]
    · have h2l : ¬ c.Domains.length = 0 := by
        intro h; exact h2 (List.length_eq_zero.1 h)
      rw [if_neg h1, if_neg h2l]
      cases hv : validateDomains lib c.Domains with
      | some err =>
        have hn : ¬ ∀ e ∈ c.Domains, e.1 ≠ [] ∧ lib.ParseIP e.2 ≠ none := by
          intro h
          rw [(validateDomains_none lib c.Domains).2 h] at hv
          cases hv
        constructor
        · intro h; cases h
        · rintro ⟨-, -, h, -⟩
          exact absurd h hn
      | none =>
        have hd := (validateDomains_none lib c.Domains).1 hv
        by_cases h3 : c.LogLevel ∈ validLevels
        · have hc : validLevels.contains c.LogLevel = true := by
            simpa using h3
          simp only [hc, Bool.not_true, Bool.false_eq_true, if_false]
          exact ⟨fun _ => ⟨h1, h2, hd, h3⟩, fun _ => trivial⟩
        · have hc : validLevels.contains c.LogLevel = false := by
            simpa using h3
          simp only [hc, Bool.not_false, if_true]
          constructor
          · intro h; cases h
          · rintro ⟨-, -, -, h⟩
            exact absurd h h3

theorem LoadConfig_ok (lib : Lib) (disk : Disk) (filename : GoString) (c : Config) :
    LoadConfig lib disk filename = .ok c ↔
      ∃ b c0, disk.ReadFile filename = .ok b ∧ disk.Unmarshal b = .ok c0 ∧
        c = setDefaults c0 ∧ validateConfig lib c = none := by
  unfold LoadConfig
  cases hr : disk.ReadFile filename with
  | error err => simp
  | ok b =>
    cases hu : disk.Unmarshal b with
    | error err => simp [hu]
    | ok c0 =>
      cases hv : validateConfig lib (setDefaults c0) with
      | some err =>
        simp only [hu, hv]
        constructor
        · intro h; cases h
        · rintro ⟨b', c0', hb, hc, rfl, hn⟩
          cases hb
          rw [hu] at hc
          cases hc
          rw [hv] at hn
          cases hn
      | none =>
        simp only [hu, hv]
        constructor
        · intro h
          cases h
          exact ⟨b, c0, rfl, hu, rfl, hv⟩
        · rintro ⟨b', c0', hb, hc, rfl, -⟩
          cases hb
          rw [hu] at hc
          cases hc
          rfl

theorem ConfigOK_of_validate (lib : Lib) (c : Config) (h : validateConfig lib c = none) :
    ConfigOK lib c := by
  obtain ⟨h1, -, h3, h4⟩ := (validateConfig_none lib c).1 h
  exact ⟨h1, fun e he => (h3 e he).2, h4⟩

theorem ConfigOK_LoadConfig (lib : Lib) (disk : Disk) (filename : GoString) (c : Config)
    (h : LoadConfig lib disk filename = .ok c) : ConfigOK lib c := by
  obtain ⟨_, _, _, _, _, hv⟩ := (LoadConfig_ok lib disk filename c).1 h
  exact ConfigOK_of_validate lib c hv

theorem ConfigOK_apply (lib : Lib) (srv : Server) (op : ConfigOp)
    (h : ConfigOK lib srv.state.config) : ConfigOK lib (op.apply lib srv).state.config := by
  cases op with
  | reload disk =>
    simp only [ConfigOp.apply, reloadConfig]
    cases hl : LoadConfig lib disk "config.json".toList with
    | error err => exact h
    | ok c => exact ConfigOK_LoadConfig lib disk _ c hl
  | panelPassword newHash => exact h
  | panelUsername newUsername => exact h

theorem ConfigOK_foldl (lib : Lib) (ops : List ConfigOp) :
    ∀ srv : Server, ConfigOK lib srv.state.config →
      ConfigOK lib (ops.foldl (ConfigOp.apply lib) srv).state.config := by
  induction ops with
  | nil => intro srv h; exact h
  | cons op rest ih =>
    intro srv h
    exact ih _ (ConfigOK_apply lib srv op h)

theorem main_ok (lib : Lib) (disk : Disk) (getenv : GoString → GoString) (p : Process)
    (h : main lib disk getenv = .ok p) :
    ∃ cfg, LoadConfig lib disk "config.json".toList = .ok cfg ∧
      p.srv = { state := { config := cfg, dohUpstream := cfg.UpstreamDOH },
                authTokens := storeTokens [] cfg.AuthTokens } := by
  unfold main at h
  cases hl : LoadConfig lib disk "config.json".toList with
  | error err => rw [hl] at h; cases h
  | ok cfg =>
    rw [hl] at h
    refine ⟨cfg, rfl, ?_⟩
    simp only at h
    split_ifs at h <;> cases h <;> rfl

/-- C21: `validateConfig` returns nil exactly when the host is non-empty, the
override map is non-empty, every override pattern is non-empty, every override
value parses as an IP address and the log level is one of debug, info, warn,
error. Hence a configuration `LoadConfig` returns has a non-empty host,
override values that parse and such a log level, and so has every
configuration published after `main` loaded one (by a reload or by a store of
the web panel); and `LoadConfig` does return the decoded configuration with
its defaults when that validates. -/
theorem C21_config_validation (lib : Lib) :
    (∀ c : Config, validateConfig lib c = none ↔
      c.Host ≠ [] ∧ c.Domains ≠ [] ∧ (∀ e ∈ c.Domains, e.1 ≠ []) ∧
      (∀ e ∈ c.Domains, lib.ParseIP e.2 ≠ none) ∧
      (c.LogLevel = "debug".toList ∨ c.LogLevel = "info".toList ∨
        c.LogLevel = "warn".toList ∨ c.LogLevel = "error".toList)) ∧
    (∀ (disk : Disk) (filename : GoString) (c : Config),
      LoadConfig lib disk filename = .ok c →
        c.Host ≠ [] ∧ (∀ e ∈ c.Domains, lib.ParseIP e.2 ≠ none) ∧
        (c.LogLevel = "debug".toList ∨ c.LogLevel = "info".toList ∨
          c.LogLevel = "warn".toList ∨ c.LogLevel = "error".toList)) ∧
    (∀ (disk : Disk) (getenv : GoString → GoString) (p : Process) (ops : List ConfigOp),
      main lib disk getenv = .ok p →
        ConfigOK lib (ops.foldl (ConfigOp.apply lib) p.srv).state.config) ∧
    (∀ (disk : Disk) (filename : GoString) (b : Bytes) (c0 : Config),
      disk.ReadFile filename = .ok b → disk.Unmarshal b = .ok c0 →
      validateConfig lib (setDefaults c0) = none →
        LoadConfig lib disk filename = .ok (setDefaults c0)) := by
  refine ⟨?_, ?_, ?_, ?_⟩
  · intro c
    rw [validateConfig_none, validLevels_mem]
    constructor
    · rintro ⟨h1, h2, h3, h4⟩
      exact ⟨h1, h2, fun e he => (h3 e he).1, fun e he => (h3 e he).2, h4⟩
    · rintro ⟨h1, h2, h3, h4, h5⟩
      exact ⟨h1, h2, fun e he => ⟨h3 e he, h4 e he⟩, h5⟩
  · intro disk filename c h
    obtain ⟨h1, h2, h3⟩ := ConfigOK_LoadConfig lib disk filename c h
    exact ⟨h1, h2, (validLevels_mem _).1 h3⟩
  · intro disk getenv p ops h
    obtain ⟨cfg, hl, hp⟩ := main_ok lib disk getenv p h
    apply ConfigOK_foldl
    rw [hp]
    exact ConfigOK_LoadConfig lib disk _ cfg hl
  · intro disk filename b c0 hr hu hv
    exact (LoadConfig_ok lib disk filename _).2 ⟨b, c0, hr, hu, rfl, hv⟩

theorem foldl_Delete_nil {ν : Type} (l : List (GoString × ν)) :
    ∀ acc : SyncMap GoString ν, (∀ e ∈ acc, e.1 ∈ l.map Prod.fst) →
      l.foldl (fun m e => SyncMap.Delete m e.1) acc = [] := by
  induction l with
  | nil =>
    intro acc h
    cases acc with
    | nil => rfl
    | cons a rest => exact absurd (h a (List.mem_cons_self _ _)) (by simp)
  | cons x l ih =>
    intro acc h
    simp only [List.foldl_cons]
    apply ih
    intro e he
    unfold SyncMap.Delete at he
    rw [List.mem_filter] at he
    have h1 := h e he.1
    rw [List.map_cons, List.mem_cons] at h1
    rcases h1 with h1 | h1
    · simp [h1] at he
    · exact h1

theorem clearTokens_nil (m : SyncMap GoString Bool) : clearTokens m = [] := by
  unfold clearTokens
  apply foldl_Delete_nil
  intro e he
  exact List.mem_map_of_mem _ he

theorem storeTokens_Load (tokens : List GoString) :
    ∀ (m : SyncMap GoString Bool) (t : GoString),
      (storeTokens m tokens).Load t = if t ∈ tokens then some true else m.Load t := by
  induction tokens with
  | nil => intro m t; simp [storeTokens]
  | cons x rest ih =>
    intro m t
    have e : storeTokens m (x :: rest) = storeTokens (m.Store x true) rest := rfl
    rw [e, ih, SyncMap.Load_Store]
    by_cases h1 : t ∈ rest
    · simp [h1]
    · by_cases h2 : t = x
      · simp [h2]
      · simp [h1, h2]

/-- C22: when reading, decoding or validating the file fails, `reloadConfig`
returns that error (the validation error wrapped) and leaves the globals as
they were: the published configuration, the upstream list and the bearer-token
set. When the file loads, the published configuration is the new one, the
upstream list is the one of the new configuration, and the bearer-token set
holds exactly the `auth_tokens` of the new configuration; the cache, the
counters and the access table stay. -/
theorem C22_reload_atomicity (lib : Lib) (disk : Disk) (srv : Server) (filename : GoString) :
    (∀ err, disk.ReadFile filename = .error err →
      reloadConfig lib disk srv filename = (srv, some err)) ∧
    (∀ b err, disk.ReadFile filename = .ok b → disk.Unmarshal b = .error err →
      reloadConfig lib disk srv filename = (srv, some err)) ∧
    (∀ b c0 err, disk.ReadFile filename = .ok b → disk.Unmarshal b = .ok c0 →
      validateConfig lib (setDefaults c0) = some err →
      reloadConfig lib disk srv filename = (srv, some (.configValidationFailed err))) ∧
    (∀ b c0, disk.ReadFile filename = .ok b → disk.Unmarshal b = .ok c0 →
      validateConfig lib (setDefaults c0) = none →
      (reloadConfig lib disk srv filename).2 = none ∧
      (reloadConfig lib disk srv filename).1.state.config = setDefaults c0 ∧
      (reloadConfig lib disk srv filename).1.state.dohUpstream = (setDefaults c0).UpstreamDOH ∧
      (∀ t, (reloadConfig lib disk srv filename).1.authTokens.Load t =
        if t ∈ (setDefaults c0).AuthTokens then some true else none) ∧
      (reloadConfig lib disk srv filename).1.state.dnsCache = srv.state.dnsCache ∧
      (reloadConfig lib disk srv filename).1.state.metrics = srv.state.metrics ∧
      (reloadConfig lib disk srv filename).1.table = srv.table) := by
  refine ⟨?_, ?_, ?_, ?_⟩
  · intro err hr
    simp [reloadConfig, LoadConfig, hr]
  · intro b err hr hu
    simp [reloadConfig, LoadConfig, hr, hu]
  · intro b c0 err hr hu hv
    simp [reloadConfig, LoadConfig, hr, hu, hv]
  · intro b c0 hr hu hv
    have hl : LoadConfig lib disk filename = .ok (setDefaults c0) := by
      simp [LoadConfig, hr, hu, hv]
    simp only [reloadConfig, hl]
    refine ⟨trivial, trivial, trivial, ?_, trivial, trivial, trivial⟩
    intro t
    rw [storeTokens_Load, clearTokens_nil]
    rfl

/-- The reload on `sampleDisk`: a missing file leaves the token `old`; the
file `config.json` replaces it by the token of the file and sets the default
upstreams. -/
theorem reloadConfig_sample :
    (reloadConfig sampleLib sampleDisk
        { authTokens := [("old".toList, true)] } "missing.json".toList
      = ({ authTokens := [("old".toList, true)] },
          some (.text "open: no such file or directory".toList))) ∧
    (reloadConfig sampleLib sampleDisk
        { authTokens := [("old".toList, true)] } "config.json".toList).1.authTokens
      = [("s3cret".toList, true)] ∧
    (reloadConfig sampleLib sampleDisk
        { authTokens := [("old".toList, true)] } "config.json".toList).1.state.dohUpstream
      = ["https://1.1.1.1/dns-query".toList, "https://8.8.8.8/dns-query".toList] := by
  decide

/-- C23, evaluated at the failing input: with `DOH_UPSTREAM` set to
`https://9.9.9.9/dns-query` and a valid `config.json` without upstreams,
`main` sets `dohURL` to that URL, while the upstream list is the default pair
and a miss of the resolver posts to `https://1.1.1.1/dns-query` first (and never
to the URL of the environment). For any library, disk and environment the
globals of the servers after `main` do not depend on the environment. -/
theorem C23_env_override_ignored :
    (main sampleLib sampleDisk
        (fun k => if k = "DOH_UPSTREAM".toList then "https://9.9.9.9/dns-query".toList else [])).map
      (fun p => (p.dohURL, p.srv.state.dohUpstream,
        (processDNSQuery sampleLib 0 0 p.srv.state queryExampleA).contacted))
      = .ok ("https://9.9.9.9/dns-query".toList,
          ["https://1.1.1.1/dns-query".toList, "https://8.8.8.8/dns-query".toList],
          ["https://1.1.1.1/dns-query".toList, "https://8.8.8.8/dns-query".toList]) ∧
    (∀ (lib : Lib) (disk : Disk) (getenv1 getenv2 : GoString → GoString),
      (main lib disk getenv1).map Process.srv = (main lib disk getenv2).map Process.srv) := by
  constructor
  · decide
  · intro lib disk getenv1 getenv2
    unfold main
    cases LoadConfig lib disk "config.json".toList with
    | error err => rfl
    | ok cfg =>
      simp only
      split_ifs <;> rfl

/-! The framed front-ends: DoT and DNS over TCP -/

theorem ReadFull_some (s : ByteStream) :
    ∀ n, n ≤ s.flatten.length →
      (ReadFull s n).1 = some (s.flatten.take n) ∧
      (ReadFull s n).2.flatten = s.flatten.drop n := by
  induction s with
  | nil =>
    intro n hn
    simp at hn
    subst hn
    exact ⟨rfl, rfl⟩
  | cons seg rest ih =>
    intro n hn
    cases n with
    | zero => exact ⟨by simp [ReadFull], by simp [ReadFull]⟩
    | succ n =>
      rw [List.flatten_cons, List.length_append] at hn
      unfold ReadFull
      by_cases h : seg.length ≤ n + 1
      · rw [if_pos h]
        obtain ⟨h1, h2⟩ := ih (n + 1 - seg.length) (by omega)
        cases hr : ReadFull rest (n + 1 - seg.length) with
        | mk a b =>
          rw [hr] at h1 h2
          simp only at h1 h2
          subst h1
          simp only [List.flatten_cons]
          refine ⟨?_, ?_⟩
          · rw [List.take_append_eq_append_take, List.take_of_length_le h]
          · rw [h2, List.drop_append_eq_append_drop, List.drop_of_length_le h, List.nil_append]
      · rw [if_neg h]
        simp only [List.flatten_cons]
        have h' : n + 1 ≤ seg.length := by omega
        refine ⟨?_, ?_⟩
        · rw [List.take_append_of_le_length h']
        · rw [List.drop_append_of_le_length h']

theorem ReadFull_none (s : ByteStream) :
    ∀ n, s.flatten.length < n → (ReadFull s n).1 = none := by
  induction s with
  | nil =>
    intro n hn
    cases n with
    | zero => simp at hn
    | succ n => rfl
  | cons seg rest ih =>
    intro n hn
    cases n with
    | zero => simp at hn
    | succ n =>
      rw [List.flatten_cons, List.length_append] at hn
      unfold ReadFull
      have h : seg.length ≤ n + 1 := by omega
      rw [if_pos h]
      have h1 := ih (n + 1 - seg.length) (by omega)
      cases hr : ReadFull rest (n + 1 - seg.length) with
      | mk a b =>
        rw [hr] at h1
        simp only at h1
        subst h1
        rfl

theorem Uint16_two (a b : Byte) : Uint16 [a, b] = a.val * 256 + b.val := by
  have hb : b.val < 2 ^ 8 := b.isLt
  have := Nat.mul_add_lt_is_or hb a.val
  simp only [Uint16, List.getD_cons_zero, List.getD_cons_succ, Nat.shiftLeft_eq]
  rw [Nat.lor_comm, Nat.mul_comm (a : Nat) (2 ^ 8), ← this]

theorem Uint16_PutUint16 (n : Nat) : Uint16 (PutUint16 (toUint16 n)) = n % 65536 := by
  unfold PutUint16
  rw [Uint16_two]
  simp only [toUint16, Fin.ofNat, Nat.shiftRight_eq_div_pow]
  omega


/-- The first two bytes of a stream, read as a big-endian length. -/
theorem Uint16_take_two (b : Bytes) (h : 2 ≤ b.length) :
    Uint16 (b.take 2) = (b.getD 0 0).val * 256 + (b.getD 1 0).val := by
  match b, h with
  | x :: y :: rest, _ => exact Uint16_two x y

/-- The frame `handleDoTConnection` and `handleDNSTCP` read off a connection:
two bytes of length, then that many bytes. -/
theorem ReadFull_frame (conn : ByteStream) :
    (2 ≤ conn.flatten.length →
      (ReadFull conn 2).1 = some (conn.flatten.take 2) ∧
      (2 + Uint16 (conn.flatten.take 2) ≤ conn.flatten.length →
        (ReadFull (ReadFull conn 2).2 (Uint16 (conn.flatten.take 2))).1 =
          some ((conn.flatten.drop 2).take (Uint16 (conn.flatten.take 2)))) ∧
      (conn.flatten.length < 2 + Uint16 (conn.flatten.take 2) →
        (ReadFull (ReadFull conn 2).2 (Uint16 (conn.flatten.take 2))).1 = none)) ∧
    (conn.flatten.length < 2 → (ReadFull conn 2).1 = none) := by
  refine ⟨fun h => ?_, fun h => ReadFull_none conn 2 h⟩
  obtain ⟨h1, h2⟩ := ReadFull_some conn 2 h
  refine ⟨h1, fun h3 => ?_, fun h3 => ?_⟩
  · have := (ReadFull_some (ReadFull conn 2).2 (Uint16 (conn.flatten.take 2))
      (by rw [h2, List.length_drop]; omega)).1
    rw [this, h2]
  · apply ReadFull_none
    rw [h2, List.length_drop]
    omega

theorem handleDoTConnection_framed (lib : Lib) (clk : Clock) (lim : Limits) (env : ConnEnv)
    (srv : Server) (clientIP : GoString) (conn : ByteStream)
    (hauth : (isUserAuthorized srv.state.config clk.tCheck clk.tUse srv.table clientIP).2 = true)
    (hlim : lim.globalAllow = true) (hdl : env.readDeadlineOK = true) :
    (2 ≤ conn.flatten.length → 1 ≤ Uint16 (conn.flatten.take 2) →
      Uint16 (conn.flatten.take 2) ≤ 8192 →
      2 + Uint16 (conn.flatten.take 2) ≤ conn.flatten.length →
      (handleDoTConnection lib clk lim env srv clientIP conn).query =
        some ((conn.flatten.drop 2).take (Uint16 (conn.flatten.take 2)))) ∧
    (¬ (2 ≤ conn.flatten.length ∧ 1 ≤ Uint16 (conn.flatten.take 2) ∧
        Uint16 (conn.flatten.take 2) ≤ 8192 ∧
        2 + Uint16 (conn.flatten.take 2) ≤ conn.flatten.length) →
      (handleDoTConnection lib clk lim env srv clientIP conn).query = none ∧
      (handleDoTConnection lib clk lim env srv clientIP conn).written = []) := by
  have hauth2 : (isUserAuthorized
      ({ srv with state := { srv.state with metrics := srv.state.metrics.IncDOTQueries } }
        : Server).state.config clk.tCheck clk.tUse
      ({ srv with state := { srv.state with metrics := srv.state.metrics.IncDOTQueries } }
        : Server).table clientIP).2 = true := hauth
  obtain ⟨hA, hB⟩ := ReadFull_frame conn
  unfold handleDoTConnection
  simp only [hauth2, hlim, hdl, Bool.not_true, Bool.false_eq_true, if_false]
  by_cases h2 : 2 ≤ conn.flatten.length
  · obtain ⟨h21, h22, h23⟩ := hA h2
    cases hr : ReadFull conn 2 with
    | mk a c1 =>
      rw [hr] at h21 h22 h23
      simp only at h21 h22 h23
      subst h21
      simp only
      by_cases hL : Uint16 (conn.flatten.take 2) = 0 ∨ Uint16 (conn.flatten.take 2) > 8192
      · rw [if_pos hL]
        refine ⟨fun _ h3 h4 _ => ?_, fun _ => ⟨rfl, rfl⟩⟩
        rcases hL with hL | hL <;> omega
      · rw [if_neg hL]
        by_cases h5 : 2 + Uint16 (conn.flatten.take 2) ≤ conn.flatten.length
        · have h6 := h22 h5
          cases hr2 : ReadFull c1 (Uint16 (conn.flatten.take 2)) with
          | mk a2 c2 =>
            rw [hr2] at h6
            simp only at h6
            subst h6
            simp only
            refine ⟨fun _ _ _ _ => ?_, fun hn => ?_⟩
            · cases (processDNSQuery lib clk.tLookup clk.tInsert _ _).out with
              | panic => rfl
              | ret x =>
                cases x with
                | error e => rfl
                | ok resp =>
                  simp only
                  split_ifs <;> rfl
            · exfalso
              apply hn
              refine ⟨h2, ?_, ?_, h5⟩ <;> omega
        · have h6 := h23 (by omega)
          cases hr2 : ReadFull c1 (Uint16 (conn.flatten.take 2)) with
          | mk a2 c2 =>
            rw [hr2] at h6
            simp only at h6
            subst h6
            exact ⟨fun _ _ _ h => absurd h h5, fun _ => ⟨rfl, rfl⟩⟩
  · have h3 := hB (by omega)
    cases hr : ReadFull conn 2 with
    | mk a c1 =>
      rw [hr] at h3
      simp only at h3
      subst h3
      exact ⟨fun h => absurd h h2, fun _ => ⟨rfl, rfl⟩⟩

/-- C24: on a DoT connection of an authorised client that the global limiter
lets pass (and on which the read deadline can be set), with `b` the bytes that
arrive and `L` the big-endian value of its first two bytes,
`handleDoTConnection` calls `processDNSQuery` if and only if `b` has those two
bytes, `1 ≤ L ≤ 8192` and at least `L` bytes follow; the query it passes is
exactly those `L` bytes; and when the resolver is not called nothing is written
to the client. -/
theorem C24_dot_framing_limit (lib : Lib) (clk : Clock) (lim : Limits) (env : ConnEnv)
    (srv : Server) (clientIP : GoString) (conn : ByteStream)
    (hauth : (isUserAuthorized srv.state.config clk.tCheck clk.tUse srv.table clientIP).2 = true)
    (hlim : lim.globalAllow = true) (hdl : env.readDeadlineOK = true) :
    ((handleDoTConnection lib clk lim env srv clientIP conn).query ≠ none ↔
      2 ≤ conn.flatten.length ∧
      1 ≤ (conn.flatten.getD 0 0).val * 256 + (conn.flatten.getD 1 0).val ∧
      (conn.flatten.getD 0 0).val * 256 + (conn.flatten.getD 1 0).val ≤ 8192 ∧
      2 + ((conn.flatten.getD 0 0).val * 256 + (conn.flatten.getD 1 0).val)
        ≤ conn.flatten.length) ∧
    (∀ q, (handleDoTConnection lib clk lim env srv clientIP conn).query = some q →
      q = (conn.flatten.drop 2).take
        ((conn.flatten.getD 0 0).val * 256 + (conn.flatten.getD 1 0).val)) ∧
    ((handleDoTConnection lib clk lim env srv clientIP conn).query = none →
      (handleDoTConnection lib clk lim env srv clientIP conn).written = []) := by
  obtain ⟨h1, h2⟩ := handleDoTConnection_framed lib clk lim env srv clientIP conn hauth hlim hdl
  by_cases hf : 2 ≤ conn.flatten.length ∧ 1 ≤ Uint16 (conn.flatten.take 2) ∧
        Uint16 (conn.flatten.take 2) ≤ 8192 ∧
        2 + Uint16 (conn.flatten.take 2) ≤ conn.flatten.length
  · have hq := h1 hf.1 hf.2.1 hf.2.2.1 hf.2.2.2
    have hL := Uint16_take_two conn.flatten hf.1
    rw [hL] at hf hq
    refine ⟨⟨fun _ => hf, fun _ => by rw [hq]; simp⟩, fun q h => ?_, fun h => ?_⟩
    · rw [hq] at h
      cases h
      rfl
    · rw [hq] at h
      cases h
  · obtain ⟨hq, hw⟩ := h2 hf
    refine ⟨⟨fun h => absurd hq h, fun h => ?_⟩, fun q h => ?_, fun _ => hw⟩
    · exfalso
      apply hf
      rw [Uint16_take_two conn.flatten h.1]
      exact h
    · rw [hq] at h
      cases h

/-- C24 on a connection that delivers the frame of `queryExampleA` (length 29)
in two segments, followed by one more byte: the resolver is called. -/
theorem C24_dot_framing_limit_witness :
    (handleDoTConnection sampleLib {} {} {} {} "192.0.2.7".toList
        [[0, 29, 0x12, 0x34], queryExampleA.drop 2 ++ [0xEE]]).query ≠ none :=
  (C24_dot_framing_limit sampleLib {} {} {} {} "192.0.2.7".toList
    [[0, 29, 0x12, 0x34], queryExampleA.drop 2 ++ [0xEE]]
    (by decide) (by decide) (by decide)).1.2 (by decide)

theorem handleDNSTCP_written (lib : Lib) (clk : Clock) (srv : Server) (conn : ByteStream)
    (q r : Bytes) (hq : (handleDNSTCP lib clk srv conn).query = some q)
    (hr : (processDNSQuery lib clk.tLookup clk.tInsert srv.state q).out = .ret (.ok r)) :
    (handleDNSTCP lib clk srv conn).written = PutUint16 (toUint16 r.length) ++ r := by
  unfold handleDNSTCP at hq ⊢
  cases h1 : ReadFull conn 2 with
  | mk a c1 =>
    rw [h1] at hq
    cases a with
    | none => cases hq
    | some lenBuf =>
      simp only at hq ⊢
      cases h2 : ReadFull c1 (Uint16 lenBuf) with
      | mk a2 c2 =>
        rw [h2] at hq
        cases a2 with
        | none => cases hq
        | some query =>
          simp only at hq ⊢
          have e : query = q := by
            cases h3 : (processDNSQuery lib clk.tLookup clk.tInsert srv.state query).out with
            | panic => rw [h3] at hq; simpa using hq
            | ret x =>
              cases x with
              | error e => rw [h3] at hq; simpa using hq
              | ok resp => rw [h3] at hq; simpa using hq
          subst e
          rw [hr]

theorem handleDoTConnection_written (lib : Lib) (clk : Clock) (lim : Limits) (env : ConnEnv)
    (srv : Server) (clientIP : GoString) (conn : ByteStream) (q r : Bytes)
    (hq : (handleDoTConnection lib clk lim env srv clientIP conn).query = some q)
    (hr : (processDNSQuery lib clk.tLookup clk.tInsert
      { srv.state with metrics := srv.state.metrics.IncDOTQueries } q).out = .ret (.ok r))
    (hw : env.writeDeadlineOK = true) (hw1 : env.writeLenOK = true)
    (hw2 : env.writeBodyOK = true) :
    (handleDoTConnection lib clk lim env srv clientIP conn).written =
      PutUint16 (toUint16 r.length) ++ r := by
  unfold handleDoTConnection at hq ⊢
  simp only [hw, hw1, hw2, Bool.not_true, Bool.false_eq_true, if_false] at hq ⊢
  split_ifs at hq ⊢
  cases h1 : ReadFull conn 2 with
  | mk a s1 =>
    rw [h1] at hq
    cases a with
    | none => cases hq
    | some header =>
      simp only at hq ⊢
      split_ifs at hq ⊢
      cases h2 : ReadFull s1 (Uint16 header) with
      | mk a2 s2 =>
        rw [h2] at hq
        cases a2 with
        | none => cases hq
        | some buf =>
          simp only at hq ⊢
          have e : buf = q := by
            cases h3 : (processDNSQuery lib clk.tLookup clk.tInsert
                { srv.state with metrics := srv.state.metrics.IncDOTQueries } buf).out with
            | panic => rw [h3] at hq; simpa using hq
            | ret x =>
              cases x with
              | error e => rw [h3] at hq; simpa using hq
              | ok resp => rw [h3] at hq; simpa using hq
          subst e
          rw [hr]

theorem prefix_decodes (r : Bytes) :
    Uint16 ((PutUint16 (toUint16 r.length) ++ r).take 2) = r.length % 65536 ∧
    (PutUint16 (toUint16 r.length) ++ r).drop 2 = r := by
  have e : (PutUint16 (toUint16 r.length) ++ r).take 2 = PutUint16 (toUint16 r.length) := rfl
  rw [e, Uint16_PutUint16]
  exact ⟨rfl, rfl⟩

theorem bigBody_length : bigBody.length = 65536 := by
  unfold bigBody
  exact List.length_replicate _ _

/-- C30, counterexample: an upstream answers 200 with a body of 65536 bytes;
`processDNSQuery` returns that body, and `handleDNSTCP` and
`handleDoTConnection` write the prefix `00 00` followed by the 65536 bytes:
the prefix decodes to 0. -/
theorem C30_prefix_wraps_at_65536 :
    (processDNSQuery bigLib 0 0 { dohUpstream := ["https://u1/dns-query".toList] }
      queryExampleA).out = .ret (.ok bigBody) ∧
    bigBody.length = 65536 ∧
    (handleDNSTCP bigLib {} { state := { dohUpstream := ["https://u1/dns-query".toList] } }
      [[0, 29], queryExampleA]).written = [0, 0] ++ bigBody ∧
    Uint16 ((handleDNSTCP bigLib {} { state := { dohUpstream := ["https://u1/dns-query".toList] } }
      [[0, 29], queryExampleA]).written.take 2) = 0 ∧
    (handleDoTConnection bigLib {} {} {}
      { state := { dohUpstream := ["https://u1/dns-query".toList] } } "192.0.2.7".toList
      [[0, 29], queryExampleA]).written = [0, 0] ++ bigBody ∧
    Uint16 ((handleDoTConnection bigLib {} {} {}
      { state := { dohUpstream := ["https://u1/dns-query".toList] } } "192.0.2.7".toList
      [[0, 29], queryExampleA]).written.take 2) = 0 := by
  have h1 := handleDNSTCP_written bigLib {}
    { state := { dohUpstream := ["https://u1/dns-query".toList] } } [[0, 29], queryExampleA]
    queryExampleA bigBody (by decide) rfl
  have h2 := handleDoTConnection_written bigLib {} {} {}
    { state := { dohUpstream := ["https://u1/dns-query".toList] } } "192.0.2.7".toList
    [[0, 29], queryExampleA] queryExampleA bigBody (by decide) rfl rfl rfl rfl
  have e : PutUint16 (toUint16 bigBody.length) = [0, 0] := by
    rw [bigBody_length]
    decide
  rw [e] at h1 h2
  have e2 : Uint16 (([0, 0] ++ bigBody).take 2) = 0 := by
    have : ([0, 0] ++ bigBody).take 2 = [0, 0] := rfl
    rw [this]
    decide
  refine ⟨rfl, bigBody_length, h1, ?_, h2, ?_⟩
  · rw [h1]; exact e2
  · rw [h2]; exact e2

/-- C30, amended: for every response `r` that `processDNSQuery` returns for the
framed query, `handleDNSTCP` and `handleDoTConnection` (when its deadline and
its writes succeed) write two bytes followed by exactly `r`, and the two bytes
decode, big-endian, to `len(r)` modulo 65536: to exactly `len(r)` when
`len(r) ≤ 65535`. -/
theorem C30_length_prefix (lib : Lib) (clk : Clock) (lim : Limits) (env : ConnEnv)
    (srv : Server) (clientIP : GoString) (conn : ByteStream) (q r : Bytes) :
    ((handleDNSTCP lib clk srv conn).query = some q →
      (processDNSQuery lib clk.tLookup clk.tInsert srv.state q).out = .ret (.ok r) →
      (handleDNSTCP lib clk srv conn).written.drop 2 = r ∧
      Uint16 ((handleDNSTCP lib clk srv conn).written.take 2) = r.length % 65536 ∧
      (r.length ≤ 65535 →
        Uint16 ((handleDNSTCP lib clk srv conn).written.take 2) = r.length)) ∧
    ((handleDoTConnection lib clk lim env srv clientIP conn).query = some q →
      (processDNSQuery lib clk.tLookup clk.tInsert
        { srv.state with metrics := srv.state.metrics.IncDOTQueries } q).out = .ret (.ok r) →
      env.writeDeadlineOK = true → env.writeLenOK = true → env.writeBodyOK = true →
      (handleDoTConnection lib clk lim env srv clientIP conn).written.drop 2 = r ∧
      Uint16 ((handleDoTConnection lib clk lim env srv clientIP conn).written.take 2)
        = r.length % 65536 ∧
      (r.length ≤ 65535 →
        Uint16 ((handleDoTConnection lib clk lim env srv clientIP conn).written.take 2)
          = r.length)) := by
  constructor
  · intro hq hr
    rw [handleDNSTCP_written lib clk srv conn q r hq hr]
    obtain ⟨h1, h2⟩ := prefix_decodes r
    exact ⟨h2, h1, fun h => by rw [h1]; omega⟩
  · intro hq hr hw hw1 hw2
    rw [handleDoTConnection_written lib clk lim env srv clientIP conn q r hq hr hw hw1 hw2]
    obtain ⟨h1, h2⟩ := prefix_decodes r
    exact ⟨h2, h1, fun h => by rw [h1]; omega⟩

/-! The client address of a DoH request -/

theorem Split_ne_nil (s : GoString) (sep : Char) : Split s sep ≠ [] := by
  cases s with
  | nil => simp [Split]
  | cons c rest =>
    unfold Split
    split_ifs
    · simp
    · split <;> simp

theorem Split_head (s : GoString) (sep : Char) :
    (Split s sep).headD [] = s.takeWhile (fun c => c ≠ sep) := by
  induction s with
  | nil => rfl
  | cons c rest ih =>
    unfold Split
    by_cases h : c = sep
    · simp [h]
    · rw [if_neg h]
      have ht : (c :: rest).takeWhile (fun c => c ≠ sep) = c :: rest.takeWhile (fun c => c ≠ sep) := by
        simp [List.takeWhile, h]
      rw [ht, ← ih]
      cases hs : Split rest sep with
      | nil => exact absurd hs (Split_ne_nil rest sep)
      | cons first more => rfl

theorem takeWhile_first (s : GoString) (sep : Char) :
    sep ∉ s.takeWhile (fun c => c ≠ sep) ∧
    (s = s.takeWhile (fun c => c ≠ sep) ∨
      ∃ rest, s = s.takeWhile (fun c => c ≠ sep) ++ sep :: rest) := by
  induction s with
  | nil => exact ⟨by simp, Or.inl rfl⟩
  | cons c rest ih =>
    by_cases h : c = sep
    · subst h
      have : (c :: rest).takeWhile (fun x => x ≠ c) = [] := by simp [List.takeWhile]
      rw [this]
      exact ⟨by simp, Or.inr ⟨rest, rfl⟩⟩
    · have ht : (c :: rest).takeWhile (fun c => c ≠ sep)
          = c :: rest.takeWhile (fun c => c ≠ sep) := by
        simp [List.takeWhile, h]
      rw [ht]
      refine ⟨?_, ?_⟩
      · intro hm
        rcases List.mem_cons.1 hm with h1 | h1
        · exact h h1.symm
        · exact ih.1 h1
      · rcases ih.2 with h1 | ⟨r, h1⟩
        · left; rw [← h1]
        · right; exact ⟨r, by rw [List.cons_append, ← h1]⟩

/-- C25: when the header `X-Forwarded-For` is not empty, `getClientIP` returns
its first comma-separated entry (the first piece of `strings.Split`, which
holds no comma and is followed in the header by a comma or by nothing),
trimmed of surrounding white space: the result is what is left of that entry
when the white space before and after it is taken off, and it neither begins
nor ends with white space. Otherwise it returns the header `X-Real-IP` when
that is not empty; otherwise the peer IP. With a non-empty `X-Forwarded-For`
the result depends on nothing else of the request. On the header
` 203.0.113.9`, a tab, `, 10.0.0.2` the result is `203.0.113.9`, whatever
`X-Real-IP` and the peer are. -/
theorem C25_client_ip (ctx : RequestCtx) :
    (ctx.XForwardedFor ≠ [] →
      getClientIP ctx = TrimSpace ((Split ctx.XForwardedFor ',').headD []) ∧
      ',' ∉ (Split ctx.XForwardedFor ',').headD [] ∧
      (ctx.XForwardedFor = (Split ctx.XForwardedFor ',').headD [] ∨
        ∃ rest, ctx.XForwardedFor = (Split ctx.XForwardedFor ',').headD [] ++ ',' :: rest)) ∧
    (ctx.XForwardedFor ≠ [] →
      ∃ first pre post,
        (ctx.XForwardedFor = first ∨ ∃ rest, ctx.XForwardedFor = first ++ ',' :: rest) ∧
        ',' ∉ first ∧
        first = pre ++ getClientIP ctx ++ post ∧
        (∀ c ∈ pre, isSpace c = true) ∧ (∀ c ∈ post, isSpace c = true) ∧
        (∀ c, (getClientIP ctx).head? = some c → isSpace c = false) ∧
        (∀ c, (getClientIP ctx).getLast? = some c → isSpace c = false)) ∧
    (ctx.XForwardedFor = [] → ctx.XRealIP ≠ [] → getClientIP ctx = ctx.XRealIP) ∧
    (ctx.XForwardedFor = [] → ctx.XRealIP = [] → getClientIP ctx = ctx.RemoteIP) ∧
    (∀ ctx2 : RequestCtx, ctx.XForwardedFor ≠ [] → ctx2.XForwardedFor = ctx.XForwardedFor →
      getClientIP ctx2 = getClientIP ctx) ∧
    getClientIP { XForwardedFor := " 203.0.113.9\t, 10.0.0.2".toList,
                  XRealIP := "10.0.0.2".toList, RemoteIP := "127.0.0.1".toList }
      = "203.0.113.9".toList ∧
    getClientIP { XForwardedFor := " 203.0.113.9\t, 10.0.0.2".toList,
                  XRealIP := "10.0.0.3".toList, RemoteIP := "127.0.0.9".toList }
      = "203.0.113.9".toList ∧
    getClientIP { XRealIP := " 10.0.0.2".toList, RemoteIP := "127.0.0.1".toList }
      = " 10.0.0.2".toList ∧
    getClientIP { RemoteIP := "127.0.0.1".toList } = "127.0.0.1".toList := by
  have hget : ctx.XForwardedFor ≠ [] →
      getClientIP ctx = TrimSpace ((Split ctx.XForwardedFor ',').headD []) := by
    intro h
    unfold getClientIP
    rw [if_pos h]
  refine ⟨fun h => ⟨hget h, ?_⟩, fun h => ?_, fun h1 h2 => ?_, fun h1 h2 => ?_,
    fun ctx2 h he => ?_, by decide, by decide, by decide, by decide⟩
  · rw [Split_head]
    exact takeWhile_first _ _
  · obtain ⟨pre, post, h1, h2, h3, h4, h5⟩ :=
      TrimSpace_spec ((Split ctx.XForwardedFor ',').headD [])
    have hf := takeWhile_first ctx.XForwardedFor ','
    rw [← Split_head] at hf
    rw [← hget h] at h1 h4 h5
    exact ⟨(Split ctx.XForwardedFor ',').headD [], pre, post, hf.2, hf.1, h1, h2, h3, h4, h5⟩
  · unfold getClientIP
    rw [if_neg (by simpa using h1), if_pos h2]
  · unfold getClientIP
    rw [if_neg (by simpa using h1), if_neg (by simpa using h2)]
  · unfold getClientIP
    rw [he, if_pos h, if_pos h]

/-- The scenario of a request through two proxies. -/
theorem getClientIP_sample :
    getClientIP { XForwardedFor := " 203.0.113.9 , 10.0.0.2".toList, XRealIP := "10.0.0.2".toList,
                  RemoteIP := "127.0.0.1".toList } = "203.0.113.9".toList ∧
    getClientIP { XRealIP := "10.0.0.2".toList, RemoteIP := "127.0.0.1".toList }
      = "10.0.0.2".toList ∧
    getClientIP { RemoteIP := "127.0.0.1".toList } = "127.0.0.1".toList := by
  decide

/-! The synthetic reply, the lookups and the order of the pipeline -/

theorem localReply_fixed (req : Msg) (q : Question) (ip : IP) :
    (localReply req q ip).Rcode = RcodeSuccess ∧ (localReply req q ip).Id = req.Id ∧
    (localReply req q ip).Question = req.Question.take 1 := by
  unfold localReply
  simp only
  split_ifs <;> (repeat' split) <;> exact ⟨rfl, rfl, rfl⟩

theorem localReply_answer (req : Msg) (q : Question) (ip : IP) (h16 : ip.length = 16) :
    (localReply req q ip).Answer =
      if q.Qtype = TypeA ∨ q.Qtype = TypeANY then
        match To4 ip with
        | some ip4 =>
          [RR.A { Name := q.Name, Rrtype := TypeA, Class := ClassINET, Ttl := 3600 } ip4]
        | none =>
          if q.Qtype = TypeANY then
            [RR.AAAA { Name := q.Name, Rrtype := TypeAAAA, Class := ClassINET, Ttl := 3600 } ip]
          else []
      else if q.Qtype = TypeAAAA then
        match To4 ip with
        | some _ => []
        | none =>
          [RR.AAAA { Name := q.Name, Rrtype := TypeAAAA, Class := ClassINET, Ttl := 3600 } ip]
      else [] := by
  have e16 : To16 ip = some ip := To16_of_len ip h16
  unfold localReply
  by_cases hA : q.Qtype = TypeA
  · have hn : ¬ TypeA = TypeANY := by decide
    cases h4 : To4 ip <;> simp [hA, h4, hn, SetReply, defaultTTL]
  · by_cases hAAAA : q.Qtype = TypeAAAA
    · have hn : ¬ TypeAAAA = TypeANY := by decide
      have hn2 : ¬ TypeAAAA = TypeA := by decide
      cases h4 : To4 ip <;> simp [hAAAA, h4, hn, hn2, e16, SetReply, defaultTTL]
    · by_cases hANY : q.Qtype = TypeANY
      · have hn : ¬ TypeANY = TypeA := by decide
        have hn2 : ¬ TypeANY = TypeAAAA := by decide
        cases h4 : To4 ip <;> simp [hANY, h4, hn, hn2, e16, SetReply, defaultTTL]
      · simp [hA, hAAAA, hANY, SetReply]


/-- C26: for a request with at least one question, `buildLocalDNSResponse`
returns the error `invalid IP address` when the override text does not parse;
otherwise it returns `Pack` of a reply with rcode NOERROR, the ID of the
request and its first question, whose answer section is one A record if the
question type is A or ANY and the address is IPv4 (`To4` is not nil), one AAAA
record if the type is AAAA or ANY and the address is IPv6-only (`To4` is nil),
and empty in every other case; the answer holds at most one record, and a
record has the name of the question, class IN and TTL 3600. When `Pack`
succeeds on the reply, the function fails if and only if the text does not
parse. -/
theorem C26_reply_table (lib : Lib) (hlib : lib.Sound) (req : Msg) (q0 : Question)
    (rest : List Question) (hq : req.Question = q0 :: rest) (ipStr : GoString) :
    (lib.ParseIP ipStr = none →
      buildLocalDNSResponse lib req ipStr = .ret (.error (.invalidIP ipStr))) ∧
    (∀ ip, lib.ParseIP ipStr = some ip →
      buildLocalDNSResponse lib req ipStr = .ret (lib.Pack (localReply req q0 ip)) ∧
      (localReply req q0 ip).Rcode = RcodeSuccess ∧
      (localReply req q0 ip).Id = req.Id ∧
      (localReply req q0 ip).Question = [q0] ∧
      (localReply req q0 ip).Answer =
        (if (q0.Qtype = TypeA ∨ q0.Qtype = TypeANY) ∧ To4 ip ≠ none then
          [RR.A { Name := q0.Name, Rrtype := TypeA, Class := ClassINET, Ttl := 3600 }
            ((To4 ip).getD [])]
        else if (q0.Qtype = TypeAAAA ∨ q0.Qtype = TypeANY) ∧ To4 ip = none then
          [RR.AAAA { Name := q0.Name, Rrtype := TypeAAAA, Class := ClassINET, Ttl := 3600 } ip]
        else []) ∧
      (localReply req q0 ip).Answer.length ≤ 1 ∧
      (∀ rr ∈ (localReply req q0 ip).Answer,
        rr.Header.Name = q0.Name ∧ rr.Header.Class = ClassINET ∧ rr.Header.Ttl = 3600)) ∧
    ((∀ ip, lib.ParseIP ipStr = some ip → ∃ b, lib.Pack (localReply req q0 ip) = .ok b) →
      ((∃ e, buildLocalDNSResponse lib req ipStr = .ret (.error e)) ↔
        lib.ParseIP ipStr = none)) := by
  have hbuild : ∀ ip, lib.ParseIP ipStr = some ip →
      buildLocalDNSResponse lib req ipStr = .ret (lib.Pack (localReply req q0 ip)) := by
    intro ip hip
    simp [buildLocalDNSResponse, hip, hq]
  have hnone : lib.ParseIP ipStr = none →
      buildLocalDNSResponse lib req ipStr = .ret (.error (.invalidIP ipStr)) := by
    intro hip
    simp [buildLocalDNSResponse, hip]
  refine ⟨hnone, ?_, ?_⟩
  · intro ip hip
    have h16 := hlib.parseIP_len ipStr ip hip
    obtain ⟨h1, h2, h3⟩ := localReply_fixed req q0 ip
    have hans : (localReply req q0 ip).Answer =
        (if (q0.Qtype = TypeA ∨ q0.Qtype = TypeANY) ∧ To4 ip ≠ none then
          [RR.A { Name := q0.Name, Rrtype := TypeA, Class := ClassINET, Ttl := 3600 }
            ((To4 ip).getD [])]
        else if (q0.Qtype = TypeAAAA ∨ q0.Qtype = TypeANY) ∧ To4 ip = none then
          [RR.AAAA { Name := q0.Name, Rrtype := TypeAAAA, Class := ClassINET, Ttl := 3600 } ip]
        else []) := by
      rw [localReply_answer req q0 ip h16]
      have n1 : ¬ TypeA = TypeANY := by decide
      have n2 : ¬ TypeA = TypeAAAA := by decide
      have n3 : ¬ TypeAAAA = TypeANY := by decide
      by_cases hA : q0.Qtype = TypeA
      · cases h4 : To4 ip <;> simp [hA, n1, n2]
      · by_cases hANY : q0.Qtype = TypeANY
        · cases h4 : To4 ip <;> simp [hANY, Ne.symm n1, Ne.symm n3]
        · by_cases hAAAA : q0.Qtype = TypeAAAA
          · cases h4 : To4 ip <;> simp [hAAAA, n3, Ne.symm n2]
          · simp [hA, hANY, hAAAA]
    refine ⟨hbuild ip hip, h1, h2, ?_, hans, ?_, ?_⟩
    · rw [h3, hq]; rfl
    · rw [hans]; split_ifs <;> simp
    · rw [hans]
      intro rr hrr
      split_ifs at hrr
      · rw [List.mem_singleton] at hrr; subst hrr; exact ⟨rfl, rfl, rfl⟩
      · rw [List.mem_singleton] at hrr; subst hrr; exact ⟨rfl, rfl, rfl⟩
      · cases hrr
  · intro hpack
    constructor
    · rintro ⟨e, he⟩
      cases hip : lib.ParseIP ipStr with
      | none => rfl
      | some ip =>
        obtain ⟨b, hb⟩ := hpack ip hip
        rw [hbuild ip hip, hb] at he
        cases he
    · intro hip
      exact ⟨_, hnone hip⟩

/-- C26 on the request `example.com. IN ANY` and the override `2001:db8::1`:
one AAAA record. -/
theorem C26_reply_table_witness :
    buildLocalDNSResponse sampleLib requestExampleANY "2001:db8::1".toList =
      .ret (sampleLib.Pack (localReply requestExampleANY
        { Name := "example.com.".toList, Qtype := TypeANY, Qclass := ClassINET } ip2001db8)) ∧
    (localReply requestExampleANY
        { Name := "example.com.".toList, Qtype := TypeANY, Qclass := ClassINET }
        ip2001db8).Answer =
      [RR.AAAA { Name := "example.com.".toList, Rrtype := TypeAAAA, Class := ClassINET,
                 Ttl := 3600 } ip2001db8] :=
  have h := (C26_reply_table sampleLib sampleLib_sound requestExampleANY
    { Name := "example.com.".toList, Qtype := TypeANY, Qclass := ClassINET } [] rfl
    "2001:db8::1".toList).2.1 ip2001db8 (by decide)
  ⟨h.1, h.2.2.2.2.1.trans (by decide)⟩

theorem findValueByPattern_none (m : List (GoString × GoString)) (host : GoString) :
    findValueByPattern m host = ([], false) ↔ ∀ e ∈ m, matchesPattern host e.1 = false := by
  induction m with
  | nil => simp [findValueByPattern]
  | cons e rest ih =>
    obtain ⟨k, v⟩ := e
    unfold findValueByPattern
    by_cases h : matchesPattern host k = true
    · simp [h]
    · have h' : matchesPattern host k = false := by simpa using h
      simp [h', ih]

theorem findValueByPattern_some (m : List (GoString × GoString)) (host : GoString)
    (h : ∃ e ∈ m, matchesPattern host e.1 = true) :
    ∃ k v, (k, v) ∈ m ∧ matchesPattern host k = true ∧ findValueByPattern m host = (v, true) := by
  induction m with
  | nil => simp at h
  | cons e rest ih =>
    obtain ⟨k, v⟩ := e
    unfold findValueByPattern
    by_cases hk : matchesPattern host k = true
    · exact ⟨k, v, List.mem_cons_self _ _, hk, by simp [hk]⟩
    · have hk' : matchesPattern host k = false := by simpa using hk
      obtain ⟨e, he, hm⟩ := h
      rcases List.mem_cons.1 he with rfl | he
      · simp [hk'] at hm
      · obtain ⟨k2, v2, h1, h2, h3⟩ := ih ⟨e, he, hm⟩
        exact ⟨k2, v2, List.mem_cons_of_mem _ h1, h2, by simp [hk', h3]⟩

/-- C27: `findValueByPattern(m, h)` returns `("", false)` if and only if no
pattern of `m` matches `h`; otherwise it returns `(v, true)` for an entry
`(k, v)` of `m` whose pattern `k` matches `h`. `isDomainBlocked(h)` is true if
and only if some pattern of the blocklist matches `h`. -/
theorem C27_override_lookup (cfg : Config) (m : List (GoString × GoString)) (h : GoString) :
    (findValueByPattern m h = ([], false) ↔ ¬ ∃ e ∈ m, matchesPattern h e.1 = true) ∧
    ((∃ e ∈ m, matchesPattern h e.1 = true) →
      ∃ k v, (k, v) ∈ m ∧ matchesPattern h k = true ∧ findValueByPattern m h = (v, true)) ∧
    (isDomainBlocked cfg h = true ↔ ∃ b ∈ cfg.BlockedDomains, matchesPattern h b = true) := by
  refine ⟨?_, findValueByPattern_some m h, isDomainBlocked_iff cfg h⟩
  rw [findValueByPattern_none]
  constructor
  · rintro h1 ⟨e, he, hm⟩
    rw [h1 e he] at hm
    cases hm
  · intro h1 e he
    cases hm : matchesPattern h e.1 with
    | false => rfl
    | true => exact absurd ⟨e, he, hm⟩ h1

theorem setCachedResponse_metrics (t : Int) (s : State) (q r : Bytes) :
    (setCachedResponse t s q r).1.metrics = s.metrics := by
  unfold setCachedResponse
  split_ifs
  · rfl
  · simp only
    split <;> rfl

theorem forwardUpstream_counters (lib : Lib) (t : Int) (s : State) (q : Bytes) :
    ∀ (ups : List GoString) (lastErr : Option GoError) (log : List GoString),
      (forwardUpstream lib t s q ups lastErr log).state.metrics.cacheHits = s.metrics.cacheHits ∧
      (forwardUpstream lib t s q ups lastErr log).state.metrics.cacheMisses
        = s.metrics.cacheMisses := by
  intro ups
  induction ups with
  | nil => intro lastErr log; exact ⟨rfl, rfl⟩
  | cons u rest ih =>
    intro lastErr log
    unfold forwardUpstream
    cases hu : queryUpstreamDoH lib u q with
    | error e => exact ih _ _
    | ok resp =>
      simp only
      have hm := setCachedResponse_metrics t s q resp
      cases hs : setCachedResponse t s q resp with
      | mk s1 o =>
        rw [hs] at hm
        simp only at hm
        cases o <;> simp only <;> rw [hm] <;> exact ⟨rfl, rfl⟩

theorem processDNSQuery_miss_counters (lib : Lib) (tLookup tInsert : Int) (s s1 : State)
    (query cached : Bytes) (req : Msg) (q0 : Question) (rest : List Question)
    (hu : lib.Unpack query = .ok req) (hq : req.Question = q0 :: rest)
    (hnb : isDomainBlocked s.config (trimDot q0.Name) = false)
    (hmiss : getCachedResponse tLookup s query = (s1, .ret (cached, false))) :
    (processDNSQuery lib tLookup tInsert s query).state.metrics.cacheHits
      = s1.metrics.cacheHits ∧
    (processDNSQuery lib tLookup tInsert s query).state.metrics.cacheMisses
      = s1.metrics.cacheMisses := by
  unfold processDNSQuery
  simp only [hu, hq, hnb, hmiss, Bool.false_eq_true, if_false]
  cases hf : findValueByPattern s1.config.Domains (trimDot q0.Name) with
  | mk ip ok =>
    cases ok with
    | false => exact forwardUpstream_counters lib tInsert s1 query _ _ _
    | true =>
      simp only
      cases hb : buildLocalDNSResponse lib req ip with
      | panic => exact ⟨rfl, rfl⟩
      | ret x =>
        cases x with
        | error e => exact ⟨rfl, rfl⟩
        | ok resp =>
          simp only
          have hm := setCachedResponse_metrics tInsert s1 query resp
          cases hs : setCachedResponse tInsert s1 query resp with
          | mk s2 o =>
            rw [hs] at hm
            simp only at hm
            cases o <;> simp only <;> rw [hm] <;> exact ⟨rfl, rfl⟩

/-- C28: for a query that unpacks to a message with a question whose name is
not blocked: when the cache holds an entry for the query that has not expired,
`processDNSQuery` returns exactly the bytes of the entry, posts to no upstream,
and leaves the globals as they were but for `cacheHits`, which goes up by one
(an increment of a `uint64`: by exactly 1 below the maximum), whatever the
override map holds; when the cache holds no entry, or an expired one,
`cacheMisses` goes up by one and `cacheHits` stays. -/
theorem C28_cache_before_override (lib : Lib) (hlib : lib.Sound) (tLookup tInsert : Int)
    (s : State) (query : Bytes) (req : Msg) (q0 : Question) (rest : List Question)
    (hu : lib.Unpack query = .ok req) (hq : req.Question = q0 :: rest)
    (hnb : isDomainBlocked s.config (trimDot q0.Name) = false) :
    (∀ entry, s.dnsCache.Load (getCacheKey query) = some entry → tLookup ≤ entry.ExpiresAt →
      (processDNSQuery lib tLookup tInsert s query).out = .ret (.ok entry.Response) ∧
      (processDNSQuery lib tLookup tInsert s query).contacted = [] ∧
      (processDNSQuery lib tLookup tInsert s query).state
        = { s with metrics := { s.metrics with cacheHits := (s.metrics.cacheHits + 1) % 2 ^ 64 } } ∧
      (s.metrics.cacheHits + 1 < 2 ^ 64 →
        (processDNSQuery lib tLookup tInsert s query).state.metrics.cacheHits
          = s.metrics.cacheHits + 1)) ∧
    ((s.dnsCache.Load (getCacheKey query) = none ∨
        ∃ entry, s.dnsCache.Load (getCacheKey query) = some entry ∧ entry.ExpiresAt < tLookup) →
      (processDNSQuery lib tLookup tInsert s query).state.metrics.cacheMisses
        = (s.metrics.cacheMisses + 1) % 2 ^ 64 ∧
      (s.metrics.cacheMisses + 1 < 2 ^ 64 →
        (processDNSQuery lib tLookup tInsert s query).state.metrics.cacheMisses
          = s.metrics.cacheMisses + 1) ∧
      (processDNSQuery lib tLookup tInsert s query).state.metrics.cacheHits
        = s.metrics.cacheHits) := by
  have hlen : 13 ≤ query.length := by
    have := hlib.unpack_len query req hu (by rw [hq]; exact List.cons_ne_nil _ _)
    omega
  constructor
  · intro entry hl ht
    have hhit := getCachedResponse_hit tLookup s query entry hl ht hlen
    have e : processDNSQuery lib tLookup tInsert s query =
        { state := { s with metrics := s.metrics.IncCacheHits },
          out := .ret (.ok entry.Response), contacted := [] } := by
      unfold processDNSQuery
      simp only [hu, hq, hnb, hhit, Bool.false_eq_true, if_false]
    rw [e]
    refine ⟨rfl, rfl, rfl, fun h => ?_⟩
    exact Nat.mod_eq_of_lt h
  · intro hmiss
    have key : ∃ s1 cached, getCachedResponse tLookup s query = (s1, .ret (cached, false)) ∧
        s1.metrics = s.metrics.IncCacheMisses := by
      rcases hmiss with hl | ⟨entry, hl, ht⟩
      · exact ⟨_, _, getCachedResponse_absent tLookup s query hl, rfl⟩
      · exact ⟨_, _, getCachedResponse_expired tLookup s query entry hl ht, rfl⟩
    obtain ⟨s1, cached, hg, hm⟩ := key
    obtain ⟨h1, h2⟩ := processDNSQuery_miss_counters lib tLookup tInsert s s1 query cached req q0
      rest hu hq hnb hg
    rw [h1, h2, hm]
    refine ⟨rfl, fun h => ?_, rfl⟩
    exact Nat.mod_eq_of_lt h

/-- C28 on a cache that holds bytes for `queryExampleA` while an override
matches its name: the cached bytes are returned. -/
theorem C28_cache_before_override_witness :
    (processDNSQuery sampleLib 50 50
      { config := { Domains := [("example.com".toList, "10.0.0.1".toList)] },
        dnsCache := [(getCacheKey queryExampleA, CacheEntry.mk [1, 2, 3] 100)] }
      queryExampleA).out = .ret (.ok [1, 2, 3]) ∧
    findValueByPattern [("example.com".toList, "10.0.0.1".toList)] "example.com".toList
      = ("10.0.0.1".toList, true) :=
  ⟨((C28_cache_before_override sampleLib sampleLib_sound 50 50
      { config := { Domains := [("example.com".toList, "10.0.0.1".toList)] },
        dnsCache := [(getCacheKey queryExampleA, CacheEntry.mk [1, 2, 3] 100)] }
      queryExampleA requestExampleA
      { Name := "example.com.".toList, Qtype := TypeA, Qclass := ClassINET } []
      (by decide) rfl (by decide)).1 (CacheEntry.mk [1, 2, 3] 100) (by decide) (by decide)).1,
    by decide⟩

/-! The two copies of the matcher -/

theorem hasPrefix_star_dot (p : GoString) (hp : hasPrefix p ['*', '.'] = true) :
    ∃ d, p = '*' :: '.' :: d := by
  cases p with
  | nil => simp [hasPrefix, List.isPrefixOf] at hp
  | cons a p1 =>
    cases p1 with
    | nil => simp [hasPrefix, List.isPrefixOf] at hp
    | cons b d =>
      simp [hasPrefix, List.isPrefixOf] at hp
      obtain ⟨h1, h2⟩ := hp
      subst h1; subst h2
      exact ⟨d, rfl⟩

theorem matchers_compare (host pattern : GoString) :
    (hasPrefix (normalise pattern) ['*', '.'] = true →
      matchesPattern host pattern = hasSuffix (normalise host) ((normalise pattern).drop 1) ∧
      matchesPatternTest host pattern =
        (hasSuffix (normalise host) ((normalise pattern).drop 1) &&
          decide ((normalise host).length > ((normalise pattern).drop 1).length))) ∧
    (hasPrefix (normalise pattern) ['*', '.'] = false →
      matchesPattern host pattern = matchesPatternTest host pattern) := by
  constructor
  · intro hp
    obtain ⟨d, hd⟩ := hasPrefix_star_dot _ hp
    have hp' : hasPrefix (toLower (trimDot pattern)) ['*', '.'] = true := hp
    have hd' : toLower (trimDot pattern) = '*' :: '.' :: d := hd
    unfold matchesPattern matchesPatternTest
    simp only [hp', if_true]
    rw [← show normalise host = toLower (trimDot host) from rfl,
      ← show normalise pattern = toLower (trimDot pattern) from rfl, hd]
    simp only [List.drop_succ_cons, List.drop_zero]
    rw [if_neg (by simp), if_neg (by simp)]
    cases hs : hasSuffix (normalise host) ('.' :: d)
    · simp
    · obtain ⟨x, hx⟩ := (hasSuffix_iff _ _).1 hs
      constructor
      · simp only [Bool.true_and, decide_eq_true_eq, countDots, ge_iff_le]
        rw [hx, List.count_cons_of_ne (by decide), List.count_append]
        omega
      · simp only [Bool.not_true, Bool.false_eq_true, if_false, Bool.true_and]
        congr 1
        simp only [gt_iff_lt, eq_iff_iff]
        omega
  · intro hp
    have hp' : hasPrefix (toLower (trimDot pattern)) ['*', '.'] = false := hp
    unfold matchesPattern matchesPatternTest
    simp only [hp', Bool.false_eq_true, if_false]

/-- C29, evaluated at the failing input: for the host `.example.com` and the
pattern `*.example.com` the matcher of `src/main.go` gives true and the one of
`src/test_matching.go` gives false. The two differ exactly on a wildcard
pattern and a host whose normal form is the pattern without its `*`. -/
theorem C29_matcher_copies_disagree :
    matchesPattern ".example.com".toList "*.example.com".toList = true ∧
    matchesPatternTest ".example.com".toList "*.example.com".toList = false ∧
    (∀ host pattern : GoString,
      matchesPattern host pattern ≠ matchesPatternTest host pattern ↔
        hasPrefix (normalise pattern) ['*', '.'] = true ∧
        normalise host = (normalise pattern).drop 1) := by
  refine ⟨by decide, by decide, ?_⟩
  intro host pattern
  obtain ⟨h1, h2⟩ := matchers_compare host pattern
  cases hp : hasPrefix (normalise pattern) ['*', '.'] with
  | false =>
    rw [h2 hp]
    simp
  | true =>
    obtain ⟨e1, e2⟩ := h1 hp
    rw [e1, e2]
    cases hs : hasSuffix (normalise host) ((normalise pattern).drop 1) with
    | false =>
      simp only [Bool.false_and, ne_eq, not_true_eq_false, true_and, false_iff]
      intro he
      have hs2 : hasSuffix (List.drop 1 (normalise pattern)) (List.drop 1 (normalise pattern))
          = true := (hasSuffix_iff _ _).2 ⟨[], rfl⟩
      rw [he, hs2] at hs
      cases hs
    | true =>
      obtain ⟨x, hx⟩ := (hasSuffix_iff _ _).1 hs
      simp only [Bool.true_and, true_and, ne_eq]
      constructor
      · intro hne
        have hl : ¬ (normalise host).length > ((normalise pattern).drop 1).length := by
          intro hl
          exact hne (decide_eq_true hl).symm
        rw [hx, List.length_append] at hl
        have hx0 : x = [] := List.length_eq_zero.1 (by omega)
        rw [hx, hx0, List.nil_append]
      · intro he
        rw [he]
        simp

end SmartSNI
